import Mathlib

/-!
# HP-UX nettl capture reader (wiretap/nettl.c)

A shallow embedding of `nettl_open`, `nettl_read`, `nettl_seek_read`,
`nettl_read_rec_header` and `nettl_read_rec_data`, with the byte source of
`file_wrappers.h` modelled as a list of octets and a read position.

Conventions of the embedding:
* an octet (`guint8`, `guchar`, `char`) is a `Fin 256`;
* `guint16` and `guint32` values are natural numbers reduced modulo `2^16`
  and `2^32` at every assignment; `int` and `long` values are integers;
* output parameters (`*err`, `*err_info`, `*fddihack`, `phdr`,
  `pseudo_header`, the buffer `pd`) are passed in and returned;
* the buffer `pd` of `nettl_read_rec_data` and the frame buffer of the handle
  are represented by the octets a call stores into them from index 0 on, in
  order; the caller's buffer of `nettl_seek_read` is passed in and returned
  with these octets in place of its first octets;
* a read that stores more octets into the local array `dummy` of
  `nettl_read_rec_header` than the array holds is recorded in the result
  (`overrun`).
-/

namespace Nettl

/-! ## Octets and the byte source -/

/-- An octet: `guint8`, `guchar` and `char` of the C source. -/
abbrev guint8 := Fin 256

/-- Modelled from the spec: `FILE_T` and the primitives `file_read`,
`file_seek` and `file_error` come from `file_wrappers.h`, which is not part of
the sources at hand; the spec treats them as an abstract seekable byte source.
A stream is the octets the source can deliver (`data`), the read position
(`pos`), and the code `file_error` reports once a read came up short
(`error`, 0 when the octets simply ended). -/
structure FILE_T where
  data : List guint8
  pos : Nat
  error : Int
deriving DecidableEq, Repr

/-- Modelled from the spec: `file_read(buf, 1, count, fh)` of
`file_wrappers.h`, with the semantics of `fread`. It stores up to `count`
octets into `buf` and advances the position by the number stored; the result
is the octets stored, whose number is the C return value.  A negative `count`
converts to an unsigned count of at least `2^31`, more than any stream
addressed by `long` offsets still holds, so such a read stores all that
remains. -/
def file_read (count : Int) (fh : FILE_T) : List guint8 × FILE_T :=
  let rest := fh.data.drop fh.pos
  let got := if count < 0 then rest else rest.take count.toNat
  (got, { fh with pos := fh.pos + got.length })

/-- Modelled from the spec: `file_error(fh)` of `file_wrappers.h`. -/
def file_error (fh : FILE_T) : Int := fh.error

/-- Modelled from the spec: `file_seek(fh, offset, SEEK_SET, err)` of
`file_wrappers.h`: an absolute seek; it fails (result `-1`) on a negative
offset and otherwise sets the read position. -/
def file_seek (fh : FILE_T) (offset : Int) : Int × FILE_T :=
  if offset < 0 then (-1, fh) else (offset, { fh with pos := offset.toNat })

/-- The numeric value of the octet at index `i` of a buffer (0 past its end). -/
def octet (p : List guint8) (i : Nat) : Nat := (p.getD i 0).val

/-- Modelled from the spec: the macro `pntohs` of `pint.h` (not part of the
sources at hand): the big-endian 16-bit value of the two octets at `off`. -/
def pntohs (p : List guint8) (off : Nat) : Nat :=
  octet p off * 256 + octet p (off + 1)

/-- Modelled from the spec: the macro `pntohl` of `pint.h` (not part of the
sources at hand): the big-endian 32-bit value of the four octets at `off`. -/
def pntohl (p : List guint8) (off : Nat) : Nat :=
  octet p off * 16777216 + octet p (off + 1) * 65536
    + octet p (off + 2) * 256 + octet p (off + 3)

/-- Conversion of a `guint32` to `int`. -/
def toInt32 (n : Nat) : Int :=
  if n % 4294967296 < 2147483648 then (n % 4294967296 : Nat)
  else ((n % 4294967296 : Nat) : Int) - 4294967296

/-- Conversion of an `int` to `guint32`. -/
def toUInt32 (i : Int) : Nat := (i % 4294967296).toNat

/-! ## Constants of the headers that are not part of the sources at hand -/

/-- The subsystems `nettl_read_rec_header` has a `case` label for. -/
inductive Subsys where
  | LAN100 | EISA100BT | BASE100 | GSC100BT | PCI100BT | SPP100BT | GELAN
  | BTLAN | INTL100 | IGELAN | IETHER | HPPB_FDDI | EISA_FDDI | PCI_FDDI
  | HSC_FDDI | TOKEN | PCI_TR | NS_LS_IP | NS_LS_LOOPBACK | NS_LS_TCP
  | NS_LS_UDP | HP_APAPORT | HP_APALACP | NS_LS_IPV6 | NS_LS_ICMPV6
  | NS_LS_ICMP | NS_LS_DRIVER | SX25L2
deriving DecidableEq, Repr

/-- The constants `nettl.c` takes from `nettl.h` and `wtap.h`, neither of
which is part of the sources at hand; they are a parameter of the embedding.
`NETTL_SUBSYS s` is the value of the macro `NETTL_SUBSYS_s`. -/
structure Consts where
  NETTL_SUBSYS : Subsys → Nat
  NETTL_HDR_PDUIN : Nat
  FROM_DCE : Nat
  WTAP_FILE_NETTL : Int
  WTAP_ERR_SHORT_READ : Int
  WTAP_ERR_UNSUPPORTED_ENCAP : Int

/-- The `case` labels of a C `switch` are pairwise distinct. -/
def Consts.Distinct (K : Consts) : Prop := Function.Injective K.NETTL_SUBSYS

/-- Values for the constants, used for the sample records: the subsystem codes
and record type found in HP-UX nettl traces (those of the upstream `nettl.h`)
and the error codes of `wtap.h`.  The theorems hold for every assignment with
pairwise distinct subsystem codes. -/
def hpux : Consts where
  NETTL_SUBSYS
    | .LAN100 => 97 | .EISA100BT => 164 | .BASE100 => 172 | .GSC100BT => 178
    | .PCI100BT => 179 | .SPP100BT => 180 | .GELAN => 185 | .BTLAN => 210
    | .INTL100 => 233 | .IGELAN => 252 | .IETHER => 253 | .HPPB_FDDI => 95
    | .EISA_FDDI => 174 | .PCI_FDDI => 176 | .HSC_FDDI => 177 | .TOKEN => 31
    | .PCI_TR => 187 | .NS_LS_IP => 9 | .NS_LS_LOOPBACK => 2 | .NS_LS_TCP => 6
    | .NS_LS_UDP => 8 | .HP_APAPORT => 189 | .HP_APALACP => 190
    | .NS_LS_IPV6 => 244 | .NS_LS_ICMPV6 => 245 | .NS_LS_ICMP => 23
    | .NS_LS_DRIVER => 11 | .SX25L2 => 34
  NETTL_HDR_PDUIN := 0x20
  FROM_DCE := 0x80
  WTAP_FILE_NETTL := 15
  WTAP_ERR_SHORT_READ := -12
  WTAP_ERR_UNSUPPORTED_ENCAP := -8

/-- Modelled from the spec: the `WTAP_ENCAP_*` constants of `wtap.h` (not part
of the sources at hand), the closed enumeration LinkType of the spec together
with the two file-wide values "unknown" and "per packet" (mixed). -/
inductive wtap_encap where
  | WTAP_ENCAP_UNKNOWN | WTAP_ENCAP_PER_PACKET
  | WTAP_ENCAP_RAW_IP | WTAP_ENCAP_RAW_ICMP | WTAP_ENCAP_RAW_ICMPV6
  | WTAP_ENCAP_FDDI | WTAP_ENCAP_TOKEN_RING | WTAP_ENCAP_ETHERNET
  | WTAP_ENCAP_LAPB
deriving DecidableEq, Repr

open wtap_encap

/-- The fields of `struct wtap_pkthdr` that `nettl.c` writes. -/
structure wtap_pkthdr where
  tv_sec : Nat
  tv_usec : Nat
  caplen : Nat
  len : Nat
  pkt_encap : wtap_encap
deriving DecidableEq, Repr

/-- The members of `union wtap_pseudo_header` that `nettl.c` writes; the value
of the union is the member written last. -/
inductive wtap_pseudo_header where
  | eth (fcs_len : Int)
  | x25 (flags : Nat)
  | other (tag : Nat)
deriving DecidableEq, Repr

/-! ## Record header layouts -/

/-- The size of `struct nettlrec_sx25l2_hdr`. -/
def sizeof_lapb_hdr : Nat := 8 + 1 + 55 + 2 + 2 + 4 + 4 + 4 + 4

/-- The size of `struct nettlrec_ns_ls_ip_hdr`. -/
def sizeof_ip_hdr : Nat := 8 + 1 + 19 + 4 + 4 + 4 + 4 + 16

/-- The size of `struct nettlrec_ns_ls_drv_eth_hdr`. -/
def sizeof_drv_eth_hdr : Nat := 4 + 2 + 2 + 4 + 4 + 4 + 4

/-- Offset of `from_dce` in `struct nettlrec_sx25l2_hdr`. -/
def lapb_from_dce : Nat := 8
/-- Offset of `caplen` in `struct nettlrec_sx25l2_hdr`. -/
def lapb_caplen : Nat := 64
/-- Offset of `length` in `struct nettlrec_sx25l2_hdr`. -/
def lapb_length : Nat := 66
/-- Offset of `sec` in `struct nettlrec_sx25l2_hdr`. -/
def lapb_sec : Nat := 72
/-- Offset of `usec` in `struct nettlrec_sx25l2_hdr`. -/
def lapb_usec : Nat := 76

/-- Offset of `rectype` in `struct nettlrec_ns_ls_ip_hdr`. -/
def ip_rectype : Nat := 8
/-- Offset of `caplen` in `struct nettlrec_ns_ls_ip_hdr`. -/
def ip_caplen : Nat := 28
/-- Offset of `length` in `struct nettlrec_ns_ls_ip_hdr`. -/
def ip_length : Nat := 32
/-- Offset of `sec` in `struct nettlrec_ns_ls_ip_hdr`. -/
def ip_sec : Nat := 36
/-- Offset of `usec` in `struct nettlrec_ns_ls_ip_hdr`. -/
def ip_usec : Nat := 40

/-- Offset of `caplen` in `struct nettlrec_ns_ls_drv_eth_hdr`. -/
def drv_caplen : Nat := 4
/-- Offset of `length` in `struct nettlrec_ns_ls_drv_eth_hdr`. -/
def drv_length : Nat := 6

/-- The two magic numbers at the start of a nettl file. -/
def nettl_magic_hpux9 : List guint8 :=
  [0x00, 0x00, 0x00, 0x01, 0x00, 0x00, 0x00, 0x00, 0x00, 0x07, 0xD0, 0x00]

/-- The magic number of HP-UX 10 and 11 traces. -/
def nettl_magic_hpux10 : List guint8 :=
  [0x54, 0x52, 0x00, 0x64, 0x00, 0x00, 0x00, 0x00, 0x00, 0x00, 0x00, 0x80]

/-! ## nettl_read_rec_header -/

/-- The output parameters of `nettl_read_rec_header`, its return value `ret`
and the stream after the call.  `overrun` tells that a read stored more octets
into the local array `guint8 dummy[4]` (nettl.c 276) than it holds: C gives
such a call no defined behaviour, and the other components then hold what the
statements of the function compute when the octets stored past the end of
`dummy` change nothing the function reads afterwards. -/
structure RecHeader where
  ret : Int
  err : Int
  err_info : Option String
  phdr : wtap_pkthdr
  pseudo_header : wtap_pseudo_header
  fddihack : Bool
  fh : FILE_T
  overrun : Bool
deriving DecidableEq, Repr

/-- The block that follows every read of the header decoder that came up
short of the count asked for: `*err = file_error(fh)`; a non-zero error gives
`-1`, otherwise a partial read gives `WTAP_ERR_SHORT_READ` and `-1`, and a read
of nothing gives `0`. -/
def read_short (K : Consts) (bytes_read : Nat) (st : RecHeader) : RecHeader :=
  if file_error st.fh ≠ 0 then { st with ret := -1, err := file_error st.fh }
  else if bytes_read ≠ 0 then { st with ret := -1, err := K.WTAP_ERR_SHORT_READ }
  else { st with ret := 0, err := 0 }

/-- The labels of the first `case` group of the `switch` (nettl.c 295-320). -/
def lan_case_label (K : Consts) (encap : Nat) : Prop :=
  encap = K.NETTL_SUBSYS .LAN100 ∨ encap = K.NETTL_SUBSYS .EISA100BT
  ∨ encap = K.NETTL_SUBSYS .BASE100 ∨ encap = K.NETTL_SUBSYS .GSC100BT
  ∨ encap = K.NETTL_SUBSYS .PCI100BT ∨ encap = K.NETTL_SUBSYS .SPP100BT
  ∨ encap = K.NETTL_SUBSYS .GELAN ∨ encap = K.NETTL_SUBSYS .BTLAN
  ∨ encap = K.NETTL_SUBSYS .INTL100 ∨ encap = K.NETTL_SUBSYS .IGELAN
  ∨ encap = K.NETTL_SUBSYS .IETHER ∨ encap = K.NETTL_SUBSYS .HPPB_FDDI
  ∨ encap = K.NETTL_SUBSYS .EISA_FDDI ∨ encap = K.NETTL_SUBSYS .PCI_FDDI
  ∨ encap = K.NETTL_SUBSYS .HSC_FDDI ∨ encap = K.NETTL_SUBSYS .TOKEN
  ∨ encap = K.NETTL_SUBSYS .PCI_TR ∨ encap = K.NETTL_SUBSYS .NS_LS_IP
  ∨ encap = K.NETTL_SUBSYS .NS_LS_LOOPBACK ∨ encap = K.NETTL_SUBSYS .NS_LS_TCP
  ∨ encap = K.NETTL_SUBSYS .NS_LS_UDP ∨ encap = K.NETTL_SUBSYS .HP_APAPORT
  ∨ encap = K.NETTL_SUBSYS .HP_APALACP ∨ encap = K.NETTL_SUBSYS .NS_LS_IPV6
  ∨ encap = K.NETTL_SUBSYS .NS_LS_ICMPV6 ∨ encap = K.NETTL_SUBSYS .NS_LS_ICMP

instance (K : Consts) (encap : Nat) : Decidable (lan_case_label K encap) := by
  unfold lan_case_label; infer_instance

/-- The choice of `phdr->pkt_encap` at the head of the first `case` group
(nettl.c 321-343). -/
def lan_pkt_encap (K : Consts) (encap : Nat) (st : RecHeader) : RecHeader :=
  if encap = K.NETTL_SUBSYS .NS_LS_IP ∨ encap = K.NETTL_SUBSYS .NS_LS_LOOPBACK
      ∨ encap = K.NETTL_SUBSYS .NS_LS_UDP ∨ encap = K.NETTL_SUBSYS .NS_LS_TCP
      ∨ encap = K.NETTL_SUBSYS .NS_LS_IPV6 then
    { st with phdr := { st.phdr with pkt_encap := WTAP_ENCAP_RAW_IP } }
  else if encap = K.NETTL_SUBSYS .NS_LS_ICMP then
    { st with phdr := { st.phdr with pkt_encap := WTAP_ENCAP_RAW_ICMP } }
  else if encap = K.NETTL_SUBSYS .NS_LS_ICMPV6 then
    { st with phdr := { st.phdr with pkt_encap := WTAP_ENCAP_RAW_ICMPV6 } }
  else if encap = K.NETTL_SUBSYS .HPPB_FDDI ∨ encap = K.NETTL_SUBSYS .EISA_FDDI
      ∨ encap = K.NETTL_SUBSYS .PCI_FDDI ∨ encap = K.NETTL_SUBSYS .HSC_FDDI then
    { st with phdr := { st.phdr with pkt_encap := WTAP_ENCAP_FDDI } }
  else if encap = K.NETTL_SUBSYS .PCI_TR ∨ encap = K.NETTL_SUBSYS .TOKEN then
    { st with phdr := { st.phdr with pkt_encap := WTAP_ENCAP_TOKEN_RING } }
  else
    { st with phdr := { st.phdr with pkt_encap := WTAP_ENCAP_ETHERNET },
              pseudo_header := .eth 0 }

/-- The part of the first `case` group after the generic header and the
HP-UX 11 extra field have been read (nettl.c 375-477): the per-subsystem
padding and the length fields. `ip_hdr` is the generic header, `offset` the
number of octets read so far, `st.fh` the stream after them.  The pad of an
outbound HPPB FDDI record and the pad of a loopback record are read into
`dummy[4]` (nettl.c 404, 448): a read that stores more than 4 octets sets
`overrun`. -/
def lan_lengths (K : Consts) (encap : Nat) (ip_hdr : List guint8) (offset : Int)
    (st : RecHeader) : RecHeader :=
  let length : Nat := pntohl ip_hdr ip_length % 65536
  let caplen : Nat := pntohl ip_hdr ip_caplen % 65536
  let tv_sec := pntohl ip_hdr ip_sec
  let tv_usec := pntohl ip_hdr ip_usec
  if encap = K.NETTL_SUBSYS .HPPB_FDDI then
    if octet ip_hdr ip_rectype = K.NETTL_HDR_PDUIN then
      if length = 0 then { st with ret := 0, fddihack := true }
      else
        { st with ret := offset, fddihack := true,
                  phdr := { st.phdr with len := length, caplen := caplen,
                                         tv_sec := tv_sec, tv_usec := tv_usec } }
    else
      let dummyc := file_read 9 st.fh
      if dummyc.1.length ≠ 9 then
        read_short K dummyc.1.length { st with fh := dummyc.2 }
      else
        let padlen : Nat := octet dummyc.1 8
        let dummy := file_read padlen dummyc.2
        let st := { st with overrun := st.overrun || decide (4 < dummy.1.length) }
        if dummy.1.length ≠ padlen then
          read_short K dummy.1.length { st with fh := dummy.2 }
        else
          let padlen : Int := padlen + 9
          if length = 0 then { st with ret := 0, fh := dummy.2 }
          else
            { st with ret := offset + padlen, fh := dummy.2,
                      phdr := { st.phdr with len := toUInt32 (length - padlen),
                                             caplen := toUInt32 (caplen - padlen),
                                             tv_sec := tv_sec, tv_usec := tv_usec } }
  else if encap = K.NETTL_SUBSYS .PCI_FDDI ∨ encap = K.NETTL_SUBSYS .EISA_FDDI
      ∨ encap = K.NETTL_SUBSYS .HSC_FDDI then
    let dummy := file_read 3 st.fh
    if dummy.1.length ≠ 3 then
      read_short K dummy.1.length { st with fh := dummy.2 }
    else if length = 0 then { st with ret := 0, fh := dummy.2 }
    else
      { st with ret := offset + 3, fh := dummy.2,
                phdr := { st.phdr with len := toUInt32 (length - 3),
                                       caplen := toUInt32 (caplen - 3),
                                       tv_sec := tv_sec, tv_usec := tv_usec } }
  else if encap = K.NETTL_SUBSYS .NS_LS_LOOPBACK then
    let dummy := file_read 26 st.fh
    let st := { st with overrun := st.overrun || decide (4 < dummy.1.length) }
    if dummy.1.length ≠ 26 then
      read_short K dummy.1.length { st with fh := dummy.2 }
    else if length = 0 then { st with ret := 0, fh := dummy.2 }
    else
      { st with ret := offset + 26, fh := dummy.2,
                phdr := { st.phdr with len := toUInt32 (length - 26),
                                       caplen := toUInt32 (caplen - 26),
                                       tv_sec := tv_sec, tv_usec := tv_usec } }
  else if length = 0 then { st with ret := 0 }
  else
    { st with ret := offset,
              phdr := { st.phdr with len := length, caplen := caplen,
                                     tv_sec := tv_sec, tv_usec := tv_usec } }

/-- The first `case` group of the `switch` (nettl.c 295-477); `st.fh` is the
stream after the 4-octet record prefix. -/
def lan_case (K : Consts) (is_hpux_11 : Bool) (encap : Nat) (st : RecHeader) :
    RecHeader :=
  let st := lan_pkt_encap K encap st
  let ip_hdr := file_read sizeof_ip_hdr st.fh
  if ip_hdr.1.length ≠ sizeof_ip_hdr then
    read_short K ip_hdr.1.length { st with fh := ip_hdr.2 }
  else if is_hpux_11 then
    let dummy := file_read 4 ip_hdr.2
    if dummy.1.length ≠ 4 then
      read_short K dummy.1.length { st with fh := dummy.2 }
    else
      lan_lengths K encap ip_hdr.1 (4 + sizeof_ip_hdr + 4) { st with fh := dummy.2 }
  else
    lan_lengths K encap ip_hdr.1 (4 + sizeof_ip_hdr) { st with fh := ip_hdr.2 }

/-- The sub-header of `case NETTL_SUBSYS_NS_LS_DRIVER` (nettl.c 509-536),
after the generic header and the HP-UX 11 extra field. -/
def driver_lengths (K : Consts) (ip_hdr : List guint8) (offset : Int)
    (st : RecHeader) : RecHeader :=
  let st := { st with phdr := { st.phdr with pkt_encap := WTAP_ENCAP_ETHERNET },
                      pseudo_header := .eth 0 }
  let drv_eth_hdr := file_read sizeof_drv_eth_hdr st.fh
  if drv_eth_hdr.1.length ≠ sizeof_drv_eth_hdr then
    read_short K drv_eth_hdr.1.length { st with fh := drv_eth_hdr.2 }
  else
    let length : Nat := pntohs drv_eth_hdr.1 drv_length % 65536
    if length = 0 then { st with ret := 0, fh := drv_eth_hdr.2 }
    else
      { st with ret := offset + sizeof_drv_eth_hdr, fh := drv_eth_hdr.2,
                phdr := { st.phdr with
                            len := length,
                            caplen := pntohs drv_eth_hdr.1 drv_caplen % 65536,
                            tv_sec := pntohl ip_hdr ip_sec,
                            tv_usec := pntohl ip_hdr ip_usec } }

/-- The arm `case NETTL_SUBSYS_NS_LS_DRIVER` (nettl.c 478-536). -/
def driver_case (K : Consts) (is_hpux_11 : Bool) (st : RecHeader) : RecHeader :=
  let ip_hdr := file_read sizeof_ip_hdr st.fh
  if ip_hdr.1.length ≠ sizeof_ip_hdr then
    read_short K ip_hdr.1.length { st with fh := ip_hdr.2 }
  else if is_hpux_11 then
    let dummy := file_read 4 ip_hdr.2
    if dummy.1.length ≠ 4 then
      read_short K dummy.1.length { st with fh := dummy.2 }
    else
      driver_lengths K ip_hdr.1 (4 + sizeof_ip_hdr + 4) { st with fh := dummy.2 }
  else
    driver_lengths K ip_hdr.1 (4 + sizeof_ip_hdr) { st with fh := ip_hdr.2 }

/-- The tail of `case NETTL_SUBSYS_SX25L2` (nettl.c 567-576). -/
def lapb_lengths (K : Consts) (lapb_hdr : List guint8) (offset : Int)
    (st : RecHeader) : RecHeader :=
  let length : Nat := pntohs lapb_hdr lapb_length % 65536
  if length = 0 then { st with ret := 0 }
  else
    { st with ret := offset,
              phdr := { st.phdr with len := length, caplen := length,
                                     tv_sec := pntohl lapb_hdr lapb_sec,
                                     tv_usec := pntohl lapb_hdr lapb_usec },
              pseudo_header :=
                .x25 (if octet lapb_hdr lapb_from_dce &&& 0x20 ≠ 0
                      then K.FROM_DCE else 0x00) }

/-- The arm `case NETTL_SUBSYS_SX25L2` (nettl.c 537-576). -/
def lapb_case (K : Consts) (is_hpux_11 : Bool) (st : RecHeader) : RecHeader :=
  let st := { st with phdr := { st.phdr with pkt_encap := WTAP_ENCAP_LAPB } }
  let lapb_hdr := file_read sizeof_lapb_hdr st.fh
  if lapb_hdr.1.length ≠ sizeof_lapb_hdr then
    read_short K lapb_hdr.1.length { st with fh := lapb_hdr.2 }
  else if is_hpux_11 then
    let dummy := file_read 4 lapb_hdr.2
    if dummy.1.length ≠ 4 then
      read_short K dummy.1.length { st with fh := dummy.2 }
    else
      lapb_lengths K lapb_hdr.1 (4 + sizeof_lapb_hdr + 4) { st with fh := dummy.2 }
  else
    lapb_lengths K lapb_hdr.1 (4 + sizeof_lapb_hdr) { st with fh := lapb_hdr.2 }

/-- The function `nettl_read_rec_header` (nettl.c 263-584).  `is_hpux_11` is
`wth->capture.nettl->is_hpux_11`; the result `ret` is `-1` on an error, `0` at
the end of the usable data, and otherwise the number of header octets read.
The assignment to `errno` is not represented. -/
def nettl_read_rec_header (K : Consts) (is_hpux_11 : Bool) (fh : FILE_T)
    (phdr : wtap_pkthdr) (pseudo_header : wtap_pseudo_header) (err : Int)
    (err_info : Option String) (fddihack : Bool) : RecHeader :=
  let dummy := file_read 4 fh
  let st : RecHeader := ⟨0, err, err_info, phdr, pseudo_header, fddihack, dummy.2, false⟩
  if dummy.1.length ≠ 4 then read_short K dummy.1.length st
  else
    let encap := octet dummy.1 3
    if lan_case_label K encap then lan_case K is_hpux_11 encap st
    else if encap = K.NETTL_SUBSYS .NS_LS_DRIVER then driver_case K is_hpux_11 st
    else if encap = K.NETTL_SUBSYS .SX25L2 then lapb_case K is_hpux_11 st
    else
      { st with ret := -1, err := K.WTAP_ERR_UNSUPPORTED_ENCAP,
                err_info := some ("nettl: subsystem " ++ toString encap
                                    ++ " unknown or unsupported") }

/-! ## nettl_read_rec_data -/

/-- The result of `nettl_read_rec_data`: the `gboolean` returned, `*err`, the
octets stored into `pd` and the stream after the call. -/
structure RecData where
  ok : Bool
  err : Int
  pd : List guint8
  fh : FILE_T
deriving DecidableEq, Repr

/-- The reads of `nettl_read_rec_data` (nettl.c 593-614): the value of
`bytes_read`, the octets stored into `pd`, and the stream afterwards. -/
def rec_data_reads (fh : FILE_T) (length : Int) (fddihack : Bool) :
    Int × List guint8 × FILE_T :=
  if fddihack = true then
    let a := file_read 15 fh
    if a.1.length = 15 then
      if octet a.1 13 = 0xAA then
        let dummy := file_read 3 a.2
        if dummy.1.length = 3 then
          let b := file_read (length - 18) dummy.2
          ((b.1.length : Int) + 18, a.1 ++ b.1, b.2)
        else (-1, a.1, dummy.2)
      else
        let b := file_read (length - 15) a.2
        ((b.1.length : Int) + 15, a.1 ++ b.1, b.2)
    else (-1, a.1, a.2)
  else
    let a := file_read length fh
    ((a.1.length : Int), a.1, a.2)

/-- The function `nettl_read_rec_data` (nettl.c 586-623). -/
def nettl_read_rec_data (K : Consts) (fh : FILE_T) (length : Int) (err : Int)
    (fddihack : Bool) : RecData :=
  let r := rec_data_reads fh length fddihack
  if r.1 ≠ length then
    ⟨false, if file_error r.2.2 = 0 then K.WTAP_ERR_SHORT_READ else file_error r.2.2,
      r.2.1, r.2.2⟩
  else ⟨true, err, r.2.1, r.2.2⟩

/-! ## The handle and the three entry points -/

/-- The fields of `wtap` that `nettl.c` reads or writes; `is_hpux_11` is
`capture.nettl->is_hpux_11`, and `frame_buffer` holds the octets the last read
stored into the frame buffer, from its first octet on; the octets of the frame
buffer behind them are not represented. -/
structure wtap where
  fh : FILE_T
  random_fh : FILE_T
  data_offset : Int
  file_type : Int
  file_encap : wtap_encap
  snapshot_length : Int
  phdr : wtap_pkthdr
  pseudo_header : wtap_pseudo_header
  frame_buffer : List guint8
  is_hpux_11 : Bool
deriving DecidableEq, Repr

/-- The result of `nettl_open`: the return value (`1` a nettl file, `0` not
one, `-1` an error), `*err` and the handle. -/
structure OpenResult where
  ret : Int
  err : Int
  wth : wtap
deriving DecidableEq, Repr

/-- The function `nettl_open` (nettl.c 140-188).  The assignment to `errno`
and the function pointers stored in the handle are not represented. -/
def nettl_open (K : Consts) (wth : wtap) (err : Int) : OpenResult :=
  let magic := file_read 12 wth.fh
  let wth := { wth with fh := magic.2 }
  if magic.1.length ≠ 12 then
    if file_error wth.fh ≠ 0 then ⟨-1, file_error wth.fh, wth⟩
    else ⟨0, file_error wth.fh, wth⟩
  else if magic.1 ≠ nettl_magic_hpux9 ∧ magic.1 ≠ nettl_magic_hpux10 then
    ⟨0, err, wth⟩
  else
    let s := file_seek wth.fh 0x63
    if s.1 = -1 then ⟨-1, file_error s.2, { wth with fh := s.2 }⟩
    else
      let wth := { wth with fh := s.2, data_offset := 0x63 }
      let os_vers := file_read 2 wth.fh
      let wth := { wth with fh := os_vers.2 }
      if os_vers.1.length ≠ 2 then
        if file_error wth.fh ≠ 0 then ⟨-1, file_error wth.fh, wth⟩
        else ⟨0, file_error wth.fh, wth⟩
      else
        let s := file_seek wth.fh 0x80
        if s.1 = -1 then ⟨-1, file_error s.2, { wth with fh := s.2 }⟩
        else
          ⟨1, err,
            { wth with
                fh := s.2, data_offset := 0x80,
                file_type := K.WTAP_FILE_NETTL,
                is_hpux_11 :=
                  if octet os_vers.1 0 = 0x31 ∧ octet os_vers.1 1 = 0x31
                  then true else false,
                snapshot_length := 0 }⟩

/-- The result of `nettl_read`: the `gboolean` returned, `*err`, `*err_info`,
`*data_offset` and the handle. -/
structure ReadResult where
  ok : Bool
  err : Int
  err_info : Option String
  data_offset : Int
  wth : wtap
deriving DecidableEq, Repr

/-- The function `nettl_read` (nettl.c 190-231). -/
def nettl_read (K : Consts) (wth : wtap) (err : Int) (err_info : Option String) :
    ReadResult :=
  let data_offset := wth.data_offset
  let h := nettl_read_rec_header K wth.is_hpux_11 wth.fh wth.phdr
    wth.pseudo_header err err_info false
  let wth := { wth with fh := h.fh, phdr := h.phdr, pseudo_header := h.pseudo_header }
  if h.ret ≤ 0 then ⟨false, h.err, h.err_info, data_offset, wth⟩
  else
    let wth := { wth with data_offset := wth.data_offset + h.ret }
    let wth :=
      if wth.file_encap = WTAP_ENCAP_UNKNOWN then
        { wth with file_encap := wth.phdr.pkt_encap }
      else if wth.file_encap ≠ wth.phdr.pkt_encap then
        { wth with file_encap := WTAP_ENCAP_PER_PACKET }
      else wth
    let d := nettl_read_rec_data K wth.fh (toInt32 wth.phdr.caplen) h.err h.fddihack
    let wth := { wth with fh := d.fh, frame_buffer := d.pd }
    if d.ok = false then ⟨false, d.err, h.err_info, data_offset, wth⟩
    else
      ⟨true, d.err, h.err_info, data_offset,
        { wth with data_offset := wth.data_offset + wth.phdr.caplen }⟩

/-- The result of `nettl_seek_read`: the `gboolean` returned, `*err`,
`*err_info`, the caller's pseudo-header, the caller's buffer `pd` after the
call, and the handle. -/
structure SeekResult where
  ok : Bool
  err : Int
  err_info : Option String
  pseudo_header : wtap_pseudo_header
  pd : List guint8
  wth : wtap
deriving DecidableEq, Repr

/-- The function `nettl_seek_read` (nettl.c 233-261).  `phdr0` is the content
of the local `phdr` before it is written, `pd` the content of the caller's
buffer, which is to hold `length` octets: the octets the data read stores
replace its first octets, the others stay as they were. -/
def nettl_seek_read (K : Consts) (wth : wtap) (seek_off : Int)
    (pseudo_header : wtap_pseudo_header) (pd : List guint8) (length : Int)
    (err : Int) (err_info : Option String) (phdr0 : wtap_pkthdr) : SeekResult :=
  let s := file_seek wth.random_fh seek_off
  if s.1 = -1 then
    ⟨false, file_error s.2, err_info, pseudo_header, pd, { wth with random_fh := s.2 }⟩
  else
    let h := nettl_read_rec_header K wth.is_hpux_11 s.2 phdr0 pseudo_header
      err err_info false
    if h.ret ≤ 0 then
      ⟨false, if h.ret = 0 then K.WTAP_ERR_SHORT_READ else h.err, h.err_info,
        h.pseudo_header, pd, { wth with random_fh := h.fh }⟩
    else
      let d := nettl_read_rec_data K h.fh length h.err h.fddihack
      ⟨d.ok, d.err, h.err_info, h.pseudo_header, d.pd ++ pd.drop d.pd.length,
        { wth with random_fh := d.fh }⟩

/-! ## The calls made by the readers -/

/-- The header decode `nettl_read` performs on the handle `wth`
(nettl.c 199-200). -/
def nettl_read_header (K : Consts) (wth : wtap) (err : Int) (err_info : Option String) :
    RecHeader :=
  nettl_read_rec_header K wth.is_hpux_11 wth.fh wth.phdr wth.pseudo_header err err_info false

/-- The frame-data read `nettl_read` performs on the handle `wth` after its
header decode (nettl.c 226-227). -/
def nettl_read_data (K : Consts) (wth : wtap) (err : Int) (err_info : Option String) :
    RecData :=
  nettl_read_rec_data K (nettl_read_header K wth err err_info).fh
    (toInt32 (nettl_read_header K wth err err_info).phdr.caplen)
    (nettl_read_header K wth err err_info).err
    (nettl_read_header K wth err err_info).fddihack

/-- The call of `nettl_seek_read` on the handle `wth2` with the record offset
and the captured length that `nettl_read` reported on the handle `wth`. -/
def seek_read_after (K : Consts) (wth wth2 : wtap) (err : Int) (err_info : Option String)
    (pseudo_header : wtap_pseudo_header) (pd : List guint8) (err2 : Int)
    (err_info2 : Option String) (phdr0 : wtap_pkthdr) : SeekResult :=
  nettl_seek_read K wth2 (nettl_read K wth err err_info).data_offset pseudo_header pd
    ((nettl_read K wth err err_info).wth.phdr.caplen : Int) err2 err_info2 phdr0

/-! ## Vocabulary of the specification -/

/-- The link type the mapping table of the specification gives each
subsystem. -/
def spec_link_type : Subsys → wtap_encap
  | .NS_LS_IP | .NS_LS_LOOPBACK | .NS_LS_UDP | .NS_LS_TCP | .NS_LS_IPV6 =>
      WTAP_ENCAP_RAW_IP
  | .NS_LS_ICMP => WTAP_ENCAP_RAW_ICMP
  | .NS_LS_ICMPV6 => WTAP_ENCAP_RAW_ICMPV6
  | .HPPB_FDDI | .EISA_FDDI | .PCI_FDDI | .HSC_FDDI => WTAP_ENCAP_FDDI
  | .TOKEN | .PCI_TR => WTAP_ENCAP_TOKEN_RING
  | .SX25L2 => WTAP_ENCAP_LAPB
  | _ => WTAP_ENCAP_ETHERNET

/-- The size of the record prefix, the family header and the extra field of
the newer generation, for a record of subsystem `s`. -/
def spec_base_size (is_hpux_11 : Bool) (s : Subsys) : Nat :=
  4 + (if s = .SX25L2 then sizeof_lapb_hdr else sizeof_ip_hdr)
    + (if is_hpux_11 then 4 else 0)

/-- The number of octets that follow the base header of the record starting
the octets `l`: the driver sub-header, or the pad the specification gives the
subsystem (9 probe octets and the pad they count for an outbound HPPB FDDI
record, 3 for the other FDDI cards, 26 for loopback, none otherwise). -/
def spec_quirk_size (K : Consts) (is_hpux_11 : Bool) (s : Subsys)
    (l : List guint8) : Nat :=
  match s with
  | .NS_LS_DRIVER => sizeof_drv_eth_hdr
  | .HPPB_FDDI =>
      if octet l (4 + ip_rectype) = K.NETTL_HDR_PDUIN then 0
      else 9 + octet l (spec_base_size is_hpux_11 s + 8)
  | .EISA_FDDI | .PCI_FDDI | .HSC_FDDI => 3
  | .NS_LS_LOOPBACK => 26
  | _ => 0

/-- The original-length field of the record starting the octets `l`: the
16-bit field of the driver sub-header or of the X.25 header, else the 32-bit
field of the generic header. -/
def spec_original_length (is_hpux_11 : Bool) (s : Subsys) (l : List guint8) : Nat :=
  match s with
  | .NS_LS_DRIVER => pntohs l (spec_base_size is_hpux_11 s + drv_length)
  | .SX25L2 => pntohs l (4 + lapb_length)
  | _ => pntohl l (4 + ip_length)

/-- The number of pad octets `lan_lengths` reads for subsystem `s`, given the
generic header `ip_hdr` and the octets `rest` that follow the base header. -/
def lan_pad (K : Consts) (s : Subsys) (ip_hdr rest : List guint8) : Nat :=
  match s with
  | .HPPB_FDDI =>
      if octet ip_hdr ip_rectype = K.NETTL_HDR_PDUIN then 0 else 9 + octet rest 8
  | .EISA_FDDI | .PCI_FDDI | .HSC_FDDI => 3
  | .NS_LS_LOOPBACK => 26
  | _ => 0

/-- The pad adjustment the specification gives the record starting the octets
`l`:
9 plus the pad count for an outbound HPPB FDDI record, 3 for the other FDDI
cards, 26 for loopback, 0 otherwise. -/
def spec_pad (K : Consts) (is_hpux_11 : Bool) (s : Subsys) (l : List guint8) : Nat :=
  match s with
  | .HPPB_FDDI =>
      if octet l (4 + ip_rectype) = K.NETTL_HDR_PDUIN then 0
      else 9 + octet l (spec_base_size is_hpux_11 s + 8)
  | .EISA_FDDI | .PCI_FDDI | .HSC_FDDI => 3
  | .NS_LS_LOOPBACK => 26
  | _ => 0

/-- The captured-length field of the record starting the octets `l`: the
16-bit field of the driver sub-header or of the X.25 header, else the 32-bit
field of the generic header. -/
def spec_captured_length (is_hpux_11 : Bool) (s : Subsys) (l : List guint8) : Nat :=
  match s with
  | .NS_LS_DRIVER => pntohs l (spec_base_size is_hpux_11 s + drv_caplen)
  | .SX25L2 => pntohs l (4 + lapb_caplen)
  | _ => pntohl l (4 + ip_caplen)

/-! ## Sample records -/

/-- The octets `n` zero octets long. -/
def zeros (n : Nat) : List guint8 := List.replicate n 0

/-- The four octets of the big-endian encoding of `v`. -/
def be32 (v : Nat) : List guint8 :=
  [Fin.ofNat (v / 16777216), Fin.ofNat (v / 65536), Fin.ofNat (v / 256), Fin.ofNat v]

/-- The two octets of the big-endian encoding of `v`. -/
def be16 (v : Nat) : List guint8 := [Fin.ofNat (v / 256), Fin.ofNat v]

/-- A 4-octet record prefix with subsystem code `code`. -/
def sample_start (code : Nat) : List guint8 := [0, 0x44, 0, Fin.ofNat code]

/-- A generic record header (`struct nettlrec_ns_ls_ip_hdr`) with the given
record type, length fields and time stamp. -/
def sample_ip_hdr (rectype caplen length sec usec : Nat) : List guint8 :=
  zeros 8 ++ [Fin.ofNat rectype] ++ zeros 19 ++ be32 caplen ++ be32 length
    ++ be32 sec ++ be32 usec ++ zeros 16

/-- A driver sub-header (`struct nettlrec_ns_ls_drv_eth_hdr`). -/
def sample_drv_hdr (caplen length : Nat) : List guint8 :=
  zeros 4 ++ be16 caplen ++ be16 length ++ zeros 16

/-- An X.25 record header (`struct nettlrec_sx25l2_hdr`). -/
def sample_lapb_hdr (from_dce caplen length sec usec : Nat) : List guint8 :=
  zeros 8 ++ [Fin.ofNat from_dce] ++ zeros 55 ++ be16 caplen ++ be16 length
    ++ zeros 4 ++ be32 sec ++ be32 usec ++ zeros 4

/-- A stream over `data`, positioned at its start, whose source reports no
error. -/
def stream_of (data : List guint8) : FILE_T := ⟨data, 0, 0⟩

/-- A packet header before anything has been decoded into it. -/
def phdr_init : wtap_pkthdr := ⟨0, 0, 0, 0, WTAP_ENCAP_UNKNOWN⟩

/-- A handle over `data` as `nettl_open` leaves it apart from the positions:
both streams at offset `off`, the cursor at `off`. -/
def handle_at (data : List guint8) (off : Nat) (hpux11 : Bool) : wtap :=
  { fh := ⟨data, off, 0⟩, random_fh := ⟨data, 0, 0⟩, data_offset := off,
    file_type := 0, file_encap := WTAP_ENCAP_UNKNOWN, snapshot_length := 0,
    phdr := phdr_init, pseudo_header := .other 0, frame_buffer := [],
    is_hpux_11 := hpux11 }

/-- An older-generation outbound HPPB FDDI record: length fields 100, nine
probe octets announcing a pad of two octets, then the pad. -/
def sample_hppb_out : FILE_T :=
  stream_of (sample_start 95 ++ sample_ip_hdr 0x40 100 100 7 8 ++ zeros 8 ++ [2] ++ zeros 2)

/-- A file of the HP-UX 10 family whose version marker at 0x63 is "11",
followed by nothing but the 0x80-octet file header. -/
def sample_file_hpux11 : List guint8 :=
  nettl_magic_hpux10 ++ zeros (0x63 - 12) ++ [0x31, 0x31] ++ zeros (0x80 - 0x65)

/-- An older-generation LAN100 record announcing 5 captured octets, of which
the stream holds only 4. -/
def sample_truncated : List guint8 :=
  sample_start 97 ++ sample_ip_hdr 0 5 5 7 8 ++ [1, 2, 3, 4]

/-- An older-generation inbound HPPB FDDI record of 20 captured octets whose
octet 13 is the SNAP marker, followed by the start of a second record. -/
def sample_fddi_snap : List guint8 :=
  sample_start 95 ++ sample_ip_hdr 0x20 20 20 7 8
    ++ [0x50, 1, 2, 3, 4, 5, 6, 7, 8, 9, 10, 11, 12, 0xAA, 0xAA, 0x03, 0, 0, 0x08, 0x00]
    ++ sample_start 95

/-- An older-generation LAN100 record whose 4-octet length fields both hold
0x00010005 (65541). -/
def sample_wide_lengths : FILE_T :=
  stream_of (sample_start 97 ++ sample_ip_hdr 0 65541 65541 7 8)

/-- An older-generation EISA FDDI record whose length fields both hold 1, less
than the 3-octet pad that follows the header. -/
def sample_short_fddi : FILE_T :=
  stream_of (sample_start 174 ++ sample_ip_hdr 0 1 1 7 8 ++ zeros 3)

/-- An older-generation LAN100 record with captured length 0 and original
length 1. -/
def sample_zero_caplen : FILE_T :=
  stream_of (sample_start 97 ++ sample_ip_hdr 0 0 1 7 8)

/-- An older-generation LAN100 record with captured length 5 and original
length 0. -/
def sample_zero_length : FILE_T :=
  stream_of (sample_start 97 ++ sample_ip_hdr 0 5 0 7 8 ++ zeros 5)

/-- The transition of the file-wide encapsulation state the specification
gives for a record of link type `t`: unknown becomes `t`; a single link type
stays when it is `t` and becomes "per packet" (mixed) otherwise; mixed stays
mixed. -/
def spec_encap_step (state t : wtap_encap) : wtap_encap :=
  match state with
  | WTAP_ENCAP_UNKNOWN => t
  | WTAP_ENCAP_PER_PACKET => WTAP_ENCAP_PER_PACKET
  | a => if a = t then a else WTAP_ENCAP_PER_PACKET

/-- The handle after a sequence of calls of `nettl_read`, each given the values
`*err` and `*err_info` hold before it. -/
def nettl_read_seq (K : Consts) (wth : wtap) : List (Int × Option String) → wtap
  | [] => wth
  | c :: cs => nettl_read_seq K (nettl_read K wth c.1 c.2).wth cs

/-- Two LAN100 records of 2 captured octets followed by an X.25 record of 2
octets, all of the older generation. -/
def sample_three_records : List guint8 :=
  sample_start 97 ++ sample_ip_hdr 0 2 2 7 8 ++ [1, 2]
    ++ sample_start 34 ++ sample_lapb_hdr 0x20 2 2 7 9 ++ [3, 4]
    ++ sample_start 97 ++ sample_ip_hdr 0 2 2 7 10 ++ [5, 6]

/-- Whether a stream holding `n` octets of a record of subsystem `s` ends right
at the start of one of the pieces `nettl_read_rec_header` reads after the
prefix: the family header, the extra field of the newer generation, the
sub-header or pad that follows the base header, or the pad counted by the nine
probe octets of an HPPB FDDI record. -/
def spec_piece_start (is_hpux_11 : Bool) (s : Subsys) (n : Nat) : Prop :=
  n = 4
  ∨ n = 4 + (if s = .SX25L2 then sizeof_lapb_hdr else sizeof_ip_hdr)
  ∨ n = spec_base_size is_hpux_11 s
  ∨ (s = .HPPB_FDDI ∧ n = spec_base_size is_hpux_11 s + 9)

instance (is_hpux_11 : Bool) (s : Subsys) (n : Nat) :
    Decidable (spec_piece_start is_hpux_11 s n) := by
  unfold spec_piece_start
  infer_instance

/-- A stream that holds the 4-octet prefix of an older-generation LAN100
record and nothing else. -/
def sample_start_only : FILE_T := stream_of (sample_start 97)

/-- A stream that holds the prefix of an older-generation LAN100 record and
the first ten octets of its generic header. -/
def sample_cut_header : FILE_T := stream_of (sample_start 97 ++ zeros 10)

/-- The 20 octets of an FDDI frame as the HPPB card records it: frame control,
destination, source, the two service-access-point octets (the second one the
SNAP marker), the control octet, two skipped octets and a 2-octet payload. -/
def sample_snap_frame : List guint8 :=
  [0x50, 1, 2, 3, 4, 5, 6, 7, 8, 9, 10, 11, 12, 0xAA, 0xAA, 0x03, 0, 0, 0x08, 0x00]

/-- An older-generation X.25 record from the network side whose captured-length
field holds 60 and whose original-length field holds 70. -/
def sample_lapb_short_cap : FILE_T :=
  stream_of (sample_start 34 ++ sample_lapb_hdr 0x20 60 70 7 8)

/-- An older-generation loopback record with length fields 100, followed by
its 26 pad octets. -/
def sample_loopback : FILE_T :=
  stream_of (sample_start 2 ++ sample_ip_hdr 0 100 100 7 8 ++ zeros 26)

/-- An older-generation driver record stamped 7 s and 8 µs whose sub-header
holds captured length 60 and original length 70. -/
def sample_driver : FILE_T :=
  stream_of (sample_start 11 ++ sample_ip_hdr 0 0 0 7 8 ++ sample_drv_hdr 60 70)

/-- The stream `fh` with the octets `x` inserted right after the family header
of the record at its position: after 4 + 84 octets when the record carries the
code of SX25L2, after 4 + 60 octets otherwise. -/
def spec_insert_extra (K : Consts) (fh : FILE_T) (x : List guint8) : FILE_T :=
  { fh with
      data :=
        fh.data.take (fh.pos + 4
            + (if octet (fh.data.drop fh.pos) 3 = K.NETTL_SUBSYS .SX25L2
               then sizeof_lapb_hdr else sizeof_ip_hdr))
          ++ x
          ++ fh.data.drop (fh.pos + 4
            + (if octet (fh.data.drop fh.pos) 3 = K.NETTL_SUBSYS .SX25L2
               then sizeof_lapb_hdr else sizeof_ip_hdr)) }

/-- An older-generation outbound HPPB FDDI record with length fields 300,
stamped 7 s and 8 µs: nine probe octets announcing a pad of 80 octets, then 80
pad octets of value `v`. -/
def sample_hppb_pad (v : guint8) : FILE_T :=
  stream_of (sample_start 95 ++ sample_ip_hdr 0x40 300 300 7 8 ++ zeros 8 ++ [80]
    ++ List.replicate 80 v)

/-- An older-generation inbound HPPB FDDI record whose 4-octet length fields
both hold 0x00010005 (65541). -/
def sample_hppb_in_wide : FILE_T :=
  stream_of (sample_start 95 ++ sample_ip_hdr 0x20 65541 65541 7 8)

/-- A record prefix carrying a code that no subsystem has, followed by an
older-generation LAN100 record of 2 octets. -/
def sample_after_unknown : List guint8 :=
  sample_start 35 ++ sample_start 97 ++ sample_ip_hdr 0 2 2 7 8 ++ [1, 2]

end Nettl

/-!
# IS-IS CLV dissection (packet-isis-clv.c)

A shallow embedding of `isis_dissect_authentication_clv` and
`isis_dissect_clvs`.

Conventions of the embedding:
* the packet buffer `tvbuff_t` is the list of its octets; a read outside the
  buffer throws an exception in C, which ends the dissector: such a read gives
  `none`;
* the calls that build the protocol tree (`proto_tree_add_text`,
  `proto_item_add_subtree`, `isis_dissect_unknown`) and the calls of the CLV
  handlers are recorded, in program order, as a list of events; a handler is
  taken to return to its caller;
* the stores into the text buffer `sbuf` are recorded, in program order, as
  pairs of the index stored to and the octet stored;
* `int` values are integers.
-/

namespace IsisClv

open Nettl (guint8)

/-! ## The packet buffer and the protocol tree -/

/-- Modelled from the spec: `tvbuff_t` of `epan/tvbuff.h`, which is not part
of the sources at hand: the octets of the packet. -/
abbrev tvbuff_t := List guint8

/-- Modelled from the spec: the index an offset of the `tvb_*` accessors
denotes: an offset of 0 or more counts from the start of the buffer, a negative
one from its end; `none` when it lies outside the buffer. -/
def tvb_index (tvb : tvbuff_t) (offset : Int) : Option Nat :=
  if 0 ≤ offset then
    if offset.toNat < tvb.length then some offset.toNat else none
  else if -offset ≤ tvb.length then some (tvb.length + offset).toNat
  else none

/-- Modelled from the spec: `tvb_get_guint8(tvb, offset)` of `epan/tvbuff.h`:
the octet at `offset`, or `none` for the exception it throws when the offset
lies outside the buffer. -/
def tvb_get_guint8 (tvb : tvbuff_t) (offset : Int) : Option guint8 :=
  match tvb_index tvb offset with
  | some i => tvb[i]?
  | none => none

/-- Modelled from the spec: `tvb_get_ptr(tvb, offset, length)` of
`epan/tvbuff.h` for a `length` above 0: the `length` octets from `offset` on,
or `none` for the exception it throws when they are not all in the buffer. -/
def tvb_get_ptr (tvb : tvbuff_t) (offset length : Int) : Option (List guint8) :=
  match tvb_index tvb offset with
  | some i =>
      if i + length.toNat ≤ tvb.length then some ((tvb.drop i).take length.toNat)
      else none
  | none => none

/-- The calls a dissector makes, in program order.
`add_text start length text` is `proto_tree_add_text(tree, tvb, start, length,
...)` with the formatted text; `add_subtree id` is `proto_item_add_subtree(ti,
id)`; `dissect q handler has_tree offset id_length length` is the call
`opts[q].dissect(tvb, clv_tree, offset, id_length, length)`, `has_tree` telling
whether `clv_tree` is not NULL; `unknown offset text` is
`isis_dissect_unknown(tvb, tree, offset, ...)` with the formatted text. -/
inductive Event where
  | add_text (start length : Int) (text : String)
  | add_subtree (tree_id : Int)
  | dissect (q handler : Nat) (has_tree : Bool) (offset id_length length : Int)
  | unknown (offset : Int) (text : String)
deriving DecidableEq, Repr

/-! ## isis_dissect_authentication_clv -/

/-- The capacity of the text buffer: `#define SBUF_LEN 300`
(packet-isis-clv.c 148); `sbuf` is `char sbuf[SBUF_LEN]`, with the valid
indices 0 to 299. -/
def SBUF_LEN : Nat := 300

/-- The octets of a string of ASCII characters. -/
def c_string (s : String) : List guint8 := s.toList.map (fun c => Fin.ofNat c.toNat)

/-- The stores of the octets `bytes` at the indices from `pos` on. -/
def store_at : Nat → List guint8 → List (Nat × guint8)
  | _, [] => []
  | pos, b :: bs => (pos, b) :: store_at (pos + 1) bs

/-- The stores of `sprintf(sbuf + pos, ...)` whose formatted text is `text`
(the text and the terminating NUL), and the value it returns. -/
def sprintf_at (pos : Nat) (text : String) : List (Nat × guint8) × Nat :=
  (store_at pos (c_string text ++ [0]), text.length)

/-- The conversion `%02x` of `printf`: lower-case hexadecimal digits, at least
two of them. -/
def hex2 (n : Nat) : String :=
  String.mk (if (Nat.toDigits 16 n).length < 2 then '0' :: Nat.toDigits 16 n
             else Nat.toDigits 16 n)

/-- The octets `strncpy(dst, src, n)` stores at `dst`, where `src` points to
at least `n` octets: the first `n` octets of `src` up to its first NUL, then
NULs up to `n` octets in all. -/
def strncpy (src : List guint8) (n : Nat) : List guint8 :=
  ((src.take n).takeWhile (fun b => b ≠ 0)
    ++ List.replicate n 0).take n

/-- The loop `while (length > 0)` of the `hmac-md5` arm
(packet-isis-clv.c 185-189), entered with `length` equal to `n`: each round
prints one octet of the digest as two hexadecimal digits at `s` and advances.
The result is the stores, the offset and `s` after the loop, or `none` when a
read throws. -/
def hmac_loop (tvb : tvbuff_t) :
    Nat → Int → Nat → List (Nat × guint8) → Option (List (Nat × guint8) × Int × Nat)
  | 0, offset, s, stores => some (stores, offset, s)
  | n + 1, offset, s, stores =>
      match tvb_get_guint8 tvb offset with
      | none => none
      | some b =>
          hmac_loop tvb n (offset + 1) (s + (sprintf_at s (hex2 b.val)).2)
            (stores ++ (sprintf_at s (hex2 b.val)).1)

/-- The octet the recorded stores leave at index `i` of `sbuf`, `none` when
nothing was stored there. -/
def sbuf_at (stores : List (Nat × guint8)) (i : Nat) : Option guint8 :=
  (stores.reverse.find? (fun p => p.1 = i)).map (fun p => p.2)

/-- The C string read from `sbuf` at index `i` on, for at most `fuel` octets:
the octets up to the first NUL.  An octet of `sbuf` that was never stored is
indeterminate in C; the reading stops there. -/
def sbuf_text (stores : List (Nat × guint8)) : Nat → Nat → List Char
  | 0, _ => []
  | fuel + 1, i =>
      match sbuf_at stores i with
      | some b => if b = 0 then [] else Char.ofNat b.val :: sbuf_text stores fuel (i + 1)
      | none => []

/-- The outcome of `isis_dissect_authentication_clv`: whether a read threw,
the stores into `sbuf` in program order, the index of the store
`sbuf[SBUF_LEN] = 0` when the function reached it, and the calls made. -/
structure AuthResult where
  thrown : Bool
  stores : List (Nat × guint8)
  terminator : Option Nat
  events : List Event
deriving DecidableEq, Repr

/-- The statements that follow the `switch` (packet-isis-clv.c 201-208): the
store of the terminator, the tree item, and the note on an authentication type
that is not supported. -/
def auth_finish (stores : List (Nat × guint8)) (offset length : Int)
    (meaning : String) (auth_unsupported : Bool) : AuthResult :=
  let stores := stores ++ [(SBUF_LEN, 0)]
  { thrown := false
    stores := stores
    terminator := some SBUF_LEN
    events :=
      [Event.add_text (offset - 1) (length + 1)
        (meaning ++ " " ++ String.mk (sbuf_text stores (SBUF_LEN + 1) 0))]
      ++ (if auth_unsupported then [Event.unknown offset "Unknown authentication type"]
          else []) }

/-- The function `isis_dissect_authentication_clv`
(packet-isis-clv.c 149-209). -/
def isis_dissect_authentication_clv (tvb : tvbuff_t) (offset length : Int)
    (meaning : String) : AuthResult :=
  if length ≤ 0 then ⟨false, [], none, []⟩
  else
    match tvb_get_guint8 tvb offset with
    | none => ⟨true, [], none, []⟩
    | some pw_type =>
      let offset := offset + 1
      let length := length - 1
      if pw_type.val = 1 then
        let p := sprintf_at 0
          ("clear text (1), password (length " ++ toString length ++ ") = ")
        if length > 0 then
          match tvb_get_ptr tvb offset length with
          | none => ⟨true, p.1, none, []⟩
          | some src =>
              auth_finish
                (p.1 ++ store_at p.2 (strncpy src (min length.toNat (SBUF_LEN - p.2))))
                offset length meaning false
        else
          auth_finish (p.1 ++ (sprintf_at p.2 "no clear-text password found!!!").1)
            offset length meaning false
      else if pw_type.val = 54 then
        let p := sprintf_at 0
          ("hmac-md5 (54), password (length " ++ toString length ++ ") = ")
        if length = 16 then
          match tvb_get_guint8 tvb offset with
          | none => ⟨true, p.1, none, []⟩
          | some b =>
              let d := sprintf_at p.2 ("0x" ++ hex2 b.val)
              match hmac_loop tvb 15 (offset + 1) (p.2 + d.2) (p.1 ++ d.1) with
              | none => ⟨true, p.1 ++ d.1, none, []⟩
              | some r => auth_finish r.1 r.2.1 0 meaning false
        else
          auth_finish
            (p.1 ++ (sprintf_at p.2
              "illegal hmac-md5 digest format (must be 16 bytes)").1)
            offset length meaning false
      else
        auth_finish
          (sprintf_at 0
            ("type 0x" ++ hex2 pw_type.val ++ " (0x" ++ hex2 length.toNat ++ "): ")).1
          offset length meaning true

/-! ## isis_dissect_clvs -/

/-- The fields of `isis_clv_handle_t` (declared in `packet-isis-clv.h`):
`tree_id` is the value `*tree_id` points to, and `dissect` is `none` for a NULL
pointer and otherwise names the handler. -/
structure isis_clv_handle_t where
  optcode : Int
  tree_text : String
  tree_id : Int
  dissect : Option Nat
deriving DecidableEq, Repr

/-- How a walk over the CLVs ended: the area was used up, a CLV did not fit
the rest of the area, a read threw, or the fuel of the embedding ran out. -/
inductive Stop where
  | finished | short_clv | exception | out_of_fuel
deriving DecidableEq, Repr

/-- The calls made by `isis_dissect_clvs` and how it ended. -/
structure ClvWalk where
  events : List Event
  stop : Stop
deriving DecidableEq, Repr

/-- The search loop of `isis_dissect_clvs` (packet-isis-clv.c 521-524) from
index `q` on, `opts` being the entries from that index: the first index whose
entry has a NULL `dissect` or the option code `code`.  The array ends with an
entry whose `dissect` is NULL; the end of the list stands for it. -/
def clv_search : List isis_clv_handle_t → Int → Nat → Nat
  | [], _, q => q
  | o :: os, code, q =>
      if o.dissect ≠ none ∧ o.optcode ≠ code then clv_search os code (q + 1) else q

/-- The text of the note on a CLV that does not fit
(packet-isis-clv.c 516-518). -/
def short_clv_text (adj len : Int) : String :=
  "Short CLV header (" ++ toString adj ++ " vs " ++ toString len ++ ")"

/-- The tree item of a CLV whose code no entry of `opts` carries
(packet-isis-clv.c 539-547). -/
def clv_unknown_item (tree : Bool) (unknown_tree_id : Int) (code length : guint8)
    (offset : Int) : List Event :=
  if tree then
    [Event.add_text (offset - 2) (length.val + 2)
        ("Unknown code " ++ toString code.val ++ " (" ++ toString length.val ++ ")"),
      Event.add_subtree unknown_tree_id]
  else []

/-- The tree item and the handler call for the entry `o` found at index `q`
(packet-isis-clv.c 526-537). -/
def clv_known_item (tree : Bool) (q : Nat) (o : isis_clv_handle_t) (handler : Nat)
    (id_length : Int) (length : guint8) (offset : Int) : List Event :=
  (if tree then
      [Event.add_text (offset - 2) (length.val + 2)
          (o.tree_text ++ " (" ++ toString length.val ++ ")"),
        Event.add_subtree o.tree_id]
    else [])
  ++ [Event.dissect q handler tree offset id_length length.val]

/-- The statement `if ( opts[q].dissect ) ... else ...` of `isis_dissect_clvs`
(packet-isis-clv.c 525-548) for the index `q` the search stopped at. -/
def clv_item (tree : Bool) (opts : List isis_clv_handle_t) (id_length unknown_tree_id : Int)
    (q : Nat) (code length : guint8) (offset : Int) : List Event :=
  match opts[q]? with
  | some o =>
      match o.dissect with
      | some handler => clv_known_item tree q o handler id_length length offset
      | none => clv_unknown_item tree unknown_tree_id code length offset
  | none => clv_unknown_item tree unknown_tree_id code length offset

/-- The loop `while ( len > 0 )` of `isis_dissect_clvs`
(packet-isis-clv.c 506-550), with at most `fuel` rounds. -/
def clvs_loop (tvb : tvbuff_t) (tree : Bool) (opts : List isis_clv_handle_t)
    (id_length unknown_tree_id : Int) : Nat → Int → Int → ClvWalk
  | 0, _, len => if len > 0 then ⟨[], .out_of_fuel⟩ else ⟨[], .finished⟩
  | fuel + 1, offset, len =>
      if len > 0 then
        match tvb_get_guint8 tvb offset with
        | none => ⟨[], .exception⟩
        | some code =>
          match tvb_get_guint8 tvb (offset + 1) with
          | none => ⟨[], .exception⟩
          | some length =>
            let adj : Int := 1 + 1 + length.val
            if len - adj < 0 then
              ⟨[Event.unknown (offset + 1 + 1) (short_clv_text adj (len - adj + adj))],
                .short_clv⟩
            else
              let rest := clvs_loop tvb tree opts id_length unknown_tree_id fuel
                (offset + 1 + 1 + length.val) (len - adj)
              ⟨clv_item tree opts id_length unknown_tree_id
                  (clv_search opts code.val 0) code length (offset + 1 + 1)
                ++ rest.events, rest.stop⟩
      else ⟨[], .finished⟩

/-- The function `isis_dissect_clvs` (packet-isis-clv.c 494-551).  Every round
of its loop takes at least 2 from `len`, so `len` rounds are enough. -/
def isis_dissect_clvs (tvb : tvbuff_t) (tree : Bool) (offset : Int)
    (opts : List isis_clv_handle_t) (len id_length unknown_tree_id : Int) : ClvWalk :=
  clvs_loop tvb tree opts id_length unknown_tree_id len.toNat offset len

/-! ## Vocabulary of the specification of the CLV walk -/

/-- The octets of a sequence of CLVs, each a code and a value: the code octet,
the length octet and the value of each, in order. -/
def clv_encode : List (guint8 × List guint8) → List guint8
  | [] => []
  | e :: es => e.1 :: Fin.ofNat e.2.length :: (e.2 ++ clv_encode es)

/-- The entries of the handler table proper: those before the first entry
whose `dissect` is NULL. -/
def spec_clv_table (opts : List isis_clv_handle_t) : List isis_clv_handle_t :=
  opts.takeWhile (fun o => o.dissect.isSome)

/-- The first entry of `table` whose option code is `code`, with its index
counted from `q`. -/
def spec_first_match : List isis_clv_handle_t → Int → Nat → Option (Nat × isis_clv_handle_t)
  | [], _, _ => none
  | o :: os, code, q =>
      if o.optcode = code then some (q, o) else spec_first_match os code (q + 1)

/-- What the walk does with a CLV of code `code` whose value of `n` octets
starts at `offset`: the tree item of the first table entry with that code and
one call of its handler, or the item for an unknown code when the table has no
such entry. -/
def spec_clv_dispatch (tree : Bool) (opts : List isis_clv_handle_t)
    (id_length unknown_tree_id : Int) (code : guint8) (n : Nat) (offset : Int) :
    List Event :=
  match spec_first_match (spec_clv_table opts) code.val 0 with
  | some (q, o) =>
      (if tree then
          [Event.add_text (offset - 2) (n + 2) (o.tree_text ++ " (" ++ toString n ++ ")"),
            Event.add_subtree o.tree_id]
        else [])
      ++ [Event.dissect q (o.dissect.getD 0) tree offset id_length n]
  | none =>
      if tree then
        [Event.add_text (offset - 2) (n + 2)
            ("Unknown code " ++ toString code.val ++ " (" ++ toString n ++ ")"),
          Event.add_subtree unknown_tree_id]
      else []

/-- The calls for a sequence of CLVs that starts at `offset`: each CLV is
dispatched once, in order, with the offset of the first octet of its value and
the length of the value, and takes 2 octets more than its value. -/
def spec_clv_events (tree : Bool) (opts : List isis_clv_handle_t)
    (id_length unknown_tree_id : Int) : List (guint8 × List guint8) → Int → List Event
  | [], _ => []
  | e :: es, offset =>
      spec_clv_dispatch tree opts id_length unknown_tree_id e.1 e.2.length (offset + 2)
        ++ spec_clv_events tree opts id_length unknown_tree_id es
            (offset + 2 + e.2.length)

/-- What the walk does with the octets `t` that are left of the area at
`offset` and hold no complete CLV: nothing when none is left; the note on a
short CLV when a code and a length octet are there and the value is not; and
for a lone code octet the note on a short CLV when the buffer holds an octet
after it, else the exception of the read. -/
def spec_clv_tail (tvb : tvbuff_t) (t : List guint8) (offset : Int) : ClvWalk :=
  match t with
  | [] => ⟨[], .finished⟩
  | [_] =>
      match tvb_get_guint8 tvb (offset + 1) with
      | some l => ⟨[Event.unknown (offset + 2) (short_clv_text (2 + l.val) 1)], .short_clv⟩
      | none => ⟨[], .exception⟩
  | _ :: l :: v =>
      ⟨[Event.unknown (offset + 2) (short_clv_text (2 + l.val) (2 + v.length))],
        .short_clv⟩

/-- Whether the octets `t` hold no complete CLV: none, a lone code octet, or a
code and a length octet with fewer value octets than the length says. -/
def spec_clv_incomplete (t : List guint8) : Prop :=
  match t with
  | [] => True
  | [_] => True
  | _ :: l :: v => v.length < l.val

instance (t : List guint8) : Decidable (spec_clv_incomplete t) := by
  unfold spec_clv_incomplete
  split <;> infer_instance

/-! ## Sample packets -/

/-- A packet holding an authentication CLV value of type 5 with one further
octet. -/
def sample_auth : tvbuff_t := [5, 0x41]

/-- A handler table: code 1 handled by handler 10, code 2 by handler 20, and a
second entry for code 1. -/
def sample_opts : List isis_clv_handle_t :=
  [⟨1, "Area address(es)", 101, some 10⟩, ⟨2, "IS Neighbor(s)", 102, some 20⟩,
    ⟨1, "Shadowed", 103, some 30⟩]

/-- A CLV area of 10 octets: a CLV of code 2 with a value of 2 octets, a CLV of
code 7 with an empty value, and a CLV of code 1 that announces 9 value octets
and holds 2. -/
def sample_clvs : tvbuff_t := [2, 2, 0xAA, 0xBB, 7, 0, 1, 9, 0xCC, 0xDD]

end IsisClv

namespace Nettl

open wtap_encap

/-! ## Facts about the byte source -/

theorem octet_lt (p : List guint8) (i : Nat) : octet p i < 256 := (p.getD i 0).isLt

theorem octet_take (l : List guint8) (n i : Nat) (h : i < n) :
    octet (l.take n) i = octet l i := by
  simp [octet, List.getD_eq_getElem?_getD, List.getElem?_take, h]

theorem octet_drop (l : List guint8) (n i : Nat) :
    octet (l.drop n) i = octet l (n + i) := by
  simp [octet, List.getD_eq_getElem?_getD, List.getElem?_drop]

theorem file_read_fst (n : Int) (fh : FILE_T) (hn : 0 ≤ n) :
    (file_read n fh).1 = (fh.data.drop fh.pos).take n.toNat := by
  simp [file_read, not_lt.mpr hn]

theorem file_read_snd_data (n : Int) (fh : FILE_T) : (file_read n fh).2.data = fh.data := rfl

theorem file_read_snd_error (n : Int) (fh : FILE_T) :
    (file_read n fh).2.error = fh.error := rfl

theorem file_read_snd_pos (n : Int) (fh : FILE_T) :
    (file_read n fh).2.pos = fh.pos + (file_read n fh).1.length := rfl

theorem file_read_length (n : Int) (fh : FILE_T) (hn : 0 ≤ n) :
    (file_read n fh).1.length = min n.toNat (fh.data.length - fh.pos) := by
  rw [file_read_fst n fh hn]; simp

theorem file_read_length_le (n : Int) (fh : FILE_T) (hn : 0 ≤ n) :
    ((file_read n fh).1.length : Int) ≤ n := by
  rw [file_read_length n fh hn]; omega

theorem file_read_full (n : Int) (fh : FILE_T) (hn : 0 ≤ n)
    (h : fh.pos + n.toNat ≤ fh.data.length) : (file_read n fh).1.length = n.toNat := by
  rw [file_read_length n fh hn]; omega

theorem file_read_full_iff (n : Int) (fh : FILE_T) (hn : 0 ≤ n) :
    (file_read n fh).1.length = n.toNat ↔ fh.pos + n.toNat ≤ fh.data.length ∨ n = 0 := by
  rw [file_read_length n fh hn]; omega

/-! ## Facts about the header decoder -/

theorem read_short_ret (K : Consts) (n : Nat) (st : RecHeader) :
    (read_short K n st).ret ≤ 0 := by
  unfold read_short; split_ifs <;> simp

theorem read_short_pos (K : Consts) (n : Nat) (st : RecHeader) :
    0 < (read_short K n st).ret ↔ False := by
  have := read_short_ret K n st
  constructor
  · intro h; omega
  · exact False.elim

theorem read_short_phdr (K : Consts) (n : Nat) (st : RecHeader) :
    (read_short K n st).phdr = st.phdr := by
  unfold read_short; split_ifs <;> rfl

theorem read_short_pseudo (K : Consts) (n : Nat) (st : RecHeader) :
    (read_short K n st).pseudo_header = st.pseudo_header := by
  unfold read_short; split_ifs <;> rfl

theorem read_short_fh (K : Consts) (n : Nat) (st : RecHeader) :
    (read_short K n st).fh = st.fh := by
  unfold read_short; split_ifs <;> rfl

theorem read_short_fddihack (K : Consts) (n : Nat) (st : RecHeader) :
    (read_short K n st).fddihack = st.fddihack := by
  unfold read_short; split_ifs <;> rfl

theorem lan_pkt_encap_fh (K : Consts) (encap : Nat) (st : RecHeader) :
    (lan_pkt_encap K encap st).fh = st.fh := by
  unfold lan_pkt_encap; split_ifs <;> rfl

theorem lan_pkt_encap_err (K : Consts) (encap : Nat) (st : RecHeader) :
    (lan_pkt_encap K encap st).err = st.err := by
  unfold lan_pkt_encap; split_ifs <;> rfl

theorem lan_pkt_encap_err_info (K : Consts) (encap : Nat) (st : RecHeader) :
    (lan_pkt_encap K encap st).err_info = st.err_info := by
  unfold lan_pkt_encap; split_ifs <;> rfl

theorem lan_pkt_encap_fddihack (K : Consts) (encap : Nat) (st : RecHeader) :
    (lan_pkt_encap K encap st).fddihack = st.fddihack := by
  unfold lan_pkt_encap; split_ifs <;> rfl

/-- The link type chosen at the head of the first `case` group is the one of
the mapping table, and the pseudo-header is written for Ethernet only. -/
theorem lan_pkt_encap_spec (K : Consts) (hK : K.Distinct) (s : Subsys)
    (hs : s ≠ .NS_LS_DRIVER ∧ s ≠ .SX25L2) (st : RecHeader) :
    (lan_pkt_encap K (K.NETTL_SUBSYS s) st).phdr.pkt_encap = spec_link_type s
    ∧ (lan_pkt_encap K (K.NETTL_SUBSYS s) st).pseudo_header
        = (if spec_link_type s = WTAP_ENCAP_ETHERNET then .eth 0 else st.pseudo_header) := by
  have hinj := fun a b => hK.eq_iff (a := a) (b := b)
  unfold lan_pkt_encap
  cases s <;> simp [hinj, spec_link_type] at hs ⊢

/-- A subsystem of the first `case` group carries one of its labels. -/
theorem lan_case_label_of (K : Consts) (s : Subsys)
    (hs : s ≠ .NS_LS_DRIVER ∧ s ≠ .SX25L2) : lan_case_label K (K.NETTL_SUBSYS s) := by
  unfold lan_case_label
  cases s <;> simp at hs ⊢

/-- The labels of the first `case` group are those of the subsystems other
than the driver and X.25 ones. -/
theorem lan_case_label_iff (K : Consts) (encap : Nat) :
    lan_case_label K encap
      ↔ ∃ s : Subsys, (s ≠ .NS_LS_DRIVER ∧ s ≠ .SX25L2) ∧ encap = K.NETTL_SUBSYS s := by
  constructor
  · intro h
    unfold lan_case_label at h
    rcases h with h | h | h | h | h | h | h | h | h | h | h | h | h | h | h | h | h | h
      | h | h | h | h | h | h | h | h <;> exact ⟨_, by decide, h⟩
  · rintro ⟨s, hs, rfl⟩
    exact lan_case_label_of K s hs

/-- With pairwise distinct labels, the driver and X.25 codes are not labels of
the first `case` group. -/
theorem not_lan_case_label (K : Consts) (hK : K.Distinct) (s : Subsys)
    (hs : s = .NS_LS_DRIVER ∨ s = .SX25L2) : ¬ lan_case_label K (K.NETTL_SUBSYS s) := by
  have hinj := fun a b => hK.eq_iff (a := a) (b := b)
  unfold lan_case_label
  rcases hs with rfl | rfl <;> simp [hinj]

theorem lan_lengths_pkt_encap (K : Consts) (encap : Nat) (ip_hdr : List guint8)
    (offset : Int) (st : RecHeader) :
    (lan_lengths K encap ip_hdr offset st).phdr.pkt_encap = st.phdr.pkt_encap
    ∧ (lan_lengths K encap ip_hdr offset st).pseudo_header = st.pseudo_header := by
  unfold lan_lengths
  simp only []
  split_ifs <;> simp [read_short_phdr, read_short_pseudo]

theorem lan_case_pkt_encap (K : Consts) (is_hpux_11 : Bool) (encap : Nat)
    (st : RecHeader) :
    (lan_case K is_hpux_11 encap st).phdr.pkt_encap
        = (lan_pkt_encap K encap st).phdr.pkt_encap
    ∧ (lan_case K is_hpux_11 encap st).pseudo_header
        = (lan_pkt_encap K encap st).pseudo_header := by
  unfold lan_case
  simp only []
  split_ifs <;> simp [read_short_phdr, read_short_pseudo, lan_lengths_pkt_encap]

/-- When the pad octets of the subsystem are all there and the 16-bit length is
not zero, `lan_lengths` returns the offset plus the pad. -/
theorem lan_lengths_complete (K : Consts) (hK : K.Distinct) (s : Subsys)
    (hs : s ≠ .NS_LS_DRIVER ∧ s ≠ .SX25L2) (ip_hdr : List guint8) (offset : Int)
    (st : RecHeader) (hlen : pntohl ip_hdr ip_length % 65536 ≠ 0)
    (hq : st.fh.pos + lan_pad K s ip_hdr (st.fh.data.drop st.fh.pos)
            ≤ st.fh.data.length) :
    (lan_lengths K (K.NETTL_SUBSYS s) ip_hdr offset st).ret
      = offset + lan_pad K s ip_hdr (st.fh.data.drop st.fh.pos) := by
  have hinj := fun a b => hK.eq_iff (a := a) (b := b)
  unfold lan_lengths
  cases s <;> simp [hinj, lan_pad, hlen] at hs hq ⊢
  · -- HPPB_FDDI
    by_cases hr : octet ip_hdr ip_rectype = K.NETTL_HDR_PDUIN
    · simp [hr]
    · simp only [hr, if_false] at hq ⊢
      have h9 : (file_read 9 st.fh).1.length = 9 :=
        file_read_full 9 st.fh (by norm_num) (by simp; omega)
      have ho : octet (file_read 9 st.fh).1 8 = octet (st.fh.data.drop st.fh.pos) 8 := by
        rw [file_read_fst 9 st.fh (by norm_num)]
        exact octet_take _ _ _ (by norm_num)
      have hp : (file_read ((octet (st.fh.data.drop st.fh.pos) 8 : Nat) : Int)
          (file_read 9 st.fh).2).1.length = octet (st.fh.data.drop st.fh.pos) 8 := by
        have := file_read_full ((octet (st.fh.data.drop st.fh.pos) 8 : Nat) : Int)
          (file_read 9 st.fh).2 (by omega)
          (by simp [file_read_snd_pos, file_read_snd_data, h9]; omega)
        simpa using this
      simp [h9, ho, hp]
      omega
  · simp [file_read_full 3 st.fh (by norm_num) (by simp; omega)]
  · simp [file_read_full 3 st.fh (by norm_num) (by simp; omega)]
  · simp [file_read_full 3 st.fh (by norm_num) (by simp; omega)]
  · simp [file_read_full 26 st.fh (by norm_num) (by simp; omega)]

/-- With a complete generic header, extra field and pad, and a non-zero 16-bit
length, the first `case` group returns the number of octets it read. -/
theorem lan_case_complete (K : Consts) (hK : K.Distinct) (s : Subsys)
    (hs : s ≠ .NS_LS_DRIVER ∧ s ≠ .SX25L2) (is_hpux_11 : Bool) (st : RecHeader)
    (hlen : pntohl (file_read 60 st.fh).1 ip_length % 65536 ≠ 0)
    (hq : st.fh.pos + 60 + (if is_hpux_11 = true then 4 else 0)
            + lan_pad K s (file_read 60 st.fh).1
                (st.fh.data.drop (st.fh.pos + 60 + (if is_hpux_11 = true then 4 else 0)))
            ≤ st.fh.data.length) :
    (lan_case K is_hpux_11 (K.NETTL_SUBSYS s) st).ret
      = 4 + 60 + (if is_hpux_11 = true then 4 else 0 : Nat)
        + lan_pad K s (file_read 60 st.fh).1
            (st.fh.data.drop (st.fh.pos + 60 + (if is_hpux_11 = true then 4 else 0))) := by
  unfold lan_case
  have h60 : (file_read 60 st.fh).1.length = 60 :=
    file_read_full 60 st.fh (by norm_num) (by simp; omega)
  cases is_hpux_11
  · simp only [sizeof_ip_hdr, lan_pkt_encap_fh] at hq ⊢
    simp only [Bool.false_eq_true, if_false, Nat.add_zero] at hq ⊢
    have := lan_lengths_complete K hK s hs (file_read 60 st.fh).1 (4 + 60)
      { lan_pkt_encap K (K.NETTL_SUBSYS s) st with fh := (file_read 60 st.fh).2 } hlen
      (by simp [file_read_snd_pos, file_read_snd_data,
            file_read_full 60 st.fh (by norm_num) (by simp; omega)]; omega)
    simp [file_read_snd_pos, file_read_snd_data,
      file_read_full 60 st.fh (by norm_num) (by simp; omega)] at this
    simpa [h60] using this
  · simp only [sizeof_ip_hdr, lan_pkt_encap_fh] at hq ⊢
    simp only [if_true] at hq ⊢
    have h4 : (file_read 4 (file_read 60 st.fh).2).1.length = 4 :=
      file_read_full 4 _ (by norm_num)
        (by simp [file_read_snd_pos, file_read_snd_data,
              file_read_full 60 st.fh (by norm_num) (by simp; omega)]; omega)
    have := lan_lengths_complete K hK s hs (file_read 60 st.fh).1 (4 + 60 + 4)
      { lan_pkt_encap K (K.NETTL_SUBSYS s) st with
          fh := (file_read 4 (file_read 60 st.fh).2).2 } hlen
      (by simp [file_read_snd_pos, file_read_snd_data, h4,
            file_read_full 60 st.fh (by norm_num) (by simp; omega)]
          simp [Nat.add_assoc] at hq ⊢; omega)
    simp [file_read_snd_pos, file_read_snd_data, h4,
      file_read_full 60 st.fh (by norm_num) (by simp; omega)] at this
    simp [h4, h60, Nat.add_assoc] at this ⊢
    simpa using this

theorem pntohs_take (l : List guint8) (n off : Nat) (h : off + 1 < n) :
    pntohs (l.take n) off = pntohs l off := by
  simp [pntohs, octet_take l n off (by omega), octet_take l n (off + 1) h]

theorem pntohs_drop (l : List guint8) (n off : Nat) :
    pntohs (l.drop n) off = pntohs l (n + off) := by
  simp [pntohs, octet_drop, Nat.add_assoc]

theorem pntohl_take (l : List guint8) (n off : Nat) (h : off + 3 < n) :
    pntohl (l.take n) off = pntohl l off := by
  simp [pntohl, octet_take l n off (by omega), octet_take l n (off + 1) (by omega),
    octet_take l n (off + 2) (by omega), octet_take l n (off + 3) h]

theorem pntohl_drop (l : List guint8) (n off : Nat) :
    pntohl (l.drop n) off = pntohl l (n + off) := by
  simp [pntohl, octet_drop, Nat.add_assoc]

theorem pntohs_lt (l : List guint8) (off : Nat) : pntohs l off < 65536 := by
  have h1 := octet_lt l off
  have h2 := octet_lt l (off + 1)
  unfold pntohs; omega

theorem pntohl_lt (l : List guint8) (off : Nat) : pntohl l off < 4294967296 := by
  have h1 := octet_lt l off
  have h2 := octet_lt l (off + 1)
  have h3 := octet_lt l (off + 2)
  have h4 := octet_lt l (off + 3)
  unfold pntohl; omega

/-- With a complete generic header, extra field and sub-header, and a non-zero
original length in the sub-header, the driver arm returns the number of octets
it read and reports Ethernet without FCS. -/
theorem driver_case_complete (K : Consts) (is_hpux_11 : Bool) (st : RecHeader)
    (hq : st.fh.pos + 60 + (if is_hpux_11 = true then 4 else 0) + 24 ≤ st.fh.data.length)
    (hlen : pntohs (st.fh.data.drop (st.fh.pos + 60 + (if is_hpux_11 = true then 4 else 0)))
              drv_length ≠ 0) :
    (driver_case K is_hpux_11 st).ret = 4 + 60 + (if is_hpux_11 = true then 4 else 0 : Nat) + 24
    ∧ (driver_case K is_hpux_11 st).phdr.pkt_encap = WTAP_ENCAP_ETHERNET
    ∧ (driver_case K is_hpux_11 st).pseudo_header = .eth 0 := by
  have h60 : (file_read 60 st.fh).1.length = 60 :=
    file_read_full 60 st.fh (by norm_num) (by simp; omega)
  have hlt := pntohs_lt
    (st.fh.data.drop (st.fh.pos + 60 + (if is_hpux_11 = true then 4 else 0))) drv_length
  unfold driver_case driver_lengths
  cases is_hpux_11
  · simp only [Bool.false_eq_true, if_false, Nat.add_zero] at hq hlen hlt
    have h24 : (file_read 24 (file_read 60 st.fh).2).1.length = 24 :=
      file_read_full 24 _ (by norm_num)
        (by simp [file_read_snd_pos, file_read_snd_data, h60]; omega)
    have hv : pntohs (file_read 24 (file_read 60 st.fh).2).1 drv_length
        = pntohs (st.fh.data.drop (st.fh.pos + 60)) drv_length := by
      rw [file_read_fst 24 _ (by norm_num)]
      simp [file_read_snd_pos, file_read_snd_data, h60]
      exact pntohs_take _ _ _ (by simp [drv_length])
    have hm : pntohs (st.fh.data.drop (st.fh.pos + 60)) drv_length % 65536 ≠ 0 := by omega
    simp [sizeof_ip_hdr, sizeof_drv_eth_hdr, h60, h24, hv, hm]
  · simp only [if_true] at hq hlen hlt
    have h4 : (file_read 4 (file_read 60 st.fh).2).1.length = 4 :=
      file_read_full 4 _ (by norm_num)
        (by simp [file_read_snd_pos, file_read_snd_data, h60]; omega)
    have h24 : (file_read 24 (file_read 4 (file_read 60 st.fh).2).2).1.length = 24 :=
      file_read_full 24 _ (by norm_num)
        (by simp [file_read_snd_pos, file_read_snd_data, h60, h4]; omega)
    have hv : pntohs (file_read 24 (file_read 4 (file_read 60 st.fh).2).2).1 drv_length
        = pntohs (st.fh.data.drop (st.fh.pos + 60 + 4)) drv_length := by
      rw [file_read_fst 24 _ (by norm_num)]
      simp [file_read_snd_pos, file_read_snd_data, h60, h4]
      exact pntohs_take _ _ _ (by simp [drv_length])
    have hm : pntohs (st.fh.data.drop (st.fh.pos + 60 + 4)) drv_length % 65536 ≠ 0 := by omega
    simp [sizeof_ip_hdr, sizeof_drv_eth_hdr, h60, h4, h24, hv, hm]

/-- With a complete X.25 header and extra field and a non-zero length field,
the X.25 arm returns the number of octets it read and reports LAPB. -/
theorem lapb_case_complete (K : Consts) (is_hpux_11 : Bool) (st : RecHeader)
    (hq : st.fh.pos + 84 + (if is_hpux_11 = true then 4 else 0) ≤ st.fh.data.length)
    (hlen : pntohs (st.fh.data.drop st.fh.pos) lapb_length ≠ 0) :
    (lapb_case K is_hpux_11 st).ret = 4 + 84 + (if is_hpux_11 = true then 4 else 0 : Nat)
    ∧ (lapb_case K is_hpux_11 st).phdr.pkt_encap = WTAP_ENCAP_LAPB := by
  have h84 : (file_read 84 st.fh).1.length = 84 :=
    file_read_full 84 st.fh (by norm_num) (by simp; omega)
  have hlt := pntohs_lt (st.fh.data.drop st.fh.pos) lapb_length
  have hv : pntohs (file_read 84 st.fh).1 lapb_length
      = pntohs (st.fh.data.drop st.fh.pos) lapb_length := by
    rw [file_read_fst 84 _ (by norm_num)]
    exact pntohs_take _ _ _ (by simp [lapb_length])
  have hm : pntohs (st.fh.data.drop st.fh.pos) lapb_length % 65536 ≠ 0 := by omega
  unfold lapb_case lapb_lengths
  cases is_hpux_11
  · simp [sizeof_lapb_hdr, h84, hv, hm]
  · simp only [if_true] at hq
    have h4 : (file_read 4 (file_read 84 st.fh).2).1.length = 4 :=
      file_read_full 4 _ (by norm_num)
        (by simp [file_read_snd_pos, file_read_snd_data, h84]; omega)
    simp [sizeof_lapb_hdr, h84, h4, hv, hm]

/-- The pad `lan_lengths` reads is the quirk size of the specification. -/
theorem lan_pad_eq_spec (K : Consts) (s : Subsys) (hs : s ≠ .NS_LS_DRIVER ∧ s ≠ .SX25L2)
    (is_hpux_11 : Bool) (fh : FILE_T) (h : fh.pos + 4 ≤ fh.data.length) :
    lan_pad K s (file_read 60 (file_read 4 fh).2).1
        (fh.data.drop (fh.pos + 4 + 60 + (if is_hpux_11 = true then 4 else 0)))
      = spec_quirk_size K is_hpux_11 s (fh.data.drop fh.pos) := by
  have h4 : (file_read 4 fh).1.length = 4 :=
    file_read_full 4 fh (by norm_num) (by simp; omega)
  have hr : octet (file_read 60 (file_read 4 fh).2).1 ip_rectype
      = octet (fh.data.drop fh.pos) (4 + ip_rectype) := by
    rw [file_read_fst 60 _ (by norm_num)]
    simp [file_read_snd_pos, file_read_snd_data, h4, ip_rectype, octet_take, octet_drop,
      Nat.add_assoc]
  cases s <;> simp [lan_pad, spec_quirk_size] at hs ⊢
  rw [hr]
  cases is_hpux_11 <;>
    simp [spec_base_size, sizeof_ip_hdr, octet_drop, Nat.add_assoc]

/-- The subsystem codes of the upstream header are pairwise distinct. -/
theorem hpux_distinct : hpux.Distinct := by
  intro a b h
  cases a <;> cases b <;> first | rfl | exact absurd h (by decide)

/-- C2: when the last octet `c` of a complete 4-octet record prefix is none of
the recognised subsystem codes, `nettl_read_rec_header` fails (returns `-1`)
with `WTAP_ERR_UNSUPPORTED_ENCAP` and an error text carrying exactly `c`, for
either generation and whatever follows; the packet header and pseudo-header
are left as they were, so no link type is guessed. -/
theorem C2_unknown_subsystem (K : Consts) (is_hpux_11 : Bool) (fh : FILE_T)
    (phdr : wtap_pkthdr) (ph : wtap_pseudo_header) (err : Int)
    (err_info : Option String) (fddihack : Bool)
    (h4 : fh.pos + 4 ≤ fh.data.length)
    (hc : ∀ s : Subsys, octet (fh.data.drop fh.pos) 3 ≠ K.NETTL_SUBSYS s) :
    (nettl_read_rec_header K is_hpux_11 fh phdr ph err err_info fddihack).ret = -1
    ∧ (nettl_read_rec_header K is_hpux_11 fh phdr ph err err_info fddihack).err
        = K.WTAP_ERR_UNSUPPORTED_ENCAP
    ∧ (nettl_read_rec_header K is_hpux_11 fh phdr ph err err_info fddihack).err_info
        = some ("nettl: subsystem " ++ toString (octet (fh.data.drop fh.pos) 3)
                  ++ " unknown or unsupported")
    ∧ (nettl_read_rec_header K is_hpux_11 fh phdr ph err err_info fddihack).phdr = phdr
    ∧ (nettl_read_rec_header K is_hpux_11 fh phdr ph err err_info fddihack).pseudo_header
        = ph := by
  have h4r : (file_read 4 fh).1.length = 4 :=
    file_read_full 4 fh (by norm_num) (by simp; omega)
  have ho : octet (file_read 4 fh).1 3 = octet (fh.data.drop fh.pos) 3 := by
    rw [file_read_fst 4 fh (by norm_num)]
    exact octet_take _ _ _ (by norm_num)
  have hl : ¬ lan_case_label K (octet (fh.data.drop fh.pos) 3) := by
    rw [lan_case_label_iff]
    rintro ⟨s, _, h⟩
    exact hc s h
  unfold nettl_read_rec_header
  simp [h4r, ho, hl, hc]

/-- C2 at the code 35 (SX25L3), which has no `case` label. -/
theorem C2_unknown_subsystem_witness :
    ((stream_of (sample_start 35 ++ zeros 70)).pos + 4
        ≤ (stream_of (sample_start 35 ++ zeros 70)).data.length
      ∧ ∀ s : Subsys,
          octet ((stream_of (sample_start 35 ++ zeros 70)).data.drop
            (stream_of (sample_start 35 ++ zeros 70)).pos) 3 ≠ hpux.NETTL_SUBSYS s)
    ∧ (nettl_read_rec_header hpux true (stream_of (sample_start 35 ++ zeros 70)) phdr_init
          (.other 0) 0 none false).err_info
        = some "nettl: subsystem 35 unknown or unsupported" :=
  ⟨⟨by decide, fun s => by cases s <;> decide⟩,
    (C2_unknown_subsystem hpux true (stream_of (sample_start 35 ++ zeros 70)) phdr_init
      (.other 0) 0 none false (by decide) (fun s => by cases s <;> decide)).2.2.1⟩

/-- C3: on a stream of at least 0x65 octets read from its start, `nettl_open`
returns 1 (recognised) exactly when the first 12 octets are one of the two
magic numbers and returns 0 (not this format) for every other 12-octet start;
when it returns 1, `is_hpux_11` is set exactly when the octets at 0x63 and 0x64
are the digits "11", and the cursor and the stream position are 0x80. -/
theorem C3_open_recognises_magic (K : Consts) (wth : wtap) (err : Int)
    (hpos : wth.fh.pos = 0) (hsize : 0x65 ≤ wth.fh.data.length) :
    ((nettl_open K wth err).ret = 1
        ↔ wth.fh.data.take 12 = nettl_magic_hpux9
          ∨ wth.fh.data.take 12 = nettl_magic_hpux10)
    ∧ ((nettl_open K wth err).ret ≠ 1 → (nettl_open K wth err).ret = 0)
    ∧ ((nettl_open K wth err).ret = 1 →
        ((nettl_open K wth err).wth.is_hpux_11 = true
            ↔ octet wth.fh.data 0x63 = 0x31 ∧ octet wth.fh.data 0x64 = 0x31)
        ∧ (nettl_open K wth err).wth.data_offset = 0x80
        ∧ (nettl_open K wth err).wth.fh.pos = 0x80) := by
  have h12 : (file_read 12 wth.fh).1.length = 12 :=
    file_read_full 12 wth.fh (by norm_num) (by simp; omega)
  have hm : (file_read 12 wth.fh).1 = wth.fh.data.take 12 := by
    rw [file_read_fst 12 wth.fh (by norm_num), hpos]; rfl
  have hs1 : file_seek (file_read 12 wth.fh).2 0x63
      = (0x63, ⟨wth.fh.data, 0x63, wth.fh.error⟩) := by
    simp [file_seek, file_read_snd_data, file_read_snd_error]
  have h2 : (file_read 2 ⟨wth.fh.data, 0x63, wth.fh.error⟩).1.length = 2 :=
    file_read_full 2 _ (by norm_num) (by simp; omega)
  have hv : (file_read 2 ⟨wth.fh.data, 0x63, wth.fh.error⟩).1
      = (wth.fh.data.drop 0x63).take 2 := by
    rw [file_read_fst 2 _ (by norm_num)]; rfl
  have hs2 : file_seek (file_read 2 ⟨wth.fh.data, 0x63, wth.fh.error⟩).2 0x80
      = (0x80, ⟨wth.fh.data, 0x80, wth.fh.error⟩) := by
    simp [file_seek, file_read_snd_data, file_read_snd_error]
  unfold nettl_open
  simp only [h12, hm, hs1, h2, hv, hs2, ne_eq, not_true_eq_false, if_false]
  have hl12 : ¬ wth.fh.data.length < 12 := by omega
  have hl2 : ¬ wth.fh.data.length - 99 < 2 := by omega
  have hm9 : nettl_magic_hpux9.length = 12 := rfl
  have hm10 : nettl_magic_hpux10.length = 12 := rfl
  have hne : nettl_magic_hpux10 ≠ nettl_magic_hpux9 := by decide
  by_cases h9 : wth.fh.data.take 12 = nettl_magic_hpux9
  · simp [h9, hm9, hl2, octet_take, octet_drop]
  · by_cases h10 : wth.fh.data.take 12 = nettl_magic_hpux10
    · simp [h10, hm10, hl2, hne, octet_take, octet_drop]
    · simp [h9, h10, hl12]

set_option maxRecDepth 8000 in
/-- C3 at a file that starts with the HP-UX 10 magic number and carries the
version marker "11". -/
theorem C3_open_recognises_magic_witness :
    ((handle_at sample_file_hpux11 0 false).fh.pos = 0
      ∧ 0x65 ≤ (handle_at sample_file_hpux11 0 false).fh.data.length)
    ∧ (nettl_open hpux (handle_at sample_file_hpux11 0 false) 0).ret = 1
    ∧ (nettl_open hpux (handle_at sample_file_hpux11 0 false) 0).wth.is_hpux_11 = true :=
  ⟨⟨by decide, by decide⟩,
    ((C3_open_recognises_magic hpux (handle_at sample_file_hpux11 0 false) 0 (by decide)
        (by decide)).1.mpr (Or.inr (by decide))),
    (((C3_open_recognises_magic hpux (handle_at sample_file_hpux11 0 false) 0 (by decide)
        (by decide)).2.2 (by decide)).1.mpr (by decide))⟩

/-- C4: without FDDI reconstruction and for a length `n ≥ 0`: when at least `n`
octets remain, `nettl_read_rec_data` succeeds, delivers exactly the next `n`
octets of the stream in order and leaves `*err` alone; when fewer remain it
fails, and on a stream whose source reports no error the code is
`WTAP_ERR_SHORT_READ`. -/
theorem C4_read_data_exact (K : Consts) (fh : FILE_T) (n : Int) (err : Int)
    (hn : 0 ≤ n) :
    (n.toNat ≤ fh.data.length - fh.pos →
        (nettl_read_rec_data K fh n err false).ok = true
        ∧ (nettl_read_rec_data K fh n err false).pd = (fh.data.drop fh.pos).take n.toNat
        ∧ (nettl_read_rec_data K fh n err false).pd.length = n.toNat
        ∧ (nettl_read_rec_data K fh n err false).fh.pos = fh.pos + n.toNat
        ∧ (nettl_read_rec_data K fh n err false).err = err)
    ∧ (fh.data.length - fh.pos < n.toNat →
        (nettl_read_rec_data K fh n err false).ok = false
        ∧ (fh.error = 0 →
            (nettl_read_rec_data K fh n err false).err = K.WTAP_ERR_SHORT_READ)) := by
  have hl := file_read_length n fh hn
  have hf := file_read_fst n fh hn
  unfold nettl_read_rec_data rec_data_reads
  simp only [Bool.false_eq_true, if_false]
  constructor
  · intro h
    have he : ((file_read n fh).1.length : Int) = n := by rw [hl]; omega
    have hl2 : (file_read n fh).1.length = n.toNat := by omega
    simp only [he, ne_eq, not_true_eq_false, if_false]
    simp [hf, file_read_snd_pos, hl2, h]
  · intro h
    have he : ((file_read n fh).1.length : Int) ≠ n := by rw [hl]; omega
    simp only [ne_eq, he, not_false_eq_true, if_true]
    simp only [file_error, file_read_snd_error]
    refine ⟨trivial, fun h0 => ?_⟩
    simp [h0]

/-- C4 at a 5-octet stream: a read of 5 octets succeeds with all of them, and
a read of 6 octets (one more than the stream holds) is a short read. -/
theorem C4_read_data_exact_witness :
    ((0 : Int) ≤ 5 ∧ (0 : Int) ≤ 6)
    ∧ (nettl_read_rec_data hpux (stream_of [1, 2, 3, 4, 5]) 5 0 false).ok = true
    ∧ (nettl_read_rec_data hpux (stream_of [1, 2, 3, 4, 5]) 5 0 false).pd = [1, 2, 3, 4, 5]
    ∧ (nettl_read_rec_data hpux (stream_of [1, 2, 3, 4, 5]) 6 0 false).ok = false
    ∧ (nettl_read_rec_data hpux (stream_of [1, 2, 3, 4, 5]) 6 0 false).err
        = hpux.WTAP_ERR_SHORT_READ :=
  ⟨⟨by decide, by decide⟩,
    ((C4_read_data_exact hpux (stream_of [1, 2, 3, 4, 5]) 5 0 (by decide)).1
      (by decide)).1,
    ((C4_read_data_exact hpux (stream_of [1, 2, 3, 4, 5]) 5 0 (by decide)).1
      (by decide)).2.1,
    ((C4_read_data_exact hpux (stream_of [1, 2, 3, 4, 5]) 6 0 (by decide)).2
      (by decide)).1,
    ((C4_read_data_exact hpux (stream_of [1, 2, 3, 4, 5]) 6 0 (by decide)).2
      (by decide)).2 rfl⟩

theorem toUInt32_lt (i : Int) : toUInt32 i < 4294967296 := by
  unfold toUInt32; omega

theorem toUInt32_of_nonneg (i : Int) (h0 : 0 ≤ i) (h1 : i < 4294967296) :
    (toUInt32 i : Int) = i := by
  unfold toUInt32; omega

theorem toInt32_of_lt (n : Nat) (h : n < 2147483648) : toInt32 n = n := by
  unfold toInt32; split_ifs <;> omega

/-- A successful `lan_lengths` has read exactly `ret - offset` octets, and its
lengths fit 32 bits. -/
theorem lan_lengths_success (K : Consts) (encap : Nat) (ip_hdr : List guint8)
    (offset : Int) (st : RecHeader)
    (h : 0 < (lan_lengths K encap ip_hdr offset st).ret) :
    (lan_lengths K encap ip_hdr offset st).fh.data = st.fh.data
    ∧ (lan_lengths K encap ip_hdr offset st).fh.error = st.fh.error
    ∧ ((lan_lengths K encap ip_hdr offset st).fh.pos : Int)
        = st.fh.pos + ((lan_lengths K encap ip_hdr offset st).ret - offset)
    ∧ (lan_lengths K encap ip_hdr offset st).phdr.caplen < 4294967296
    ∧ (lan_lengths K encap ip_hdr offset st).phdr.len < 4294967296
    ∧ ((lan_lengths K encap ip_hdr offset st).fddihack = true →
        st.fddihack = true ∨ (lan_lengths K encap ip_hdr offset st).phdr.caplen < 65536) := by
  unfold lan_lengths at h ⊢
  simp only [] at h ⊢
  split_ifs at h ⊢ <;>
    first
    | (exfalso; simp [read_short_pos] at h; done)
    | (simp_all [file_read_snd_pos, file_read_snd_data, file_read_snd_error, toUInt32_lt]
       done)
    | (simp_all [file_read_snd_pos, file_read_snd_data, file_read_snd_error, toUInt32_lt]
       omega)

/-- A successful first `case` group has read exactly `ret - 4` octets after the
record prefix. -/
theorem lan_case_success (K : Consts) (is_hpux_11 : Bool) (encap : Nat) (st : RecHeader)
    (h : 0 < (lan_case K is_hpux_11 encap st).ret) :
    (lan_case K is_hpux_11 encap st).fh.data = st.fh.data
    ∧ (lan_case K is_hpux_11 encap st).fh.error = st.fh.error
    ∧ ((lan_case K is_hpux_11 encap st).fh.pos : Int)
        = st.fh.pos + ((lan_case K is_hpux_11 encap st).ret - 4)
    ∧ (lan_case K is_hpux_11 encap st).phdr.caplen < 4294967296
    ∧ (lan_case K is_hpux_11 encap st).phdr.len < 4294967296
    ∧ ((lan_case K is_hpux_11 encap st).fddihack = true →
        st.fddihack = true ∨ (lan_case K is_hpux_11 encap st).phdr.caplen < 65536) := by
  unfold lan_case at h ⊢
  simp only [] at h ⊢
  split_ifs at h ⊢
  · exfalso; simp [read_short_pos] at h
  · exfalso; simp [read_short_pos] at h
  · rename_i h60 _ h4
    have := lan_lengths_success _ _ _ _ _ h
    simp only [file_read_snd_pos, file_read_snd_data, file_read_snd_error,
      lan_pkt_encap_fh] at this ⊢
    simp only [sizeof_ip_hdr, ne_eq, not_not] at h60 h4
    refine ⟨this.1, this.2.1, ?_, this.2.2.2.1, this.2.2.2.2.1, ?_⟩
    · rw [this.2.2.1]
      simp only [lan_pkt_encap_fh, sizeof_ip_hdr] at h60 h4 ⊢
      rw [h60, h4]; push_cast; ring
    · simpa [lan_pkt_encap_fddihack] using this.2.2.2.2.2
  · rename_i h60 _
    have := lan_lengths_success _ _ _ _ _ h
    simp only [file_read_snd_pos, file_read_snd_data, file_read_snd_error,
      lan_pkt_encap_fh] at this ⊢
    simp only [sizeof_ip_hdr, ne_eq, not_not] at h60
    refine ⟨this.1, this.2.1, ?_, this.2.2.2.1, this.2.2.2.2.1, ?_⟩
    · rw [this.2.2.1]
      simp only [lan_pkt_encap_fh, sizeof_ip_hdr] at h60 ⊢
      rw [h60]; push_cast; ring
    · simpa [lan_pkt_encap_fddihack] using this.2.2.2.2.2

/-- A successful `driver_lengths` has read exactly `ret - offset` octets. -/
theorem driver_lengths_success (K : Consts) (ip_hdr : List guint8) (offset : Int)
    (st : RecHeader) (h : 0 < (driver_lengths K ip_hdr offset st).ret) :
    (driver_lengths K ip_hdr offset st).fh.data = st.fh.data
    ∧ (driver_lengths K ip_hdr offset st).fh.error = st.fh.error
    ∧ ((driver_lengths K ip_hdr offset st).fh.pos : Int)
        = st.fh.pos + ((driver_lengths K ip_hdr offset st).ret - offset)
    ∧ (driver_lengths K ip_hdr offset st).phdr.caplen < 4294967296
    ∧ (driver_lengths K ip_hdr offset st).phdr.len < 4294967296
    ∧ ((driver_lengths K ip_hdr offset st).fddihack = true →
        st.fddihack = true ∨ (driver_lengths K ip_hdr offset st).phdr.caplen < 65536) := by
  unfold driver_lengths at h ⊢
  simp only [] at h ⊢
  split_ifs at h ⊢ <;>
    first
    | (exfalso; simp [read_short_pos] at h; done)
    | (simp_all [file_read_snd_pos, file_read_snd_data, file_read_snd_error,
         sizeof_drv_eth_hdr]
       done)
    | (simp_all [file_read_snd_pos, file_read_snd_data, file_read_snd_error,
         sizeof_drv_eth_hdr]
       omega)

/-- A successful driver arm has read exactly `ret - 4` octets after the record
prefix. -/
theorem driver_case_success (K : Consts) (is_hpux_11 : Bool) (st : RecHeader)
    (h : 0 < (driver_case K is_hpux_11 st).ret) :
    (driver_case K is_hpux_11 st).fh.data = st.fh.data
    ∧ (driver_case K is_hpux_11 st).fh.error = st.fh.error
    ∧ ((driver_case K is_hpux_11 st).fh.pos : Int)
        = st.fh.pos + ((driver_case K is_hpux_11 st).ret - 4)
    ∧ (driver_case K is_hpux_11 st).phdr.caplen < 4294967296
    ∧ (driver_case K is_hpux_11 st).phdr.len < 4294967296
    ∧ ((driver_case K is_hpux_11 st).fddihack = true →
        st.fddihack = true ∨ (driver_case K is_hpux_11 st).phdr.caplen < 65536) := by
  unfold driver_case at h ⊢
  simp only [] at h ⊢
  split_ifs at h ⊢
  · exfalso; simp [read_short_pos] at h
  · exfalso; simp [read_short_pos] at h
  · rename_i h60 _ h4
    have := driver_lengths_success _ _ _ _ h
    simp only [file_read_snd_pos, file_read_snd_data, file_read_snd_error] at this ⊢
    simp only [sizeof_ip_hdr, ne_eq, not_not] at h60 h4
    refine ⟨this.1, this.2.1, ?_, this.2.2.2.1, this.2.2.2.2.1, ?_⟩
    · rw [this.2.2.1]
      simp only [sizeof_ip_hdr] at h60 h4 ⊢
      rw [h60, h4]; push_cast; ring
    · simpa [lan_pkt_encap_fddihack] using this.2.2.2.2.2
  · rename_i h60 _
    have := driver_lengths_success _ _ _ _ h
    simp only [file_read_snd_pos, file_read_snd_data, file_read_snd_error] at this ⊢
    simp only [sizeof_ip_hdr, ne_eq, not_not] at h60
    refine ⟨this.1, this.2.1, ?_, this.2.2.2.1, this.2.2.2.2.1, ?_⟩
    · rw [this.2.2.1]
      simp only [sizeof_ip_hdr] at h60 ⊢
      rw [h60]; push_cast; ring
    · simpa [lan_pkt_encap_fddihack] using this.2.2.2.2.2

/-- A successful `lapb_lengths` reads nothing and returns the offset. -/
theorem lapb_lengths_success (K : Consts) (lapb_hdr : List guint8) (offset : Int)
    (st : RecHeader) (h : 0 < (lapb_lengths K lapb_hdr offset st).ret) :
    (lapb_lengths K lapb_hdr offset st).fh = st.fh
    ∧ (lapb_lengths K lapb_hdr offset st).ret = offset
    ∧ (lapb_lengths K lapb_hdr offset st).phdr.caplen < 4294967296
    ∧ (lapb_lengths K lapb_hdr offset st).phdr.len < 4294967296
    ∧ ((lapb_lengths K lapb_hdr offset st).fddihack = true →
        st.fddihack = true ∨ (lapb_lengths K lapb_hdr offset st).phdr.caplen < 65536) := by
  unfold lapb_lengths at h ⊢
  simp only [] at h ⊢
  split_ifs at h ⊢ <;> first | (simp at h; done) | (simp; omega)

/-- A successful X.25 arm has read exactly `ret - 4` octets after the record
prefix. -/
theorem lapb_case_success (K : Consts) (is_hpux_11 : Bool) (st : RecHeader)
    (h : 0 < (lapb_case K is_hpux_11 st).ret) :
    (lapb_case K is_hpux_11 st).fh.data = st.fh.data
    ∧ (lapb_case K is_hpux_11 st).fh.error = st.fh.error
    ∧ ((lapb_case K is_hpux_11 st).fh.pos : Int)
        = st.fh.pos + ((lapb_case K is_hpux_11 st).ret - 4)
    ∧ (lapb_case K is_hpux_11 st).phdr.caplen < 4294967296
    ∧ (lapb_case K is_hpux_11 st).phdr.len < 4294967296
    ∧ ((lapb_case K is_hpux_11 st).fddihack = true →
        st.fddihack = true ∨ (lapb_case K is_hpux_11 st).phdr.caplen < 65536) := by
  unfold lapb_case at h ⊢
  simp only [] at h ⊢
  split_ifs at h ⊢
  · exfalso; simp [read_short_pos] at h
  · exfalso; simp [read_short_pos] at h
  · rename_i h84 _ h4
    have := lapb_lengths_success _ _ _ _ h
    simp only [sizeof_lapb_hdr, ne_eq, not_not] at h84 h4
    rw [this.1, this.2.1]
    refine ⟨rfl, rfl, ?_, this.2.2.1, this.2.2.2.1, ?_⟩
    · simp only [file_read_snd_pos, sizeof_lapb_hdr] at h84 h4 ⊢
      rw [h84, h4]; push_cast; ring
    · simpa using this.2.2.2.2
  · rename_i h84 _
    have := lapb_lengths_success _ _ _ _ h
    simp only [sizeof_lapb_hdr, ne_eq, not_not] at h84
    rw [this.1, this.2.1]
    refine ⟨rfl, rfl, ?_, this.2.2.1, this.2.2.2.1, ?_⟩
    · simp only [file_read_snd_pos, sizeof_lapb_hdr] at h84 ⊢
      rw [h84]; push_cast; ring
    · simpa using this.2.2.2.2

/-- A successful `nettl_read_rec_header` has read exactly `ret` octets: the
stream position has advanced by the value it returns, and the lengths it
stored fit 32 bits. -/
theorem header_success (K : Consts) (is_hpux_11 : Bool) (fh : FILE_T)
    (phdr : wtap_pkthdr) (ph : wtap_pseudo_header) (err : Int)
    (err_info : Option String) (fddihack : Bool)
    (h : 0 < (nettl_read_rec_header K is_hpux_11 fh phdr ph err err_info fddihack).ret) :
    (nettl_read_rec_header K is_hpux_11 fh phdr ph err err_info fddihack).fh.data = fh.data
    ∧ (nettl_read_rec_header K is_hpux_11 fh phdr ph err err_info fddihack).fh.error
        = fh.error
    ∧ ((nettl_read_rec_header K is_hpux_11 fh phdr ph err err_info fddihack).fh.pos : Int)
        = fh.pos + (nettl_read_rec_header K is_hpux_11 fh phdr ph err err_info fddihack).ret
    ∧ (nettl_read_rec_header K is_hpux_11 fh phdr ph err err_info fddihack).phdr.caplen
        < 4294967296
    ∧ (nettl_read_rec_header K is_hpux_11 fh phdr ph err err_info fddihack).phdr.len
        < 4294967296
    ∧ ((nettl_read_rec_header K is_hpux_11 fh phdr ph err err_info fddihack).fddihack = true →
        fddihack = true
        ∨ (nettl_read_rec_header K is_hpux_11 fh phdr ph err err_info fddihack).phdr.caplen
            < 65536) := by
  unfold nettl_read_rec_header at h ⊢
  simp only [] at h ⊢
  split_ifs at h ⊢
  · exfalso; simp [read_short_pos] at h
  · rename_i h4 _
    have := lan_case_success _ _ _ _ h
    simp only [file_read_snd_pos, file_read_snd_data, file_read_snd_error, ne_eq,
      not_not] at this h4 ⊢
    refine ⟨this.1, this.2.1, ?_, this.2.2.2.1, this.2.2.2.2.1, ?_⟩
    · rw [this.2.2.1, h4]; push_cast; ring
    · simpa [lan_pkt_encap_fddihack] using this.2.2.2.2.2
  · rename_i h4 _ _
    have := driver_case_success _ _ _ h
    simp only [file_read_snd_pos, file_read_snd_data, file_read_snd_error, ne_eq,
      not_not] at this h4 ⊢
    refine ⟨this.1, this.2.1, ?_, this.2.2.2.1, this.2.2.2.2.1, ?_⟩
    · rw [this.2.2.1, h4]; push_cast; ring
    · simpa [lan_pkt_encap_fddihack] using this.2.2.2.2.2
  · rename_i h4 _ _ _
    have := lapb_case_success _ _ _ h
    simp only [file_read_snd_pos, file_read_snd_data, file_read_snd_error, ne_eq,
      not_not] at this h4 ⊢
    refine ⟨this.1, this.2.1, ?_, this.2.2.2.1, this.2.2.2.2.1, ?_⟩
    · rw [this.2.2.1, h4]; push_cast; ring
    · simpa [lan_pkt_encap_fddihack] using this.2.2.2.2.2
  · simp at h

/-- A successful `nettl_read_rec_data` has read exactly `length` octets and
leaves `*err` alone (with FDDI reconstruction, for a length that is not
negative). -/
theorem rec_data_success (K : Consts) (fh : FILE_T) (length err : Int) (fddihack : Bool)
    (hl : fddihack = true → 0 ≤ length)
    (h : (nettl_read_rec_data K fh length err fddihack).ok = true) :
    (nettl_read_rec_data K fh length err fddihack).fh.data = fh.data
    ∧ (nettl_read_rec_data K fh length err fddihack).fh.error = fh.error
    ∧ ((nettl_read_rec_data K fh length err fddihack).fh.pos : Int) = fh.pos + length
    ∧ (nettl_read_rec_data K fh length err fddihack).err = err
    ∧ 0 ≤ length := by
  unfold nettl_read_rec_data rec_data_reads at h ⊢
  simp only [] at h ⊢
  split_ifs at h ⊢ <;>
    first
    | (exfalso; simp at h; done)
    | (simp_all [file_read_snd_pos, file_read_snd_data, file_read_snd_error]; done)
    | (simp_all [file_read_snd_pos, file_read_snd_data, file_read_snd_error]; omega)

/-- C5 fails as stated: on a record whose header decodes and whose frame data
is one octet short, `nettl_read` fails and leaves the cursor advanced by the
64 header octets. -/
theorem C5_counterexample :
    (nettl_read hpux (handle_at sample_truncated 0 false) 0 none).ok = false
    ∧ (nettl_read hpux (handle_at sample_truncated 0 false) 0 none).err
        = hpux.WTAP_ERR_SHORT_READ
    ∧ (handle_at sample_truncated 0 false).data_offset = 0
    ∧ (nettl_read hpux (handle_at sample_truncated 0 false) 0 none).wth.data_offset = 64 := by
  decide

/-- C5 as amended: when `nettl_read` fails or reports the end of the stream,
the offset it reports is the cursor before the call; the cursor itself is
unchanged when the header decode did not succeed, and is advanced by the
number of header octets read when the header decoded and the frame data could
not be read. -/
theorem C5_cursor_on_failure (K : Consts) (wth : wtap) (err : Int)
    (err_info : Option String) (hfail : (nettl_read K wth err err_info).ok = false) :
    (nettl_read K wth err err_info).data_offset = wth.data_offset
    ∧ ((nettl_read_rec_header K wth.is_hpux_11 wth.fh wth.phdr wth.pseudo_header err
          err_info false).ret ≤ 0 →
        (nettl_read K wth err err_info).wth.data_offset = wth.data_offset)
    ∧ (0 < (nettl_read_rec_header K wth.is_hpux_11 wth.fh wth.phdr wth.pseudo_header err
          err_info false).ret →
        (nettl_read K wth err err_info).wth.data_offset
          = wth.data_offset
            + (nettl_read_rec_header K wth.is_hpux_11 wth.fh wth.phdr wth.pseudo_header err
                err_info false).ret) := by
  unfold nettl_read at hfail ⊢
  simp only [] at hfail ⊢
  split_ifs at hfail ⊢ <;> simp_all

/-- C5 as amended, at the truncated record: the cursor moves from 0 to 64. -/
theorem C5_cursor_on_failure_witness :
    (nettl_read hpux (handle_at sample_truncated 0 false) 0 none).ok = false
    ∧ (nettl_read hpux (handle_at sample_truncated 0 false) 0 none).data_offset = 0 :=
  ⟨by decide,
    (C5_cursor_on_failure hpux (handle_at sample_truncated 0 false) 0 none (by decide)).1⟩
theorem toInt32_nonneg_iff (n : Nat) (h : n < 4294967296) :
    0 ≤ toInt32 n ↔ toInt32 n = n := by
  unfold toInt32; split_ifs <;> omega

/-- The frame-data read `nettl_read` performs after a successful header decode
(nettl.c 226-227). -/
theorem nettl_read_ok (K : Consts) (wth : wtap) (err : Int) (err_info : Option String)
    (hok : (nettl_read K wth err err_info).ok = true) :
    0 < (nettl_read_header K wth err err_info).ret
    ∧ (nettl_read_data K wth err err_info).ok = true
    ∧ (nettl_read K wth err err_info).wth.phdr = (nettl_read_header K wth err err_info).phdr
    ∧ (nettl_read K wth err err_info).wth.pseudo_header
        = (nettl_read_header K wth err err_info).pseudo_header
    ∧ (nettl_read K wth err err_info).wth.frame_buffer
        = (nettl_read_data K wth err err_info).pd
    ∧ (nettl_read K wth err err_info).wth.fh = (nettl_read_data K wth err err_info).fh
    ∧ (nettl_read K wth err err_info).wth.data_offset
        = wth.data_offset + (nettl_read_header K wth err err_info).ret
          + (nettl_read_header K wth err err_info).phdr.caplen
    ∧ (nettl_read K wth err err_info).data_offset = wth.data_offset := by
  by_cases hr : (nettl_read_header K wth err err_info).ret ≤ 0
  · exfalso
    unfold nettl_read_header at hr
    simp [nettl_read, hr] at hok
  · refine ⟨by omega, ?_⟩
    unfold nettl_read_data nettl_read_header at hr ⊢
    unfold nettl_read at hok ⊢
    simp only [hr, if_false] at hok ⊢
    split_ifs at hok ⊢ <;> simp_all

/-- A successful `nettl_read` has read the whole record: the captured length
converts to `int` unchanged, and the stream has advanced by the header size
plus the captured length. -/
theorem nettl_read_ok_stream (K : Consts) (wth : wtap) (err : Int)
    (err_info : Option String) (hok : (nettl_read K wth err err_info).ok = true) :
    toInt32 (nettl_read_header K wth err err_info).phdr.caplen
        = (nettl_read_header K wth err err_info).phdr.caplen
    ∧ (nettl_read_header K wth err err_info).fh.data = wth.fh.data
    ∧ (nettl_read_header K wth err err_info).fh.error = wth.fh.error
    ∧ ((nettl_read_header K wth err err_info).fh.pos : Int)
        = wth.fh.pos + (nettl_read_header K wth err err_info).ret
    ∧ (nettl_read_data K wth err err_info).fh.data = wth.fh.data
    ∧ ((nettl_read_data K wth err err_info).fh.pos : Int)
        = wth.fh.pos + (nettl_read_header K wth err err_info).ret
          + (nettl_read_header K wth err err_info).phdr.caplen := by
  obtain ⟨hpos, hd, -⟩ := nettl_read_ok K wth err err_info hok
  have hs := header_success K wth.is_hpux_11 wth.fh wth.phdr wth.pseudo_header err
    err_info false hpos
  rw [show nettl_read_rec_header K wth.is_hpux_11 wth.fh wth.phdr wth.pseudo_header err
    err_info false = nettl_read_header K wth err err_info from rfl] at hs
  obtain ⟨hdata, herror, hp, hcap, _, hhack⟩ := hs
  have hrd := rec_data_success K _ _ _ _
    (fun hh => by
      rcases hhack hh with h1 | h1
      · simp at h1
      · rw [toInt32_of_lt _ (by omega)]; positivity) hd
  obtain ⟨hd1, _, hd3, _, hd5⟩ := hrd
  have hti := (toInt32_nonneg_iff _ hcap).mp hd5
  refine ⟨hti, hdata, herror, hp, ?_, ?_⟩
  · unfold nettl_read_data; rw [hd1, hdata]
  · unfold nettl_read_data; rw [hd3, hti, hp]

theorem read_short_ret_val (K : Consts) (n : Nat) (st : RecHeader) :
    (read_short K n st).ret
      = (if file_error st.fh ≠ 0 then -1 else if n ≠ 0 then -1 else 0) := by
  unfold read_short; split_ifs <;> rfl

theorem short_ret_pos (e : Int) (n : Nat) :
    (0 : Int) < (if e ≠ 0 then -1 else if n ≠ 0 then -1 else 0) ↔ False := by
  split_ifs <;> simp

/-- The pseudo-header after `lan_pkt_encap` is `eth` with `fcs_len` 0 for
Ethernet and the one passed in otherwise; the link type is never LAPB. -/
theorem lan_pkt_encap_pseudo (K : Consts) (encap : Nat) (st : RecHeader) :
    (lan_pkt_encap K encap st).pseudo_header
        = (if (lan_pkt_encap K encap st).phdr.pkt_encap = WTAP_ENCAP_ETHERNET then .eth 0
           else st.pseudo_header)
    ∧ (lan_pkt_encap K encap st).phdr.pkt_encap ≠ WTAP_ENCAP_LAPB := by
  unfold lan_pkt_encap; split_ifs <;> simp_all

/-- The link type `lan_pkt_encap` chooses does not depend on the state. -/
theorem lan_pkt_encap_rel (K : Consts) (encap : Nat) (st st' : RecHeader) :
    (lan_pkt_encap K encap st).phdr.pkt_encap = (lan_pkt_encap K encap st').phdr.pkt_encap := by
  unfold lan_pkt_encap; split_ifs <;> rfl

/-- The result of `lan_lengths` depends on the state through the stream, the
FDDI flag and the link type only. -/
theorem lan_lengths_rel (K : Consts) (encap : Nat) (ip_hdr : List guint8) (offset : Int)
    (st st' : RecHeader) (hfh : st.fh = st'.fh) (hhack : st.fddihack = st'.fddihack)
    (henc : st.phdr.pkt_encap = st'.phdr.pkt_encap) :
    (lan_lengths K encap ip_hdr offset st).ret = (lan_lengths K encap ip_hdr offset st').ret
    ∧ (lan_lengths K encap ip_hdr offset st).fh = (lan_lengths K encap ip_hdr offset st').fh
    ∧ (lan_lengths K encap ip_hdr offset st).fddihack
        = (lan_lengths K encap ip_hdr offset st').fddihack
    ∧ (0 < (lan_lengths K encap ip_hdr offset st).ret →
        (lan_lengths K encap ip_hdr offset st).phdr
          = (lan_lengths K encap ip_hdr offset st').phdr) := by
  unfold lan_lengths
  simp only [hfh, hhack, henc]
  split_ifs <;>
    simp only [read_short_ret_val, read_short_fh, read_short_fddihack, read_short_phdr,
      short_ret_pos] <;> simp [henc]

/-- The result of the first `case` group depends on the state through the
stream and the FDDI flag only. -/
theorem lan_case_rel (K : Consts) (is_hpux_11 : Bool) (encap : Nat)
    (st st' : RecHeader) (hfh : st.fh = st'.fh) (hhack : st.fddihack = st'.fddihack) :
    (lan_case K is_hpux_11 encap st).ret = (lan_case K is_hpux_11 encap st').ret
    ∧ (lan_case K is_hpux_11 encap st).fh = (lan_case K is_hpux_11 encap st').fh
    ∧ (lan_case K is_hpux_11 encap st).fddihack = (lan_case K is_hpux_11 encap st').fddihack
    ∧ (0 < (lan_case K is_hpux_11 encap st).ret →
        (lan_case K is_hpux_11 encap st).phdr = (lan_case K is_hpux_11 encap st').phdr) := by
  unfold lan_case
  simp only [lan_pkt_encap_fh, hfh]
  split_ifs
  · simp only [read_short_ret_val, read_short_fh, read_short_fddihack, short_ret_pos]
    simp [lan_pkt_encap_fddihack, hhack]
  · simp only [read_short_ret_val, read_short_fh, read_short_fddihack, short_ret_pos]
    simp [lan_pkt_encap_fddihack, hhack]
  · exact lan_lengths_rel K encap _ _ _ _ rfl
      (by simp [lan_pkt_encap_fddihack, hhack]) (lan_pkt_encap_rel K encap st st')
  · exact lan_lengths_rel K encap _ _ _ _ rfl
      (by simp [lan_pkt_encap_fddihack, hhack]) (lan_pkt_encap_rel K encap st st')

/-- The result of the driver arm depends on the state through the stream and
the FDDI flag only. -/
theorem driver_case_rel (K : Consts) (is_hpux_11 : Bool) (st st' : RecHeader)
    (hfh : st.fh = st'.fh) (hhack : st.fddihack = st'.fddihack) :
    (driver_case K is_hpux_11 st).ret = (driver_case K is_hpux_11 st').ret
    ∧ (driver_case K is_hpux_11 st).fh = (driver_case K is_hpux_11 st').fh
    ∧ (driver_case K is_hpux_11 st).fddihack = (driver_case K is_hpux_11 st').fddihack
    ∧ (0 < (driver_case K is_hpux_11 st).ret →
        (driver_case K is_hpux_11 st).phdr = (driver_case K is_hpux_11 st').phdr) := by
  unfold driver_case driver_lengths
  simp only [hfh, hhack]
  split_ifs <;>
    simp only [read_short_ret_val, read_short_fh, read_short_fddihack, short_ret_pos] <;> simp

/-- The result of the X.25 arm depends on the state through the stream and
the FDDI flag only. -/
theorem lapb_case_rel (K : Consts) (is_hpux_11 : Bool) (st st' : RecHeader)
    (hfh : st.fh = st'.fh) (hhack : st.fddihack = st'.fddihack) :
    (lapb_case K is_hpux_11 st).ret = (lapb_case K is_hpux_11 st').ret
    ∧ (lapb_case K is_hpux_11 st).fh = (lapb_case K is_hpux_11 st').fh
    ∧ (lapb_case K is_hpux_11 st).fddihack = (lapb_case K is_hpux_11 st').fddihack
    ∧ (0 < (lapb_case K is_hpux_11 st).ret →
        (lapb_case K is_hpux_11 st).phdr = (lapb_case K is_hpux_11 st').phdr)
    ∧ (0 < (lapb_case K is_hpux_11 st).ret →
        (lapb_case K is_hpux_11 st).pseudo_header
          = (lapb_case K is_hpux_11 st').pseudo_header) := by
  unfold lapb_case lapb_lengths
  simp only [hfh, hhack]
  split_ifs <;>
    simp only [read_short_ret_val, read_short_fh, read_short_fddihack, short_ret_pos] <;> simp

/-- The decoded record does not depend on what the output parameters held
before the call: the return value, the stream, the FDDI flag and, on success,
the packet header are the same for any two sets of initial values. -/
theorem header_rel (K : Consts) (is_hpux_11 : Bool) (fh : FILE_T)
    (phdr phdr' : wtap_pkthdr) (ph ph' : wtap_pseudo_header) (err err' : Int)
    (ei ei' : Option String) (fddihack : Bool) :
    (nettl_read_rec_header K is_hpux_11 fh phdr ph err ei fddihack).ret
        = (nettl_read_rec_header K is_hpux_11 fh phdr' ph' err' ei' fddihack).ret
    ∧ (nettl_read_rec_header K is_hpux_11 fh phdr ph err ei fddihack).fh
        = (nettl_read_rec_header K is_hpux_11 fh phdr' ph' err' ei' fddihack).fh
    ∧ (nettl_read_rec_header K is_hpux_11 fh phdr ph err ei fddihack).fddihack
        = (nettl_read_rec_header K is_hpux_11 fh phdr' ph' err' ei' fddihack).fddihack
    ∧ (0 < (nettl_read_rec_header K is_hpux_11 fh phdr ph err ei fddihack).ret →
        (nettl_read_rec_header K is_hpux_11 fh phdr ph err ei fddihack).phdr
          = (nettl_read_rec_header K is_hpux_11 fh phdr' ph' err' ei' fddihack).phdr) := by
  unfold nettl_read_rec_header
  simp only []
  split_ifs
  · simp only [read_short_ret_val, read_short_fh, read_short_fddihack, short_ret_pos]
    simp
  · exact lan_case_rel K is_hpux_11 _ _ _ rfl rfl
  · exact driver_case_rel K is_hpux_11 _ _ rfl rfl
  · have := lapb_case_rel K is_hpux_11
      ⟨0, err, ei, phdr, ph, fddihack, (file_read 4 fh).2, false⟩
      ⟨0, err', ei', phdr', ph', fddihack, (file_read 4 fh).2, false⟩ rfl rfl
    exact ⟨this.1, this.2.1, this.2.2.1, this.2.2.2.1⟩
  · simp

/-- A successful driver arm reports Ethernet without FCS. -/
theorem driver_case_pseudo (K : Consts) (is_hpux_11 : Bool) (st : RecHeader)
    (h : 0 < (driver_case K is_hpux_11 st).ret) :
    (driver_case K is_hpux_11 st).phdr.pkt_encap = WTAP_ENCAP_ETHERNET
    ∧ (driver_case K is_hpux_11 st).pseudo_header = .eth 0 := by
  unfold driver_case driver_lengths at h ⊢
  simp only [] at h ⊢
  split_ifs at h ⊢ <;>
    first
    | (exfalso; simp [read_short_pos] at h; done)
    | simp

/-- A successful X.25 arm reports LAPB. -/
theorem lapb_case_encap (K : Consts) (is_hpux_11 : Bool) (st : RecHeader)
    (h : 0 < (lapb_case K is_hpux_11 st).ret) :
    (lapb_case K is_hpux_11 st).phdr.pkt_encap = WTAP_ENCAP_LAPB := by
  unfold lapb_case lapb_lengths at h ⊢
  simp only [] at h ⊢
  split_ifs at h ⊢ <;>
    first
    | (exfalso; simp [read_short_pos] at h; done)
    | simp

/-- The pseudo-header of a decoded record: for Ethernet and LAPB it is written
by the decoder and does not depend on what it held before; for the other link
types it is left as it was. -/
theorem header_pseudo_rel (K : Consts) (is_hpux_11 : Bool) (fh : FILE_T)
    (phdr phdr' : wtap_pkthdr) (ph ph' : wtap_pseudo_header) (err err' : Int)
    (ei ei' : Option String) (fddihack : Bool)
    (h : 0 < (nettl_read_rec_header K is_hpux_11 fh phdr ph err ei fddihack).ret) :
    ((nettl_read_rec_header K is_hpux_11 fh phdr ph err ei fddihack).phdr.pkt_encap
          = WTAP_ENCAP_ETHERNET
        ∨ (nettl_read_rec_header K is_hpux_11 fh phdr ph err ei fddihack).phdr.pkt_encap
          = WTAP_ENCAP_LAPB →
      (nettl_read_rec_header K is_hpux_11 fh phdr ph err ei fddihack).pseudo_header
        = (nettl_read_rec_header K is_hpux_11 fh phdr' ph' err' ei' fddihack).pseudo_header)
    ∧ (¬ ((nettl_read_rec_header K is_hpux_11 fh phdr ph err ei fddihack).phdr.pkt_encap
            = WTAP_ENCAP_ETHERNET
          ∨ (nettl_read_rec_header K is_hpux_11 fh phdr ph err ei fddihack).phdr.pkt_encap
            = WTAP_ENCAP_LAPB) →
      (nettl_read_rec_header K is_hpux_11 fh phdr ph err ei fddihack).pseudo_header = ph
      ∧ (nettl_read_rec_header K is_hpux_11 fh phdr' ph' err' ei' fddihack).pseudo_header
          = ph') := by
  unfold nettl_read_rec_header at h ⊢
  simp only [] at h ⊢
  split_ifs at h ⊢
  · exfalso; simp [read_short_pos] at h
  · rw [(lan_case_pkt_encap _ _ _ _).1, (lan_case_pkt_encap _ _ _ _).2,
      (lan_case_pkt_encap _ _ _ _).2, (lan_pkt_encap_pseudo _ _ _).1,
      (lan_pkt_encap_pseudo _ _ _).1,
      lan_pkt_encap_rel K _ ⟨0, err', ei', phdr', ph', fddihack, (file_read 4 fh).2, false⟩
        ⟨0, err, ei, phdr, ph, fddihack, (file_read 4 fh).2, false⟩]
    have hne := (lan_pkt_encap_pseudo K (octet (file_read 4 fh).1 3)
      ⟨0, err, ei, phdr, ph, fddihack, (file_read 4 fh).2, false⟩).2
    constructor
    · rintro (he | he)
      · simp [he]
      · exact absurd he hne
    · intro hn
      have : ¬ (lan_pkt_encap K (octet (file_read 4 fh).1 3)
          ⟨0, err, ei, phdr, ph, fddihack, (file_read 4 fh).2, false⟩).phdr.pkt_encap
            = WTAP_ENCAP_ETHERNET := fun he => hn (Or.inl he)
      simp [this]
  · have h1 := driver_case_pseudo K is_hpux_11 _ h
    have hr := (driver_case_rel K is_hpux_11
      ⟨0, err, ei, phdr, ph, fddihack, (file_read 4 fh).2, false⟩
      ⟨0, err', ei', phdr', ph', fddihack, (file_read 4 fh).2, false⟩ rfl rfl).1
    have h2 := driver_case_pseudo K is_hpux_11
      ⟨0, err', ei', phdr', ph', fddihack, (file_read 4 fh).2, false⟩ (by rw [← hr]; exact h)
    constructor
    · intro _; rw [h1.2, h2.2]
    · intro hn; exact absurd (Or.inl h1.1) hn
  · have h1 := lapb_case_encap K is_hpux_11 _ h
    have hr := (lapb_case_rel K is_hpux_11
      ⟨0, err, ei, phdr, ph, fddihack, (file_read 4 fh).2, false⟩
      ⟨0, err', ei', phdr', ph', fddihack, (file_read 4 fh).2, false⟩ rfl rfl).2.2.2.2 h
    constructor
    · intro _; exact hr
    · intro hn; exact absurd (Or.inr h1) hn
  · simp at h

/-- The outcome, stored octets and stream of `nettl_read_rec_data` do not
depend on the value `*err` held before the call. -/
theorem rec_data_err_irrelevant (K : Consts) (fh : FILE_T) (length err err' : Int)
    (fddihack : Bool) :
    (nettl_read_rec_data K fh length err fddihack).ok
        = (nettl_read_rec_data K fh length err' fddihack).ok
    ∧ (nettl_read_rec_data K fh length err fddihack).pd
        = (nettl_read_rec_data K fh length err' fddihack).pd
    ∧ (nettl_read_rec_data K fh length err fddihack).fh
        = (nettl_read_rec_data K fh length err' fddihack).fh := by
  unfold nettl_read_rec_data
  simp only []
  split_ifs <;> simp

theorem toUInt32_natCast (n : Nat) (h : n < 4294967296) : toUInt32 (n : Int) = n := by
  unfold toUInt32; omega

theorem toUInt32_int_mod16 (n : Nat) : toUInt32 ((n : Int) % 65536) = n % 65536 := by
  unfold toUInt32; omega

/-- What `lan_lengths` returns when the pad octets of the subsystem are all
there: 0 for a zero 16-bit original length, else the offset plus the pad, with
both 16-bit length fields reduced by the pad (modulo `2^32`) and the time
stamp of the generic header. -/
theorem lan_lengths_value (K : Consts) (hK : K.Distinct) (s : Subsys)
    (hs : s ≠ .NS_LS_DRIVER ∧ s ≠ .SX25L2) (ip_hdr : List guint8) (offset : Int)
    (st : RecHeader)
    (hq : st.fh.pos + lan_pad K s ip_hdr (st.fh.data.drop st.fh.pos)
            ≤ st.fh.data.length) :
    (lan_lengths K (K.NETTL_SUBSYS s) ip_hdr offset st).ret
        = (if pntohl ip_hdr ip_length % 65536 = 0 then 0
           else offset + lan_pad K s ip_hdr (st.fh.data.drop st.fh.pos))
    ∧ (pntohl ip_hdr ip_length % 65536 ≠ 0 →
        (lan_lengths K (K.NETTL_SUBSYS s) ip_hdr offset st).phdr.len
            = toUInt32 (((pntohl ip_hdr ip_length % 65536 : Nat) : Int)
                - lan_pad K s ip_hdr (st.fh.data.drop st.fh.pos))
        ∧ (lan_lengths K (K.NETTL_SUBSYS s) ip_hdr offset st).phdr.caplen
            = toUInt32 (((pntohl ip_hdr ip_caplen % 65536 : Nat) : Int)
                - lan_pad K s ip_hdr (st.fh.data.drop st.fh.pos))
        ∧ (lan_lengths K (K.NETTL_SUBSYS s) ip_hdr offset st).phdr.tv_sec
            = pntohl ip_hdr ip_sec
        ∧ (lan_lengths K (K.NETTL_SUBSYS s) ip_hdr offset st).phdr.tv_usec
            = pntohl ip_hdr ip_usec)
    ∧ (lan_lengths K (K.NETTL_SUBSYS s) ip_hdr offset st).fddihack
        = (st.fddihack
            || decide (s = .HPPB_FDDI ∧ octet ip_hdr ip_rectype = K.NETTL_HDR_PDUIN)) := by
  have hinj := fun a b => hK.eq_iff (a := a) (b := b)
  unfold lan_lengths
  cases s
  case HPPB_FDDI =>
    simp only [lan_pad] at hq ⊢
    by_cases hr : octet ip_hdr ip_rectype = K.NETTL_HDR_PDUIN
    · by_cases hlen : pntohl ip_hdr ip_length % 65536 = 0 <;>
        simp [hr, hlen, toUInt32_int_mod16]
    · simp only [hr, if_false] at hq ⊢
      have h9 : (file_read 9 st.fh).1.length = 9 :=
        file_read_full 9 st.fh (by norm_num) (by simp; omega)
      have ho : octet (file_read 9 st.fh).1 8 = octet (st.fh.data.drop st.fh.pos) 8 := by
        rw [file_read_fst 9 st.fh (by norm_num)]
        exact octet_take _ _ _ (by norm_num)
      have hp : (file_read ((octet (st.fh.data.drop st.fh.pos) 8 : Nat) : Int)
          (file_read 9 st.fh).2).1.length = octet (st.fh.data.drop st.fh.pos) 8 := by
        have := file_read_full ((octet (st.fh.data.drop st.fh.pos) 8 : Nat) : Int)
          (file_read 9 st.fh).2 (by omega)
          (by simp [file_read_snd_pos, file_read_snd_data, h9]; omega)
        simpa using this
      by_cases hlen : pntohl ip_hdr ip_length % 65536 = 0
      · simp [h9, ho, hp, hlen]
      · simp only [h9, ho, hp, hlen, ne_eq, not_true_eq_false, not_false_eq_true,
          if_false, if_true, true_and, forall_true_left, Nat.cast_add, Nat.cast_ofNat]
        refine ⟨by ring, ⟨?_, ?_, trivial⟩, by simp⟩ <;> congr 1 <;> ring
  case EISA_FDDI =>
    by_cases hlen : pntohl ip_hdr ip_length % 65536 = 0 <;>
      simp [hinj, lan_pad, hlen, file_read_full 3 st.fh (by norm_num)
        (by simp [lan_pad] at hq ⊢; omega)]
  case PCI_FDDI =>
    by_cases hlen : pntohl ip_hdr ip_length % 65536 = 0 <;>
      simp [hinj, lan_pad, hlen, file_read_full 3 st.fh (by norm_num)
        (by simp [lan_pad] at hq ⊢; omega)]
  case HSC_FDDI =>
    by_cases hlen : pntohl ip_hdr ip_length % 65536 = 0 <;>
      simp [hinj, lan_pad, hlen, file_read_full 3 st.fh (by norm_num)
        (by simp [lan_pad] at hq ⊢; omega)]
  case NS_LS_LOOPBACK =>
    by_cases hlen : pntohl ip_hdr ip_length % 65536 = 0 <;>
      simp [hinj, lan_pad, hlen, file_read_full 26 st.fh (by norm_num)
        (by simp [lan_pad] at hq ⊢; omega)]
  all_goals
    by_cases hlen : pntohl ip_hdr ip_length % 65536 = 0 <;>
      simp [hinj, lan_pad, hlen, toUInt32_int_mod16] at hs ⊢

/-- A successful `lan_lengths` found the pad octets of the subsystem in the
stream. -/
theorem lan_lengths_inv (K : Consts) (hK : K.Distinct) (s : Subsys)
    (hs : s ≠ .NS_LS_DRIVER ∧ s ≠ .SX25L2) (ip_hdr : List guint8) (offset : Int)
    (st : RecHeader) (hle : st.fh.pos ≤ st.fh.data.length)
    (h : 0 < (lan_lengths K (K.NETTL_SUBSYS s) ip_hdr offset st).ret) :
    st.fh.pos + lan_pad K s ip_hdr (st.fh.data.drop st.fh.pos) ≤ st.fh.data.length := by
  have hinj := fun a b => hK.eq_iff (a := a) (b := b)
  by_contra hc
  have h3 : ∀ n : Nat, ¬ (st.fh.pos + n ≤ st.fh.data.length) →
      (file_read (n : Int) st.fh).1.length ≠ n := by
    intro n hn
    rw [file_read_length _ _ (by omega)]
    simp only [Int.toNat_ofNat]
    omega
  unfold lan_lengths at h
  cases s
  case HPPB_FDDI =>
    simp only [lan_pad] at hc
    by_cases hr : octet ip_hdr ip_rectype = K.NETTL_HDR_PDUIN
    · simp [hr] at hc; omega
    · simp only [hr, if_false, if_true] at hc h
      by_cases h9 : (file_read 9 st.fh).1.length = 9
      · have ho : octet (file_read 9 st.fh).1 8 = octet (st.fh.data.drop st.fh.pos) 8 := by
          rw [file_read_fst 9 st.fh (by norm_num)]
          exact octet_take _ _ _ (by norm_num)
        have h9' := h9
        rw [file_read_length _ _ (by norm_num)] at h9'
        have hn9 : (9 : Int).toNat = 9 := rfl
        rw [hn9] at h9'
        have hp : (file_read ((octet (st.fh.data.drop st.fh.pos) 8 : Nat) : Int)
            (file_read 9 st.fh).2).1.length ≠ octet (st.fh.data.drop st.fh.pos) 8 := by
          rw [file_read_length _ _ (by omega)]
          simp only [Int.toNat_ofNat, file_read_snd_pos, file_read_snd_data, h9]
          omega
        simp [h9, ho, hp, read_short_pos] at h
      · simp [h9, read_short_pos] at h
  case EISA_FDDI =>
    simp only [lan_pad] at hc
    have := h3 3 hc
    simp only [Nat.cast_ofNat] at this
    simp [hinj, this, read_short_pos] at h
  case PCI_FDDI =>
    simp only [lan_pad] at hc
    have := h3 3 hc
    simp only [Nat.cast_ofNat] at this
    simp [hinj, this, read_short_pos] at h
  case HSC_FDDI =>
    simp only [lan_pad] at hc
    have := h3 3 hc
    simp only [Nat.cast_ofNat] at this
    simp [hinj, this, read_short_pos] at h
  case NS_LS_LOOPBACK =>
    simp only [lan_pad] at hc
    have := h3 26 hc
    simp only [Nat.cast_ofNat] at this
    simp [hinj, this, read_short_pos] at h
  all_goals
    simp [lan_pad] at hc hs
    try omega

/-- The stream position after the reads of a complete base header. -/
theorem lan_case_unfold (K : Consts) (is_hpux_11 : Bool) (encap : Nat) (st : RecHeader)
    (hq : st.fh.pos + 60 + (if is_hpux_11 = true then 4 else 0) ≤ st.fh.data.length) :
    lan_case K is_hpux_11 encap st
      = lan_lengths K encap (file_read 60 st.fh).1
          (4 + 60 + (if is_hpux_11 = true then 4 else 0 : Nat))
          { lan_pkt_encap K encap st with
              fh := ⟨st.fh.data, st.fh.pos + 60 + (if is_hpux_11 = true then 4 else 0),
                      st.fh.error⟩ } := by
  have h60 : (file_read 60 st.fh).1.length = 60 :=
    file_read_full 60 st.fh (by norm_num) (by simp; omega)
  have e60 : (file_read 60 st.fh).2 = ⟨st.fh.data, st.fh.pos + 60, st.fh.error⟩ := by
    simp [file_read, h60]
    have := h60
    rw [file_read_fst 60 st.fh (by norm_num)] at this
    simpa using this
  unfold lan_case
  cases is_hpux_11
  · simp [sizeof_ip_hdr, lan_pkt_encap_fh, h60, e60]
  · simp only [if_true] at hq
    have h4 : (file_read 4 (file_read 60 st.fh).2).1.length = 4 :=
      file_read_full 4 _ (by norm_num) (by simp [e60]; omega)
    have e4 : (file_read 4 (file_read 60 st.fh).2).2
        = ⟨st.fh.data, st.fh.pos + 60 + 4, st.fh.error⟩ := by
      have := h4
      rw [file_read_fst 4 _ (by norm_num)] at this
      simp [file_read, e60] at this ⊢
      omega
    simp [sizeof_ip_hdr, lan_pkt_encap_fh, h60, h4, e4]

theorem file_read_short (n : Nat) (fh : FILE_T) (hn : 0 < n)
    (h : ¬ fh.pos + n ≤ fh.data.length) : (file_read (n : Int) fh).1.length ≠ n := by
  rw [file_read_length _ _ (by omega)]
  simp only [Int.toNat_ofNat]
  omega

theorem file_read_snd_full (n : Nat) (fh : FILE_T) (h : fh.pos + n ≤ fh.data.length) :
    (file_read (n : Int) fh).2 = ⟨fh.data, fh.pos + n, fh.error⟩ := by
  have hl := file_read_length (n : Int) fh (by omega)
  simp only [Int.toNat_ofNat] at hl
  have : (file_read (n : Int) fh).2.pos = fh.pos + n := by
    rw [file_read_snd_pos, hl]; omega
  cases hf : (file_read (n : Int) fh).2
  have hd := file_read_snd_data (n : Int) fh
  have he := file_read_snd_error (n : Int) fh
  rw [hf] at this hd he
  simp only at this hd he
  rw [this, hd, he]

/-- A successful first `case` group found the generic header and the extra
field of the newer generation in the stream. -/
theorem lan_case_base_inv (K : Consts) (is_hpux_11 : Bool) (encap : Nat) (st : RecHeader)
    (h : 0 < (lan_case K is_hpux_11 encap st).ret) :
    st.fh.pos + 60 + (if is_hpux_11 = true then 4 else 0) ≤ st.fh.data.length := by
  by_contra hc
  unfold lan_case at h
  simp only [lan_pkt_encap_fh, sizeof_ip_hdr] at h
  by_cases h60 : st.fh.pos + 60 ≤ st.fh.data.length
  · cases is_hpux_11
    · simp at hc; omega
    · simp only [if_true] at hc
      have e60 := file_read_snd_full 60 st.fh h60
      have h4 : (file_read 4 (file_read 60 st.fh).2).1.length ≠ 4 := by
        have := file_read_short 4 (file_read 60 st.fh).2 (by norm_num) (by
          simp only [Nat.cast_ofNat] at e60
          rw [e60]; simp only; omega)
        simpa using this
      have h60r : (file_read 60 st.fh).1.length = 60 :=
        file_read_full 60 st.fh (by norm_num) (by simp; omega)
      simp [h4, h60r, read_short_pos] at h
  · have := file_read_short 60 st.fh (by norm_num) h60
    simp only [Nat.cast_ofNat] at this
    simp [this, read_short_pos] at h

/-- A successful first `case` group found the complete header of the record
in the stream. -/
theorem lan_case_inv (K : Consts) (hK : K.Distinct) (s : Subsys)
    (hs : s ≠ .NS_LS_DRIVER ∧ s ≠ .SX25L2) (is_hpux_11 : Bool) (st : RecHeader)
    (h : 0 < (lan_case K is_hpux_11 (K.NETTL_SUBSYS s) st).ret) :
    st.fh.pos + 60 + (if is_hpux_11 = true then 4 else 0)
        + lan_pad K s (file_read 60 st.fh).1
            (st.fh.data.drop (st.fh.pos + 60 + (if is_hpux_11 = true then 4 else 0)))
      ≤ st.fh.data.length := by
  have hb := lan_case_base_inv K is_hpux_11 _ st h
  rw [lan_case_unfold K is_hpux_11 _ st hb] at h
  exact lan_lengths_inv K hK s hs _ _ _ hb h

/-- What the first `case` group returns on a complete header: 0 for a zero
16-bit original length, else the header size, with both 16-bit length fields
reduced by the pad (modulo `2^32`). -/
theorem lan_case_value (K : Consts) (hK : K.Distinct) (s : Subsys)
    (hs : s ≠ .NS_LS_DRIVER ∧ s ≠ .SX25L2) (is_hpux_11 : Bool) (st : RecHeader)
    (hq : st.fh.pos + 60 + (if is_hpux_11 = true then 4 else 0)
            + lan_pad K s (file_read 60 st.fh).1
                (st.fh.data.drop (st.fh.pos + 60 + (if is_hpux_11 = true then 4 else 0)))
            ≤ st.fh.data.length) :
    (lan_case K is_hpux_11 (K.NETTL_SUBSYS s) st).ret
        = (if pntohl (file_read 60 st.fh).1 ip_length % 65536 = 0 then 0
           else ((4 + 60 + (if is_hpux_11 = true then 4 else 0)
              + lan_pad K s (file_read 60 st.fh).1
                  (st.fh.data.drop (st.fh.pos + 60 + (if is_hpux_11 = true then 4 else 0)))
              : Nat) : Int))
    ∧ (pntohl (file_read 60 st.fh).1 ip_length % 65536 ≠ 0 →
        (lan_case K is_hpux_11 (K.NETTL_SUBSYS s) st).phdr.len
            = toUInt32 (((pntohl (file_read 60 st.fh).1 ip_length % 65536 : Nat) : Int)
                - lan_pad K s (file_read 60 st.fh).1
                    (st.fh.data.drop
                      (st.fh.pos + 60 + (if is_hpux_11 = true then 4 else 0))))
        ∧ (lan_case K is_hpux_11 (K.NETTL_SUBSYS s) st).phdr.caplen
            = toUInt32 (((pntohl (file_read 60 st.fh).1 ip_caplen % 65536 : Nat) : Int)
                - lan_pad K s (file_read 60 st.fh).1
                    (st.fh.data.drop
                      (st.fh.pos + 60 + (if is_hpux_11 = true then 4 else 0))))
        ∧ (lan_case K is_hpux_11 (K.NETTL_SUBSYS s) st).phdr.tv_sec
            = pntohl (file_read 60 st.fh).1 ip_sec
        ∧ (lan_case K is_hpux_11 (K.NETTL_SUBSYS s) st).phdr.tv_usec
            = pntohl (file_read 60 st.fh).1 ip_usec)
    ∧ (lan_case K is_hpux_11 (K.NETTL_SUBSYS s) st).fddihack
        = (st.fddihack
            || decide (s = .HPPB_FDDI
                ∧ octet (file_read 60 st.fh).1 ip_rectype = K.NETTL_HDR_PDUIN)) := by
  rw [lan_case_unfold K is_hpux_11 _ st (by omega)]
  have := lan_lengths_value K hK s hs (file_read 60 st.fh).1
    (4 + 60 + (if is_hpux_11 = true then 4 else 0 : Nat))
    { lan_pkt_encap K (K.NETTL_SUBSYS s) st with
        fh := ⟨st.fh.data, st.fh.pos + 60 + (if is_hpux_11 = true then 4 else 0),
                st.fh.error⟩ } hq
  refine ⟨?_, this.2.1, by simpa [lan_pkt_encap_fddihack] using this.2.2⟩
  rw [this.1]
  split_ifs <;> simp

theorem sizeof_ip_hdr_eq : sizeof_ip_hdr = 60 := rfl

theorem sizeof_ip_hdr_cast : ((sizeof_ip_hdr : Nat) : Int) = 60 := rfl

theorem sizeof_drv_eth_hdr_eq : sizeof_drv_eth_hdr = 24 := rfl

theorem sizeof_drv_eth_hdr_cast : ((sizeof_drv_eth_hdr : Nat) : Int) = 24 := rfl

theorem sizeof_lapb_hdr_eq : sizeof_lapb_hdr = 84 := rfl

theorem sizeof_lapb_hdr_cast : ((sizeof_lapb_hdr : Nat) : Int) = 84 := rfl

/-- What the driver arm returns on a complete header and sub-header: 0 for a
zero original length in the sub-header, else the header size, with the lengths
of the sub-header and the time stamp of the generic header. -/
theorem driver_case_value (K : Consts) (is_hpux_11 : Bool) (st : RecHeader)
    (hq : st.fh.pos + 60 + (if is_hpux_11 = true then 4 else 0) + 24 ≤ st.fh.data.length) :
    (driver_case K is_hpux_11 st).ret
        = (if pntohs (st.fh.data.drop (st.fh.pos + 60 + (if is_hpux_11 = true then 4 else 0)))
                drv_length % 65536 = 0 then 0
           else ((4 + 60 + (if is_hpux_11 = true then 4 else 0) + 24 : Nat) : Int))
    ∧ (pntohs (st.fh.data.drop (st.fh.pos + 60 + (if is_hpux_11 = true then 4 else 0)))
          drv_length % 65536 ≠ 0 →
        (driver_case K is_hpux_11 st).phdr.len
            = pntohs (st.fh.data.drop (st.fh.pos + 60 + (if is_hpux_11 = true then 4 else 0)))
                drv_length % 65536
        ∧ (driver_case K is_hpux_11 st).phdr.caplen
            = pntohs (st.fh.data.drop (st.fh.pos + 60 + (if is_hpux_11 = true then 4 else 0)))
                drv_caplen % 65536
        ∧ (driver_case K is_hpux_11 st).phdr.tv_sec = pntohl (file_read 60 st.fh).1 ip_sec
        ∧ (driver_case K is_hpux_11 st).phdr.tv_usec = pntohl (file_read 60 st.fh).1 ip_usec)
    ∧ (driver_case K is_hpux_11 st).fddihack = st.fddihack := by
  have h60 : (file_read 60 st.fh).1.length = 60 :=
    file_read_full 60 st.fh (by norm_num) (by simp; omega)
  have e60 := file_read_snd_full 60 st.fh (by omega)
  simp only [Nat.cast_ofNat] at e60
  unfold driver_case driver_lengths
  cases is_hpux_11
  · simp only [Bool.false_eq_true, if_false, Nat.add_zero] at hq ⊢
    have h24 : (file_read 24 (file_read 60 st.fh).2).1.length = 24 :=
      file_read_full 24 _ (by norm_num) (by rw [e60]; simp; omega)
    have hv : ∀ off, off + 1 < 24 → pntohs (file_read 24 (file_read 60 st.fh).2).1 off
        = pntohs (st.fh.data.drop (st.fh.pos + 60)) off := by
      intro off ho
      rw [file_read_fst 24 _ (by norm_num), e60]
      exact pntohs_take _ _ _ ho
    simp only [sizeof_ip_hdr_eq, sizeof_drv_eth_hdr_eq, Nat.cast_ofNat]
    rw [hv drv_length (by simp [drv_length]), hv drv_caplen (by simp [drv_caplen])]
    by_cases hl : pntohs (st.fh.data.drop (st.fh.pos + 60)) drv_length % 65536 = 0 <;>
      simp [sizeof_ip_hdr, sizeof_drv_eth_hdr, h60, h24, hl]
  · simp only [if_true] at hq ⊢
    have h4 : (file_read 4 (file_read 60 st.fh).2).1.length = 4 :=
      file_read_full 4 _ (by norm_num) (by rw [e60]; simp; omega)
    have e4 : (file_read 4 (file_read 60 st.fh).2).2
        = ⟨st.fh.data, st.fh.pos + 60 + 4, st.fh.error⟩ := by
      have := file_read_snd_full 4 (file_read 60 st.fh).2 (by rw [e60]; simp; omega)
      simp only [Nat.cast_ofNat] at this
      rw [this, e60]
    have h24 : (file_read 24 (file_read 4 (file_read 60 st.fh).2).2).1.length = 24 :=
      file_read_full 24 _ (by norm_num) (by rw [e4]; simp; omega)
    have hv : ∀ off, off + 1 < 24 →
        pntohs (file_read 24 (file_read 4 (file_read 60 st.fh).2).2).1 off
          = pntohs (st.fh.data.drop (st.fh.pos + 60 + 4)) off := by
      intro off ho
      rw [file_read_fst 24 _ (by norm_num), e4]
      exact pntohs_take _ _ _ ho
    simp only [sizeof_ip_hdr_eq, sizeof_drv_eth_hdr_eq, Nat.cast_ofNat]
    rw [hv drv_length (by simp [drv_length]), hv drv_caplen (by simp [drv_caplen])]
    by_cases hl : pntohs (st.fh.data.drop (st.fh.pos + 60 + 4)) drv_length % 65536 = 0 <;>
      simp [sizeof_ip_hdr, sizeof_drv_eth_hdr, h60, h4, h24, hl]

/-- A successful driver arm found the complete header and sub-header in the
stream. -/
theorem driver_case_inv (K : Consts) (is_hpux_11 : Bool) (st : RecHeader)
    (h : 0 < (driver_case K is_hpux_11 st).ret) :
    st.fh.pos + 60 + (if is_hpux_11 = true then 4 else 0) + 24 ≤ st.fh.data.length := by
  by_contra hc
  unfold driver_case driver_lengths at h
  simp only [sizeof_ip_hdr, sizeof_drv_eth_hdr] at h
  by_cases h60 : st.fh.pos + 60 ≤ st.fh.data.length
  · have h60r : (file_read 60 st.fh).1.length = 60 :=
      file_read_full 60 st.fh (by norm_num) (by simp; omega)
    have e60 := file_read_snd_full 60 st.fh h60
    simp only [Nat.cast_ofNat] at e60
    cases is_hpux_11
    · simp only [Bool.false_eq_true, if_false, Nat.add_zero] at hc
      have h24 : (file_read 24 (file_read 60 st.fh).2).1.length ≠ 24 := by
        have := file_read_short 24 (file_read 60 st.fh).2 (by norm_num)
          (by rw [e60]; simp only; omega)
        simpa using this
      simp [h60r, h24, read_short_pos] at h
    · simp only [if_true] at hc
      by_cases h4 : st.fh.pos + 60 + 4 ≤ st.fh.data.length
      · have h4r : (file_read 4 (file_read 60 st.fh).2).1.length = 4 :=
          file_read_full 4 _ (by norm_num) (by rw [e60]; simp; omega)
        have e4 : (file_read 4 (file_read 60 st.fh).2).2
            = ⟨st.fh.data, st.fh.pos + 60 + 4, st.fh.error⟩ := by
          have := file_read_snd_full 4 (file_read 60 st.fh).2 (by rw [e60]; simp; omega)
          simp only [Nat.cast_ofNat] at this
          rw [this, e60]
        have h24 : (file_read 24 (file_read 4 (file_read 60 st.fh).2).2).1.length ≠ 24 := by
          have := file_read_short 24 (file_read 4 (file_read 60 st.fh).2).2 (by norm_num)
            (by rw [e4]; simp only; omega)
          simpa using this
        simp [h60r, h4r, h24, read_short_pos] at h
      · have h4r : (file_read 4 (file_read 60 st.fh).2).1.length ≠ 4 := by
          have := file_read_short 4 (file_read 60 st.fh).2 (by norm_num)
            (by rw [e60]; simp only; omega)
          simpa using this
        simp [h60r, h4r, read_short_pos] at h
  · have := file_read_short 60 st.fh (by norm_num) h60
    simp only [Nat.cast_ofNat] at this
    simp [this, read_short_pos] at h

/-- What the X.25 arm returns on a complete header: 0 for a zero length field,
else the header size, with both lengths equal to the 16-bit length field, the
time stamp of the header and the direction flag. -/
theorem lapb_case_value (K : Consts) (is_hpux_11 : Bool) (st : RecHeader)
    (hq : st.fh.pos + 84 + (if is_hpux_11 = true then 4 else 0) ≤ st.fh.data.length) :
    (lapb_case K is_hpux_11 st).ret
        = (if pntohs (file_read 84 st.fh).1 lapb_length % 65536 = 0 then 0
           else ((4 + 84 + (if is_hpux_11 = true then 4 else 0) : Nat) : Int))
    ∧ (pntohs (file_read 84 st.fh).1 lapb_length % 65536 ≠ 0 →
        (lapb_case K is_hpux_11 st).phdr.len
            = pntohs (file_read 84 st.fh).1 lapb_length % 65536
        ∧ (lapb_case K is_hpux_11 st).phdr.caplen
            = pntohs (file_read 84 st.fh).1 lapb_length % 65536
        ∧ (lapb_case K is_hpux_11 st).phdr.tv_sec = pntohl (file_read 84 st.fh).1 lapb_sec
        ∧ (lapb_case K is_hpux_11 st).phdr.tv_usec = pntohl (file_read 84 st.fh).1 lapb_usec
        ∧ (lapb_case K is_hpux_11 st).pseudo_header
            = .x25 (if octet (file_read 84 st.fh).1 lapb_from_dce &&& 0x20 ≠ 0
                    then K.FROM_DCE else 0x00))
    ∧ (lapb_case K is_hpux_11 st).fddihack = st.fddihack := by
  have h84 : (file_read 84 st.fh).1.length = 84 :=
    file_read_full 84 st.fh (by norm_num) (by simp; omega)
  have e84 := file_read_snd_full 84 st.fh (by omega)
  simp only [Nat.cast_ofNat] at e84
  unfold lapb_case lapb_lengths
  cases is_hpux_11
  · by_cases hl : pntohs (file_read 84 st.fh).1 lapb_length % 65536 = 0 <;>
      simp [sizeof_lapb_hdr, h84, hl]
  · simp only [if_true] at hq
    have h4 : (file_read 4 (file_read 84 st.fh).2).1.length = 4 :=
      file_read_full 4 _ (by norm_num) (by rw [e84]; simp; omega)
    by_cases hl : pntohs (file_read 84 st.fh).1 lapb_length % 65536 = 0 <;>
      simp [sizeof_lapb_hdr, h84, h4, hl]

/-- A successful X.25 arm found the complete header in the stream. -/
theorem lapb_case_inv (K : Consts) (is_hpux_11 : Bool) (st : RecHeader)
    (h : 0 < (lapb_case K is_hpux_11 st).ret) :
    st.fh.pos + 84 + (if is_hpux_11 = true then 4 else 0) ≤ st.fh.data.length := by
  by_contra hc
  unfold lapb_case lapb_lengths at h
  simp only [sizeof_lapb_hdr] at h
  by_cases h84 : st.fh.pos + 84 ≤ st.fh.data.length
  · have h84r : (file_read 84 st.fh).1.length = 84 :=
      file_read_full 84 st.fh (by norm_num) (by simp; omega)
    have e84 := file_read_snd_full 84 st.fh h84
    simp only [Nat.cast_ofNat] at e84
    cases is_hpux_11
    · simp at hc; omega
    · simp only [if_true] at hc
      have h4r : (file_read 4 (file_read 84 st.fh).2).1.length ≠ 4 := by
        have := file_read_short 4 (file_read 84 st.fh).2 (by norm_num)
          (by rw [e84]; simp only; omega)
        simpa using this
      simp [h84r, h4r, read_short_pos] at h
  · have := file_read_short 84 st.fh (by norm_num) h84
    simp only [Nat.cast_ofNat] at this
    simp [this, read_short_pos] at h

theorem octet_read_at (data : List guint8) (pos k : Nat) (e : Int) (n : Nat) (off : Nat)
    (h : off < n) :
    octet (file_read (n : Int) ⟨data, pos + k, e⟩).1 off = octet (data.drop pos) (k + off) := by
  rw [file_read_fst _ _ (by omega)]
  simp only [Int.toNat_ofNat]
  rw [octet_take _ _ _ h, octet_drop, octet_drop]
  congr 1; omega

theorem pntohs_read_at (data : List guint8) (pos k : Nat) (e : Int) (n : Nat) (off : Nat)
    (h : off + 1 < n) :
    pntohs (file_read (n : Int) ⟨data, pos + k, e⟩).1 off = pntohs (data.drop pos) (k + off) := by
  unfold pntohs
  rw [octet_read_at _ _ _ _ _ _ (by omega), octet_read_at _ _ _ _ _ _ h]
  rfl

theorem pntohl_read_at (data : List guint8) (pos k : Nat) (e : Int) (n : Nat) (off : Nat)
    (h : off + 3 < n) :
    pntohl (file_read (n : Int) ⟨data, pos + k, e⟩).1 off = pntohl (data.drop pos) (k + off) := by
  unfold pntohl
  rw [octet_read_at _ _ _ _ _ _ (by omega), octet_read_at _ _ _ _ _ _ (by omega),
    octet_read_at _ _ _ _ _ _ (by omega), octet_read_at _ _ _ _ _ _ h]
  rfl

/-- The decoder after a complete 4-octet record prefix with the code of
subsystem `s`: the arm of `s` run on the stream after the prefix. -/
theorem header_dispatch (K : Consts) (hK : K.Distinct) (s : Subsys) (is_hpux_11 : Bool)
    (fh : FILE_T) (phdr : wtap_pkthdr) (ph : wtap_pseudo_header) (err : Int)
    (err_info : Option String) (fddihack : Bool)
    (h4 : fh.pos + 4 ≤ fh.data.length)
    (hcode : octet (fh.data.drop fh.pos) 3 = K.NETTL_SUBSYS s) :
    nettl_read_rec_header K is_hpux_11 fh phdr ph err err_info fddihack
      = (if s = .NS_LS_DRIVER then
          driver_case K is_hpux_11
            ⟨0, err, err_info, phdr, ph, fddihack, ⟨fh.data, fh.pos + 4, fh.error⟩, false⟩
         else if s = .SX25L2 then
          lapb_case K is_hpux_11
            ⟨0, err, err_info, phdr, ph, fddihack, ⟨fh.data, fh.pos + 4, fh.error⟩, false⟩
         else
          lan_case K is_hpux_11 (K.NETTL_SUBSYS s)
            ⟨0, err, err_info, phdr, ph, fddihack, ⟨fh.data, fh.pos + 4, fh.error⟩, false⟩) := by
  have h4r : (file_read 4 fh).1.length = 4 :=
    file_read_full 4 fh (by norm_num) (by simp; omega)
  have e4 := file_read_snd_full 4 fh h4
  simp only [Nat.cast_ofNat] at e4
  have hc : octet (file_read 4 fh).1 3 = K.NETTL_SUBSYS s := by
    rw [file_read_fst 4 fh (by norm_num), ← hcode]
    exact octet_take _ _ _ (by norm_num)
  unfold nettl_read_rec_header
  simp only [h4r, hc, e4, ne_eq, not_true_eq_false, if_false]
  by_cases hd : s = .NS_LS_DRIVER
  · subst hd
    rw [if_neg (not_lan_case_label K hK _ (Or.inl rfl)), if_pos rfl, if_pos rfl]
  · by_cases hx : s = .SX25L2
    · subst hx
      have hne : K.NETTL_SUBSYS .SX25L2 ≠ K.NETTL_SUBSYS .NS_LS_DRIVER :=
        fun h => by have := hK h; contradiction
      rw [if_neg (not_lan_case_label K hK _ (Or.inr rfl)), if_neg hne, if_pos rfl,
        if_neg hd, if_pos rfl]
    · rw [if_pos (lan_case_label_of K s ⟨hd, hx⟩), if_neg hd, if_neg hx]

/-- A successful decode read a complete 4-octet prefix carrying the code of one
of the subsystems. -/
theorem header_code_inv (K : Consts) (is_hpux_11 : Bool) (fh : FILE_T)
    (phdr : wtap_pkthdr) (ph : wtap_pseudo_header) (err : Int)
    (err_info : Option String) (fddihack : Bool)
    (h : 0 < (nettl_read_rec_header K is_hpux_11 fh phdr ph err err_info fddihack).ret) :
    fh.pos + 4 ≤ fh.data.length
    ∧ ∃ s : Subsys, octet (fh.data.drop fh.pos) 3 = K.NETTL_SUBSYS s := by
  have h4 : fh.pos + 4 ≤ fh.data.length := by
    by_contra hc
    have := file_read_short 4 fh (by norm_num) hc
    simp only [Nat.cast_ofNat] at this
    unfold nettl_read_rec_header at h
    simp [this, read_short_pos] at h
  refine ⟨h4, ?_⟩
  have h4r : (file_read 4 fh).1.length = 4 :=
    file_read_full 4 fh (by norm_num) (by simp; omega)
  have hc : octet (file_read 4 fh).1 3 = octet (fh.data.drop fh.pos) 3 := by
    rw [file_read_fst 4 fh (by norm_num)]
    exact octet_take _ _ _ (by norm_num)
  unfold nettl_read_rec_header at h
  simp only [h4r, hc, ne_eq, not_true_eq_false, if_false] at h
  split_ifs at h with h1 h2 h3
  · obtain ⟨s, _, hs⟩ := (lan_case_label_iff K _).mp h1
    exact ⟨s, hs⟩
  · exact ⟨_, h2⟩
  · exact ⟨_, h3⟩
  · simp at h

theorem toUInt32_sub_zero_mod16 (n : Nat) :
    toUInt32 (((n % 65536 : Nat) : Int) - ((0 : Nat) : Int)) = n % 65536 := by
  unfold toUInt32; omega

theorem spec_quirk_size_lan (K : Consts) (is_hpux_11 : Bool) (s : Subsys)
    (hs : s ≠ .NS_LS_DRIVER ∧ s ≠ .SX25L2) (l : List guint8) :
    spec_quirk_size K is_hpux_11 s l = spec_pad K is_hpux_11 s l := by
  cases s <;> simp [spec_quirk_size, spec_pad] at hs ⊢

theorem lan_pad_eq_spec_at (K : Consts) (s : Subsys) (hs : s ≠ .NS_LS_DRIVER ∧ s ≠ .SX25L2)
    (is_hpux_11 : Bool) (fh : FILE_T) :
    lan_pad K s (file_read 60 ⟨fh.data, fh.pos + 4, fh.error⟩).1
        (fh.data.drop (fh.pos + 4 + 60 + (if is_hpux_11 = true then 4 else 0)))
      = spec_pad K is_hpux_11 s (fh.data.drop fh.pos) := by
  have hr := octet_read_at fh.data fh.pos 4 fh.error 60 ip_rectype (by simp [ip_rectype])
  simp only [Nat.cast_ofNat] at hr
  cases s <;> simp [lan_pad, spec_pad] at hs ⊢
  rw [hr]
  cases is_hpux_11 <;>
    simp [spec_base_size, sizeof_ip_hdr, octet_drop, Nat.add_assoc]

/-- A successful decode found, after the code of some subsystem, the complete
header of the record: base header, sub-header or pad. -/
theorem header_inv (K : Consts) (hK : K.Distinct) (is_hpux_11 : Bool) (fh : FILE_T)
    (phdr : wtap_pkthdr) (ph : wtap_pseudo_header) (err : Int)
    (err_info : Option String) (fddihack : Bool)
    (h : 0 < (nettl_read_rec_header K is_hpux_11 fh phdr ph err err_info fddihack).ret) :
    ∃ s : Subsys, octet (fh.data.drop fh.pos) 3 = K.NETTL_SUBSYS s
      ∧ fh.pos + (spec_base_size is_hpux_11 s
          + spec_quirk_size K is_hpux_11 s (fh.data.drop fh.pos)) ≤ fh.data.length := by
  obtain ⟨h4, s, hcode⟩ := header_code_inv K is_hpux_11 fh phdr ph err err_info fddihack h
  refine ⟨s, hcode, ?_⟩
  rw [header_dispatch K hK s is_hpux_11 fh phdr ph err err_info fddihack h4 hcode] at h
  by_cases hd : s = .NS_LS_DRIVER
  · subst hd
    rw [if_pos rfl] at h
    have := driver_case_inv K is_hpux_11 _ h
    simp only [spec_base_size, spec_quirk_size, sizeof_ip_hdr_eq, sizeof_drv_eth_hdr_eq,
      reduceCtorEq, if_false]
    simp only at this ⊢
    omega
  · by_cases hx : s = .SX25L2
    · subst hx
      rw [if_neg hd, if_pos rfl] at h
      have := lapb_case_inv K is_hpux_11 _ h
      simp only [spec_base_size, spec_quirk_size, sizeof_lapb_hdr_eq, if_true]
      simp only at this ⊢
      omega
    · rw [if_neg hd, if_neg hx] at h
      have := lan_case_inv K hK s ⟨hd, hx⟩ is_hpux_11 _ h
      simp only at this
      rw [lan_pad_eq_spec_at K s ⟨hd, hx⟩ is_hpux_11 fh] at this
      rw [spec_quirk_size_lan K is_hpux_11 s ⟨hd, hx⟩]
      simp only [spec_base_size, sizeof_ip_hdr_eq, if_neg hx]
      omega

/-- What the decoder returns on a complete header of subsystem `s`: 0 when the
16-bit original length is zero, and otherwise the header size, with the
original length reduced by the pad of the subsystem and the captured length
(the original length again for X.25) reduced likewise, both modulo `2^32`. -/
theorem header_value (K : Consts) (hK : K.Distinct) (s : Subsys) (is_hpux_11 : Bool)
    (fh : FILE_T) (phdr : wtap_pkthdr) (ph : wtap_pseudo_header) (err : Int)
    (err_info : Option String) (fddihack : Bool)
    (hcode : octet (fh.data.drop fh.pos) 3 = K.NETTL_SUBSYS s)
    (hcomplete : fh.pos + (spec_base_size is_hpux_11 s
        + spec_quirk_size K is_hpux_11 s (fh.data.drop fh.pos)) ≤ fh.data.length) :
    (nettl_read_rec_header K is_hpux_11 fh phdr ph err err_info fddihack).ret
        = (if spec_original_length is_hpux_11 s (fh.data.drop fh.pos) % 65536 = 0 then 0
           else ((spec_base_size is_hpux_11 s
                  + spec_quirk_size K is_hpux_11 s (fh.data.drop fh.pos) : Nat) : Int))
    ∧ (spec_original_length is_hpux_11 s (fh.data.drop fh.pos) % 65536 ≠ 0 →
        (nettl_read_rec_header K is_hpux_11 fh phdr ph err err_info fddihack).phdr.len
            = toUInt32
                (((spec_original_length is_hpux_11 s (fh.data.drop fh.pos) % 65536 : Nat)
                    : Int)
                  - (spec_pad K is_hpux_11 s (fh.data.drop fh.pos) : Nat))
        ∧ (nettl_read_rec_header K is_hpux_11 fh phdr ph err err_info fddihack).phdr.caplen
            = toUInt32
                ((((if s = .SX25L2
                    then spec_original_length is_hpux_11 s (fh.data.drop fh.pos)
                    else spec_captured_length is_hpux_11 s (fh.data.drop fh.pos))
                      % 65536 : Nat) : Int)
                  - (spec_pad K is_hpux_11 s (fh.data.drop fh.pos) : Nat))) := by
  have hb : 64 ≤ spec_base_size is_hpux_11 s := by
    unfold spec_base_size sizeof_ip_hdr sizeof_lapb_hdr
    split_ifs <;> omega
  rw [header_dispatch K hK s is_hpux_11 fh phdr ph err err_info fddihack (by omega) hcode]
  by_cases hd : s = .NS_LS_DRIVER
  · subst hd
    rw [if_pos rfl]
    simp only [spec_base_size, spec_quirk_size, spec_original_length, spec_captured_length,
      spec_pad, sizeof_ip_hdr_eq, sizeof_drv_eth_hdr_eq] at hcomplete ⊢
    simp only [reduceCtorEq, if_false] at hcomplete ⊢
    have hv := driver_case_value K is_hpux_11
      ⟨0, err, err_info, phdr, ph, fddihack, ⟨fh.data, fh.pos + 4, fh.error⟩, false⟩
      (by simp only; omega)
    simp only [pntohs_drop] at hv ⊢
    have e1 : fh.pos + 4 + 60 + (if is_hpux_11 = true then 4 else 0) + drv_length
        = fh.pos + (4 + 60 + (if is_hpux_11 = true then 4 else 0) + drv_length) := by omega
    have e2 : fh.pos + 4 + 60 + (if is_hpux_11 = true then 4 else 0) + drv_caplen
        = fh.pos + (4 + 60 + (if is_hpux_11 = true then 4 else 0) + drv_caplen) := by omega
    rw [e1, e2] at hv
    refine ⟨?_, fun hne => ?_⟩
    · rw [hv.1]
    · have := hv.2.1 hne
      rw [this.1, this.2.1, toUInt32_sub_zero_mod16, toUInt32_sub_zero_mod16]
      exact ⟨rfl, rfl⟩
  · by_cases hx : s = .SX25L2
    · subst hx
      rw [if_neg hd, if_pos rfl]
      simp only [spec_base_size, spec_quirk_size, spec_original_length,
        spec_captured_length, spec_pad, sizeof_lapb_hdr_eq, if_true] at hcomplete ⊢
      have hv := lapb_case_value K is_hpux_11
        ⟨0, err, err_info, phdr, ph, fddihack, ⟨fh.data, fh.pos + 4, fh.error⟩, false⟩
        (by simp only; omega)
      have hf := pntohs_read_at fh.data fh.pos 4 fh.error 84 lapb_length
        (by simp [lapb_length])
      simp only [Nat.cast_ofNat] at hf
      simp only [hf] at hv
      refine ⟨?_, fun hne => ?_⟩
      · rw [hv.1]; simp
      · have := hv.2.1 hne
        rw [this.1, this.2.1, toUInt32_sub_zero_mod16]
        exact ⟨rfl, rfl⟩
    · rw [if_neg hd, if_neg hx]
      have hs : s ≠ .NS_LS_DRIVER ∧ s ≠ .SX25L2 := ⟨hd, hx⟩
      rw [spec_quirk_size_lan K is_hpux_11 s hs] at hcomplete ⊢
      have hbase : spec_base_size is_hpux_11 s = 4 + 60 + (if is_hpux_11 = true then 4 else 0) := by
        simp [spec_base_size, sizeof_ip_hdr, hx]
      have hol : spec_original_length is_hpux_11 s (fh.data.drop fh.pos)
          = pntohl (fh.data.drop fh.pos) (4 + ip_length) := by
        cases s <;> simp [spec_original_length] at hs ⊢
      have hcl : spec_captured_length is_hpux_11 s (fh.data.drop fh.pos)
          = pntohl (fh.data.drop fh.pos) (4 + ip_caplen) := by
        cases s <;> simp [spec_captured_length] at hs ⊢
      have hpad := lan_pad_eq_spec_at K s hs is_hpux_11 fh
      have hf1 := pntohl_read_at fh.data fh.pos 4 fh.error 60 ip_length
        (by simp [ip_length])
      have hf2 := pntohl_read_at fh.data fh.pos 4 fh.error 60 ip_caplen
        (by simp [ip_caplen])
      simp only [Nat.cast_ofNat] at hf1 hf2
      have hv := lan_case_value K hK s hs is_hpux_11
        ⟨0, err, err_info, phdr, ph, fddihack, ⟨fh.data, fh.pos + 4, fh.error⟩, false⟩
        (by simp only [hpad]; rw [hbase] at hcomplete; omega)
      simp only [hpad, hf1, hf2] at hv
      rw [hol, hcl, hbase, if_neg hx]
      refine ⟨?_, fun hne => ?_⟩
      · rw [hv.1]
      · have := hv.2.1 hne
        exact ⟨this.1, this.2.1⟩

/-- C6: when `nettl_read` succeeds, the header decode returned the size of
the header it read (the 4-octet prefix, the family header, the extra field of
the newer generation, and the sub-header or pad octets of the subsystem), and
both the cursor and the stream position have advanced by that size plus the
captured length; hence a cursor that mirrored the stream position before the
call mirrors it afterwards, and the next record is decoded right after this
one. -/
theorem C6_cursor_advance (K : Consts) (hK : K.Distinct) (wth : wtap) (err : Int)
    (err_info : Option String) (hok : (nettl_read K wth err err_info).ok = true) :
    (∃ s : Subsys, octet (wth.fh.data.drop wth.fh.pos) 3 = K.NETTL_SUBSYS s
        ∧ (nettl_read_header K wth err err_info).ret
            = ((spec_base_size wth.is_hpux_11 s
                + spec_quirk_size K wth.is_hpux_11 s (wth.fh.data.drop wth.fh.pos) : Nat)
                : Int))
    ∧ (nettl_read K wth err err_info).data_offset = wth.data_offset
    ∧ (nettl_read K wth err err_info).wth.phdr = (nettl_read_header K wth err err_info).phdr
    ∧ (nettl_read K wth err err_info).wth.data_offset
        = wth.data_offset + (nettl_read_header K wth err err_info).ret
          + (nettl_read K wth err err_info).wth.phdr.caplen
    ∧ ((nettl_read K wth err err_info).wth.fh.pos : Int)
        = wth.fh.pos + (nettl_read_header K wth err err_info).ret
          + (nettl_read K wth err err_info).wth.phdr.caplen
    ∧ (nettl_read K wth err err_info).wth.fh.data = wth.fh.data
    ∧ ((wth.fh.pos : Int) = wth.data_offset →
        ((nettl_read K wth err err_info).wth.fh.pos : Int)
          = (nettl_read K wth err err_info).wth.data_offset) := by
  obtain ⟨hpos, _, k1, _, _, k3, k2, k4⟩ := nettl_read_ok K wth err err_info hok
  obtain ⟨_, _, _, _, hd1, hd3⟩ := nettl_read_ok_stream K wth err err_info hok
  have hsize : ∃ s : Subsys, octet (wth.fh.data.drop wth.fh.pos) 3 = K.NETTL_SUBSYS s
      ∧ (nettl_read_header K wth err err_info).ret
          = ((spec_base_size wth.is_hpux_11 s
              + spec_quirk_size K wth.is_hpux_11 s (wth.fh.data.drop wth.fh.pos) : Nat)
              : Int) := by
    unfold nettl_read_header at hpos ⊢
    obtain ⟨s, hcode, hcomplete⟩ := header_inv K hK _ _ _ _ _ _ _ hpos
    have hv := (header_value K hK s wth.is_hpux_11 wth.fh wth.phdr wth.pseudo_header err
      err_info false hcode hcomplete).1
    refine ⟨s, hcode, ?_⟩
    rw [hv] at hpos ⊢
    split_ifs at hpos ⊢ with h0
    · exact absurd hpos (lt_irrefl _)
    · rfl
  refine ⟨hsize, k4, k1, ?_, ?_, ?_, ?_⟩
  · rw [k2, k1]
  · rw [k3, hd3, k1]
  · rw [k3, hd1]
  · intro hm
    rw [k3, hd3, k2, hm]

/-- C6 at an inbound HPPB FDDI record with the SNAP marker: 64 header octets
and 20 captured octets move the cursor from 0 to 84. -/
theorem C6_cursor_advance_witness :
    (nettl_read hpux (handle_at sample_fddi_snap 0 false) 0 none).ok = true
    ∧ (nettl_read hpux (handle_at sample_fddi_snap 0 false) 0 none).wth.data_offset = 84
    ∧ (nettl_read hpux (handle_at sample_fddi_snap 0 false) 0 none).wth.fh.pos = 84 :=
  ⟨by decide,
    by
      have h := (C6_cursor_advance hpux hpux_distinct (handle_at sample_fddi_snap 0 false) 0
        none (by decide)).2.2.2.1
      rw [h]; decide,
    by decide⟩

/-- C8 at its failing input: a LAN100 record whose 32-bit length fields both
hold 65541 decodes successfully with captured and original length 5, the low
16 bits of the fields (`length` is a `guint16`). -/
theorem C8_length_fields_truncated :
    pntohl sample_wide_lengths.data (4 + ip_caplen) = 65541
    ∧ pntohl sample_wide_lengths.data (4 + ip_length) = 65541
    ∧ (nettl_read_rec_header hpux false sample_wide_lengths phdr_init (.other 0) 0 none
        false).ret = 64
    ∧ (nettl_read_rec_header hpux false sample_wide_lengths phdr_init (.other 0) 0 none
        false).phdr.caplen = 5
    ∧ (nettl_read_rec_header hpux false sample_wide_lengths phdr_init (.other 0) 0 none
        false).phdr.len = 5 := by
  decide

/-- C9 at its failing input: an EISA FDDI record whose length fields hold 1,
less than the 3-octet pad, decodes successfully (67 header octets) with
captured and original length `2^32 - 2`. -/
theorem C9_length_underflow :
    pntohl sample_short_fddi.data (4 + ip_caplen) = 1
    ∧ pntohl sample_short_fddi.data (4 + ip_length) = 1
    ∧ (nettl_read_rec_header hpux false sample_short_fddi phdr_init (.other 0) 0 none
        false).ret = 67
    ∧ (nettl_read_rec_header hpux false sample_short_fddi phdr_init (.other 0) 0 none
        false).phdr.caplen = 4294967294
    ∧ (nettl_read_rec_header hpux false sample_short_fddi phdr_init (.other 0) 0 none
        false).phdr.len = 4294967294 := by
  decide

/-- C10 fails as stated: a LAN100 record with captured length 0 and original
length 1 decodes successfully, with captured length 0. -/
theorem C10_counterexample :
    0 < (nettl_read_rec_header hpux false sample_zero_caplen phdr_init (.other 0) 0 none
          false).ret
    ∧ (nettl_read_rec_header hpux false sample_zero_caplen phdr_init (.other 0) 0 none
        false).phdr.caplen = 0 := by
  decide

/-- The link type of a decoded record is the one the mapping table gives the
subsystem whose code the record carries. -/
theorem header_link_type (K : Consts) (hK : K.Distinct) (is_hpux_11 : Bool) (fh : FILE_T)
    (phdr : wtap_pkthdr) (ph : wtap_pseudo_header) (err : Int)
    (err_info : Option String) (fddihack : Bool)
    (h : 0 < (nettl_read_rec_header K is_hpux_11 fh phdr ph err err_info fddihack).ret) :
    ∃ s : Subsys, octet (fh.data.drop fh.pos) 3 = K.NETTL_SUBSYS s
      ∧ (nettl_read_rec_header K is_hpux_11 fh phdr ph err err_info fddihack).phdr.pkt_encap
          = spec_link_type s := by
  obtain ⟨h4, s, hcode⟩ := header_code_inv K is_hpux_11 fh phdr ph err err_info fddihack h
  refine ⟨s, hcode, ?_⟩
  rw [header_dispatch K hK s is_hpux_11 fh phdr ph err err_info fddihack h4 hcode] at h ⊢
  by_cases hd : s = .NS_LS_DRIVER
  · subst hd
    rw [if_pos rfl] at h ⊢
    exact (driver_case_pseudo K is_hpux_11 _ h).1
  · by_cases hx : s = .SX25L2
    · subst hx
      rw [if_neg hd, if_pos rfl] at h ⊢
      exact lapb_case_encap K is_hpux_11 _ h
    · rw [if_neg hd, if_neg hx]
      rw [(lan_case_pkt_encap K is_hpux_11 _ _).1]
      exact (lan_pkt_encap_spec K hK s ⟨hd, hx⟩ _).1

theorem spec_link_type_ne (s : Subsys) :
    spec_link_type s ≠ WTAP_ENCAP_UNKNOWN ∧ spec_link_type s ≠ WTAP_ENCAP_PER_PACKET := by
  cases s <;> simp [spec_link_type]

/-- The file-wide encapsulation after `nettl_read`: unchanged when the header
decode did not succeed, and otherwise set from the link type of the record,
whether or not the frame data could then be read. -/
theorem nettl_read_file_encap (K : Consts) (wth : wtap) (err : Int)
    (err_info : Option String) :
    (nettl_read K wth err err_info).wth.file_encap
      = (if (nettl_read_header K wth err err_info).ret ≤ 0 then wth.file_encap
         else if wth.file_encap = WTAP_ENCAP_UNKNOWN then
           (nettl_read_header K wth err err_info).phdr.pkt_encap
         else if wth.file_encap ≠ (nettl_read_header K wth err err_info).phdr.pkt_encap then
           WTAP_ENCAP_PER_PACKET
         else wth.file_encap) := by
  unfold nettl_read nettl_read_header
  simp only []
  split_ifs <;> simp_all

/-- Once the file-wide encapsulation is "per packet", every sequence of calls
of `nettl_read` leaves it so. -/
theorem nettl_read_seq_mixed (K : Consts) (calls : List (Int × Option String)) :
    ∀ wth : wtap, wth.file_encap = WTAP_ENCAP_PER_PACKET →
      (nettl_read_seq K wth calls).file_encap = WTAP_ENCAP_PER_PACKET := by
  induction calls with
  | nil => intro wth h; exact h
  | cons c cs ih =>
    intro wth h
    unfold nettl_read_seq
    apply ih
    rw [nettl_read_file_encap, h]
    split_ifs <;> simp_all

/-- C11: on every `nettl_read` whose header decodes, the link type `t` of the
record is one of the seven link types and the file-wide encapsulation follows
the transition: unknown becomes `t`, a single type stays when it is `t` and
becomes "per packet" (mixed) otherwise, mixed stays mixed; when the header
does not decode the state is unchanged.  Hence, over every sequence of calls,
a state that is mixed stays mixed. -/
theorem C11_encapsulation_transition (K : Consts) (hK : K.Distinct) (wth : wtap)
    (err : Int) (err_info : Option String) :
    (0 < (nettl_read_header K wth err err_info).ret →
      ((nettl_read_header K wth err err_info).phdr.pkt_encap ≠ WTAP_ENCAP_UNKNOWN
        ∧ (nettl_read_header K wth err err_info).phdr.pkt_encap ≠ WTAP_ENCAP_PER_PACKET)
      ∧ (nettl_read K wth err err_info).wth.file_encap
          = spec_encap_step wth.file_encap
              (nettl_read_header K wth err err_info).phdr.pkt_encap)
    ∧ ((nettl_read_header K wth err err_info).ret ≤ 0 →
        (nettl_read K wth err err_info).wth.file_encap = wth.file_encap)
    ∧ (∀ calls : List (Int × Option String),
        wth.file_encap = WTAP_ENCAP_PER_PACKET →
        (nettl_read_seq K wth calls).file_encap = WTAP_ENCAP_PER_PACKET) := by
  refine ⟨fun h => ?_, fun h => ?_, fun calls h => nettl_read_seq_mixed K calls wth h⟩
  · obtain ⟨s, _, ht⟩ := header_link_type K hK wth.is_hpux_11 wth.fh wth.phdr
      wth.pseudo_header err err_info false h
    have ht' : (nettl_read_header K wth err err_info).phdr.pkt_encap = spec_link_type s := ht
    have hne := spec_link_type_ne s
    rw [← ht'] at hne
    refine ⟨hne, ?_⟩
    rw [nettl_read_file_encap, if_neg (by omega)]
    cases hf : wth.file_encap <;> simp [spec_encap_step, eq_comm]
  · rw [nettl_read_file_encap, if_pos h]

/-- C11 on a file of a LAN100, an X.25 and a LAN100 record: the state goes
from unknown to Ethernet, then to mixed, and stays mixed. -/
theorem C11_encapsulation_transition_witness :
    (nettl_read_seq hpux (handle_at sample_three_records 0 false) [(0, none)]).file_encap
        = WTAP_ENCAP_ETHERNET
    ∧ (nettl_read_seq hpux (handle_at sample_three_records 0 false)
          [(0, none), (0, none)]).file_encap = WTAP_ENCAP_PER_PACKET
    ∧ (nettl_read_seq hpux
          (nettl_read_seq hpux (handle_at sample_three_records 0 false)
            [(0, none), (0, none)]) [(0, none)]).file_encap = WTAP_ENCAP_PER_PACKET :=
  ⟨by decide, by decide,
    (C11_encapsulation_transition hpux hpux_distinct
      (nettl_read_seq hpux (handle_at sample_three_records 0 false) [(0, none), (0, none)])
      0 none).2.2 [(0, none)] (by decide)⟩

/-- What `read_short` returns on a stream whose source reports no error: 0 for
a read of nothing, else `-1` with `WTAP_ERR_SHORT_READ`. -/
theorem read_short_no_error (K : Consts) (n : Nat) (st : RecHeader)
    (h : st.fh.error = 0) :
    (read_short K n st).ret = (if n = 0 then 0 else -1)
    ∧ (read_short K n st).err = (if n = 0 then 0 else K.WTAP_ERR_SHORT_READ) := by
  unfold read_short
  by_cases h0 : n = 0 <;> simp [file_error, h, h0]

/-- The decoder on a stream with fewer than 4 octets left. -/
theorem header_short_start (K : Consts) (is_hpux_11 : Bool) (fh : FILE_T)
    (phdr : wtap_pkthdr) (ph : wtap_pseudo_header) (err : Int)
    (err_info : Option String) (fddihack : Bool) (h : fh.data.length - fh.pos < 4) :
    nettl_read_rec_header K is_hpux_11 fh phdr ph err err_info fddihack
      = read_short K (fh.data.length - fh.pos)
          ⟨0, err, err_info, phdr, ph, fddihack, (file_read 4 fh).2, false⟩ := by
  have hl := file_read_length 4 fh (by norm_num)
  have h4 : (4 : Int).toNat = 4 := rfl
  rw [h4] at hl
  have hne : (file_read 4 fh).1.length ≠ 4 := by rw [hl]; omega
  have hv : (file_read 4 fh).1.length = fh.data.length - fh.pos := by rw [hl]; omega
  unfold nettl_read_rec_header
  simp only []
  rw [if_pos hne, hv]

/-- C12: on a stream whose source reports no error, for either generation:
with no octet left at the record prefix `nettl_read_rec_header` returns 0 (end
of stream) with `*err` 0, and `nettl_read` then fails with `*err` 0; with 1, 2
or 3 octets left it returns `-1` with `WTAP_ERR_SHORT_READ`. -/
theorem C12_prefix_end_of_stream (K : Consts) (is_hpux_11 : Bool) (fh : FILE_T)
    (phdr : wtap_pkthdr) (ph : wtap_pseudo_header) (err : Int)
    (err_info : Option String) (fddihack : Bool) (wth : wtap)
    (herr : fh.error = 0) (hwerr : wth.fh.error = 0) :
    (fh.data.length - fh.pos = 0 →
        (nettl_read_rec_header K is_hpux_11 fh phdr ph err err_info fddihack).ret = 0
        ∧ (nettl_read_rec_header K is_hpux_11 fh phdr ph err err_info fddihack).err = 0)
    ∧ (0 < fh.data.length - fh.pos → fh.data.length - fh.pos < 4 →
        (nettl_read_rec_header K is_hpux_11 fh phdr ph err err_info fddihack).ret = -1
        ∧ (nettl_read_rec_header K is_hpux_11 fh phdr ph err err_info fddihack).err
            = K.WTAP_ERR_SHORT_READ)
    ∧ (wth.fh.data.length - wth.fh.pos = 0 →
        (nettl_read K wth err err_info).ok = false
        ∧ (nettl_read K wth err err_info).err = 0) := by
  have key : ∀ (g : Bool) (f : FILE_T) (p : wtap_pkthdr) (q : wtap_pseudo_header)
      (e : Int) (ei : Option String) (hk : Bool), f.error = 0 →
      f.data.length - f.pos < 4 →
      (nettl_read_rec_header K g f p q e ei hk).ret
          = (if f.data.length - f.pos = 0 then 0 else -1)
      ∧ (nettl_read_rec_header K g f p q e ei hk).err
          = (if f.data.length - f.pos = 0 then 0 else K.WTAP_ERR_SHORT_READ) := by
    intro g f p q e ei hk he hlt
    rw [header_short_start K g f p q e ei hk hlt]
    exact read_short_no_error K _ _ (by rw [file_read_snd_error]; exact he)
  refine ⟨fun h0 => ?_, fun hp hlt => ?_, fun h0 => ?_⟩
  · have := key is_hpux_11 fh phdr ph err err_info fddihack herr (by omega)
    simpa [h0] using this
  · have := key is_hpux_11 fh phdr ph err err_info fddihack herr hlt
    have hne : ¬ (fh.data.length - fh.pos = 0) := by omega
    simpa [hne] using this
  · have := key wth.is_hpux_11 wth.fh wth.phdr wth.pseudo_header err err_info false hwerr
      (by omega)
    simp only [h0, if_true] at this
    have hr : (nettl_read_rec_header K wth.is_hpux_11 wth.fh wth.phdr wth.pseudo_header err
        err_info false).ret ≤ 0 := by rw [this.1]
    unfold nettl_read
    simp only [hr, if_true]
    exact ⟨trivial, this.2⟩

/-- C12 at an exhausted stream and at a stream of two octets. -/
theorem C12_prefix_end_of_stream_witness :
    (nettl_read_rec_header hpux true (stream_of []) phdr_init (.other 0) 5 none false).ret = 0
    ∧ (nettl_read_rec_header hpux true (stream_of []) phdr_init (.other 0) 5 none false).err
        = 0
    ∧ (nettl_read_rec_header hpux true (stream_of [0, 0x44]) phdr_init (.other 0) 5 none
        false).err = hpux.WTAP_ERR_SHORT_READ :=
  ⟨((C12_prefix_end_of_stream hpux true (stream_of []) phdr_init (.other 0) 5 none false
      (handle_at [] 0 true) rfl rfl).1 (by decide)).1,
    ((C12_prefix_end_of_stream hpux true (stream_of []) phdr_init (.other 0) 5 none false
      (handle_at [] 0 true) rfl rfl).1 (by decide)).2,
    ((C12_prefix_end_of_stream hpux true (stream_of [0, 0x44]) phdr_init (.other 0) 5 none
      false (handle_at [] 0 true) rfl rfl).2.1 (by decide) (by decide)).2⟩

theorem file_read_short_length (n : Nat) (fh : FILE_T) (h : fh.data.length - fh.pos < n) :
    (file_read (n : Int) fh).1.length = fh.data.length - fh.pos := by
  rw [file_read_length _ _ (by omega)]
  simp only [Int.toNat_ofNat]
  omega

/-- What `read_short` returns after a read of `n > avail` octets on a stream
with `avail` octets left whose source reports no error. -/
theorem read_short_after (K : Consts) (n : Nat) (fh : FILE_T) (st : RecHeader)
    (herr : fh.error = 0) (h : fh.data.length - fh.pos < n) :
    (read_short K (file_read (n : Int) fh).1.length
        { st with fh := (file_read (n : Int) fh).2 }).ret
      = (if fh.data.length - fh.pos = 0 then 0 else -1)
    ∧ (read_short K (file_read (n : Int) fh).1.length
        { st with fh := (file_read (n : Int) fh).2 }).err
      = (if fh.data.length - fh.pos = 0 then 0 else K.WTAP_ERR_SHORT_READ) := by
  have := read_short_no_error K (file_read (n : Int) fh).1.length
    { st with fh := (file_read (n : Int) fh).2 } (by simp [file_read_snd_error, herr])
  rw [file_read_short_length n fh h] at this ⊢
  exact this

/-- What `lan_lengths` returns when the stream, whose source reports no error,
ends before the pad octets of the subsystem: 0 when it ends right at the start
of the pad or right after the nine probe octets of an outbound HPPB FDDI
record, else `-1` with `WTAP_ERR_SHORT_READ`. -/
theorem lan_lengths_short (K : Consts) (hK : K.Distinct) (s : Subsys)
    (hs : s ≠ .NS_LS_DRIVER ∧ s ≠ .SX25L2) (ip_hdr : List guint8) (offset : Int)
    (st : RecHeader) (herr : st.fh.error = 0)
    (hq : st.fh.data.length - st.fh.pos
            < lan_pad K s ip_hdr (st.fh.data.drop st.fh.pos)) :
    (lan_lengths K (K.NETTL_SUBSYS s) ip_hdr offset st).ret
        = (if st.fh.data.length - st.fh.pos = 0
              ∨ (s = .HPPB_FDDI ∧ st.fh.data.length - st.fh.pos = 9)
           then 0 else -1)
    ∧ (lan_lengths K (K.NETTL_SUBSYS s) ip_hdr offset st).err
        = (if st.fh.data.length - st.fh.pos = 0
              ∨ (s = .HPPB_FDDI ∧ st.fh.data.length - st.fh.pos = 9)
           then 0 else K.WTAP_ERR_SHORT_READ) := by
  have hinj := fun a b => hK.eq_iff (a := a) (b := b)
  have fixed : ∀ n : Nat, st.fh.data.length - st.fh.pos < n →
      (file_read (n : Int) st.fh).1.length ≠ n := by
    intro n hlt
    rw [file_read_short_length n st.fh hlt]; omega
  unfold lan_lengths
  cases s
  case HPPB_FDDI =>
    simp only [lan_pad] at hq
    by_cases hr : octet ip_hdr ip_rectype = K.NETTL_HDR_PDUIN
    · simp [hr] at hq
    · simp only [hr, if_false, if_true] at hq ⊢
      by_cases h9 : st.fh.data.length - st.fh.pos < 9
      · have hne := fixed 9 h9
        have hra := read_short_after K 9 st.fh st herr h9
        simp only [Nat.cast_ofNat] at hne hra
        rw [if_pos hne, hra.1, hra.2]
        have : ¬ (st.fh.data.length - st.fh.pos = 9) := by omega
        simp [this]
      · have hle : st.fh.pos + 9 ≤ st.fh.data.length := by omega
        have h9r : (file_read 9 st.fh).1.length = 9 :=
          file_read_full 9 st.fh (by norm_num) (by simp; omega)
        have e9 := file_read_snd_full 9 st.fh hle
        simp only [Nat.cast_ofNat] at e9
        have ho : octet (file_read 9 st.fh).1 8 = octet (st.fh.data.drop st.fh.pos) 8 := by
          rw [file_read_fst 9 st.fh (by norm_num)]
          exact octet_take _ _ _ (by norm_num)
        have hlt : (⟨st.fh.data, st.fh.pos + 9, st.fh.error⟩ : FILE_T).data.length
            - (⟨st.fh.data, st.fh.pos + 9, st.fh.error⟩ : FILE_T).pos
            < octet (st.fh.data.drop st.fh.pos) 8 := by simp only; omega
        have hra := read_short_after K (octet (st.fh.data.drop st.fh.pos) 8)
          ⟨st.fh.data, st.fh.pos + 9, st.fh.error⟩
          { st with overrun := st.overrun || decide (4 < (file_read
              ((octet (st.fh.data.drop st.fh.pos) 8 : Nat) : Int)
              ⟨st.fh.data, st.fh.pos + 9, st.fh.error⟩).1.length) } herr hlt
        have hsl := file_read_short_length (octet (st.fh.data.drop st.fh.pos) 8)
          ⟨st.fh.data, st.fh.pos + 9, st.fh.error⟩ hlt
        simp only at hra hsl
        have hne : (file_read ((octet (st.fh.data.drop st.fh.pos) 8 : Nat) : Int)
            ⟨st.fh.data, st.fh.pos + 9, st.fh.error⟩).1.length
              ≠ octet (st.fh.data.drop st.fh.pos) 8 := by rw [hsl]; omega
        simp only [h9r, ho, e9, ne_eq, not_true_eq_false, if_false]
        rw [if_pos hne, hra.1, hra.2]
        have e1 : (st.fh.data.length - (st.fh.pos + 9) = 0)
            ↔ (st.fh.data.length - st.fh.pos = 9) := by omega
        have e2 : ¬ (st.fh.data.length - st.fh.pos = 0) := by omega
        simp [e1, e2]
  case EISA_FDDI =>
    simp only [lan_pad] at hq
    have hne := fixed 3 hq
    have hra := read_short_after K 3 st.fh st herr hq
    simp only [Nat.cast_ofNat] at hne hra
    simp [hinj, hne, hra.1, hra.2]
  case PCI_FDDI =>
    simp only [lan_pad] at hq
    have hne := fixed 3 hq
    have hra := read_short_after K 3 st.fh st herr hq
    simp only [Nat.cast_ofNat] at hne hra
    simp [hinj, hne, hra.1, hra.2]
  case HSC_FDDI =>
    simp only [lan_pad] at hq
    have hne := fixed 3 hq
    have hra := read_short_after K 3 st.fh st herr hq
    simp only [Nat.cast_ofNat] at hne hra
    simp [hinj, hne, hra.1, hra.2]
  case NS_LS_LOOPBACK =>
    simp only [lan_pad] at hq
    have hne := fixed 26 hq
    have hra := read_short_after K 26 st.fh
      { st with overrun := st.overrun || decide (4 < (file_read 26 st.fh).1.length) }
      herr hq
    simp only [Nat.cast_ofNat] at hne hra
    simp [hinj, hne, hra.1, hra.2]
  all_goals simp [lan_pad] at hq hs

/-- What the first `case` group returns when the stream, whose source reports
no error, ends before the generic header and the extra field of the newer
generation are complete: 0 when it ends right at the start of one of the two,
else `-1` with `WTAP_ERR_SHORT_READ`. -/
theorem lan_case_base_short (K : Consts) (is_hpux_11 : Bool) (encap : Nat)
    (st : RecHeader) (herr : st.fh.error = 0)
    (h : st.fh.data.length - st.fh.pos < 60 + (if is_hpux_11 = true then 4 else 0)) :
    (lan_case K is_hpux_11 encap st).ret
        = (if st.fh.data.length - st.fh.pos = 0 ∨ st.fh.data.length - st.fh.pos = 60
           then 0 else -1)
    ∧ (lan_case K is_hpux_11 encap st).err
        = (if st.fh.data.length - st.fh.pos = 0 ∨ st.fh.data.length - st.fh.pos = 60
           then 0 else K.WTAP_ERR_SHORT_READ) := by
  unfold lan_case
  simp only [lan_pkt_encap_fh, sizeof_ip_hdr_eq, Nat.cast_ofNat]
  by_cases h60 : st.fh.data.length - st.fh.pos < 60
  · have hne : (file_read 60 st.fh).1.length ≠ 60 := by
      have := file_read_short_length 60 st.fh h60
      simp only [Nat.cast_ofNat] at this
      rw [this]; omega
    have hra := read_short_after K 60 st.fh (lan_pkt_encap K encap st) herr h60
    simp only [Nat.cast_ofNat] at hra
    rw [if_pos hne, hra.1, hra.2]
    have : ¬ (st.fh.data.length - st.fh.pos = 60) := by omega
    simp [this]
  · cases is_hpux_11
    · simp at h; omega
    · simp only [if_true] at h ⊢
      have hle : st.fh.pos + 60 ≤ st.fh.data.length := by omega
      have h60r : (file_read 60 st.fh).1.length = 60 :=
        file_read_full 60 st.fh (by norm_num) (by simp; omega)
      have e60 := file_read_snd_full 60 st.fh hle
      simp only [Nat.cast_ofNat] at e60
      have hlt : (⟨st.fh.data, st.fh.pos + 60, st.fh.error⟩ : FILE_T).data.length
          - (⟨st.fh.data, st.fh.pos + 60, st.fh.error⟩ : FILE_T).pos < 4 := by
        simp only; omega
      have hra := read_short_after K 4 ⟨st.fh.data, st.fh.pos + 60, st.fh.error⟩
        (lan_pkt_encap K encap st) herr hlt
      have hsl := file_read_short_length 4 ⟨st.fh.data, st.fh.pos + 60, st.fh.error⟩ hlt
      simp only [Nat.cast_ofNat] at hra hsl
      have hne : (file_read 4 ⟨st.fh.data, st.fh.pos + 60, st.fh.error⟩).1.length ≠ 4 := by
        rw [hsl]; omega
      simp only [h60r, e60, ne_eq, not_true_eq_false, if_false]
      rw [if_pos hne, hra.1, hra.2]
      have e1 : (st.fh.data.length - (st.fh.pos + 60) = 0)
          ↔ (st.fh.data.length - st.fh.pos = 60) := by omega
      have e2 : ¬ (st.fh.data.length - st.fh.pos = 0) := by omega
      simp [e1, e2]

/-- What the driver arm returns when the stream, whose source reports no
error, ends before the generic header, the extra field of the newer generation
and the sub-header are complete: 0 when it ends right at the start of one of
the three, else `-1` with `WTAP_ERR_SHORT_READ`. -/
theorem driver_case_short (K : Consts) (is_hpux_11 : Bool) (st : RecHeader)
    (herr : st.fh.error = 0)
    (h : st.fh.data.length - st.fh.pos < 60 + (if is_hpux_11 = true then 4 else 0) + 24) :
    (driver_case K is_hpux_11 st).ret
        = (if st.fh.data.length - st.fh.pos = 0 ∨ st.fh.data.length - st.fh.pos = 60
              ∨ st.fh.data.length - st.fh.pos = 60 + (if is_hpux_11 = true then 4 else 0)
           then 0 else -1)
    ∧ (driver_case K is_hpux_11 st).err
        = (if st.fh.data.length - st.fh.pos = 0 ∨ st.fh.data.length - st.fh.pos = 60
              ∨ st.fh.data.length - st.fh.pos = 60 + (if is_hpux_11 = true then 4 else 0)
           then 0 else K.WTAP_ERR_SHORT_READ) := by
  unfold driver_case driver_lengths
  simp only [sizeof_ip_hdr_eq, sizeof_drv_eth_hdr_eq, Nat.cast_ofNat]
  by_cases h60 : st.fh.data.length - st.fh.pos < 60
  · have hne : (file_read 60 st.fh).1.length ≠ 60 := by
      have := file_read_short_length 60 st.fh h60
      simp only [Nat.cast_ofNat] at this
      rw [this]; omega
    have hra := read_short_after K 60 st.fh st herr h60
    simp only [Nat.cast_ofNat] at hra
    rw [if_pos hne, hra.1, hra.2]
    have e1 : ¬ (st.fh.data.length - st.fh.pos = 60) := by omega
    have e2 : ¬ (st.fh.data.length - st.fh.pos
        = 60 + (if is_hpux_11 = true then 4 else 0)) := by omega
    simp [e1, e2]
  · have hle : st.fh.pos + 60 ≤ st.fh.data.length := by omega
    have h60r : (file_read 60 st.fh).1.length = 60 :=
      file_read_full 60 st.fh (by norm_num) (by simp; omega)
    have e60 := file_read_snd_full 60 st.fh hle
    simp only [Nat.cast_ofNat] at e60
    simp only [h60r, e60, ne_eq, not_true_eq_false, if_false]
    cases is_hpux_11
    · simp only [Bool.false_eq_true, if_false, Nat.add_zero] at h ⊢
      have hlt : (⟨st.fh.data, st.fh.pos + 60, st.fh.error⟩ : FILE_T).data.length
          - (⟨st.fh.data, st.fh.pos + 60, st.fh.error⟩ : FILE_T).pos < 24 := by
        simp only; omega
      have hra := read_short_after K 24 ⟨st.fh.data, st.fh.pos + 60, st.fh.error⟩
        { st with phdr := { st.phdr with pkt_encap := WTAP_ENCAP_ETHERNET },
                  pseudo_header := .eth 0 } herr hlt
      have hsl := file_read_short_length 24 ⟨st.fh.data, st.fh.pos + 60, st.fh.error⟩ hlt
      simp only [Nat.cast_ofNat] at hra hsl
      have hne : (file_read 24 ⟨st.fh.data, st.fh.pos + 60, st.fh.error⟩).1.length ≠ 24 := by
        rw [hsl]; omega
      rw [if_pos hne, hra.1, hra.2]
      have e1 : (st.fh.data.length - (st.fh.pos + 60) = 0)
          ↔ (st.fh.data.length - st.fh.pos = 60) := by omega
      have e2 : ¬ (st.fh.data.length - st.fh.pos = 0) := by omega
      simp [e1, e2]
    · simp only [if_true] at h ⊢
      by_cases h64 : st.fh.data.length - st.fh.pos < 64
      · have hlt : (⟨st.fh.data, st.fh.pos + 60, st.fh.error⟩ : FILE_T).data.length
            - (⟨st.fh.data, st.fh.pos + 60, st.fh.error⟩ : FILE_T).pos < 4 := by
          simp only; omega
        have hra := read_short_after K 4 ⟨st.fh.data, st.fh.pos + 60, st.fh.error⟩ st herr hlt
        have hsl := file_read_short_length 4 ⟨st.fh.data, st.fh.pos + 60, st.fh.error⟩ hlt
        simp only [Nat.cast_ofNat] at hra hsl
        have hne : (file_read 4 ⟨st.fh.data, st.fh.pos + 60, st.fh.error⟩).1.length ≠ 4 := by
          rw [hsl]; omega
        rw [if_pos hne, hra.1, hra.2]
        have e1 : (st.fh.data.length - (st.fh.pos + 60) = 0)
            ↔ (st.fh.data.length - st.fh.pos = 60) := by omega
        have e2 : ¬ (st.fh.data.length - st.fh.pos = 0) := by omega
        have e3 : ¬ (st.fh.data.length - st.fh.pos = 60 + 4) := by omega
        simp [e1, e2, e3]
      · have hle4 : (⟨st.fh.data, st.fh.pos + 60, st.fh.error⟩ : FILE_T).pos + 4
            ≤ (⟨st.fh.data, st.fh.pos + 60, st.fh.error⟩ : FILE_T).data.length := by
          simp only; omega
        have h4r : (file_read 4 ⟨st.fh.data, st.fh.pos + 60, st.fh.error⟩).1.length = 4 :=
          file_read_full 4 _ (by norm_num) (by simp; omega)
        have e4 := file_read_snd_full 4 ⟨st.fh.data, st.fh.pos + 60, st.fh.error⟩ hle4
        simp only [Nat.cast_ofNat] at e4
        simp only [h4r, e4, ne_eq, not_true_eq_false, if_false]
        have hlt : (⟨st.fh.data, st.fh.pos + 60 + 4, st.fh.error⟩ : FILE_T).data.length
            - (⟨st.fh.data, st.fh.pos + 60 + 4, st.fh.error⟩ : FILE_T).pos < 24 := by
          simp only; omega
        have hra := read_short_after K 24 ⟨st.fh.data, st.fh.pos + 60 + 4, st.fh.error⟩
          { st with phdr := { st.phdr with pkt_encap := WTAP_ENCAP_ETHERNET },
                    pseudo_header := .eth 0 } herr hlt
        have hsl := file_read_short_length 24
          ⟨st.fh.data, st.fh.pos + 60 + 4, st.fh.error⟩ hlt
        simp only [Nat.cast_ofNat] at hra hsl
        have hne : (file_read 24
            ⟨st.fh.data, st.fh.pos + 60 + 4, st.fh.error⟩).1.length ≠ 24 := by
          rw [hsl]; omega
        rw [if_pos hne, hra.1, hra.2]
        have e1 : (st.fh.data.length - (st.fh.pos + 60 + 4) = 0)
            ↔ (st.fh.data.length - st.fh.pos = 60 + 4) := by omega
        have e2 : ¬ (st.fh.data.length - st.fh.pos = 0) := by omega
        have e3 : ¬ (st.fh.data.length - st.fh.pos = 60) := by omega
        simp [e1, e2, e3]

/-- What the X.25 arm returns when the stream, whose source reports no error,
ends before the header and the extra field of the newer generation are
complete: 0 when it ends right at the start of one of the two, else `-1` with
`WTAP_ERR_SHORT_READ`. -/
theorem lapb_case_short (K : Consts) (is_hpux_11 : Bool) (st : RecHeader)
    (herr : st.fh.error = 0)
    (h : st.fh.data.length - st.fh.pos < 84 + (if is_hpux_11 = true then 4 else 0)) :
    (lapb_case K is_hpux_11 st).ret
        = (if st.fh.data.length - st.fh.pos = 0 ∨ st.fh.data.length - st.fh.pos = 84
           then 0 else -1)
    ∧ (lapb_case K is_hpux_11 st).err
        = (if st.fh.data.length - st.fh.pos = 0 ∨ st.fh.data.length - st.fh.pos = 84
           then 0 else K.WTAP_ERR_SHORT_READ) := by
  unfold lapb_case
  simp only [sizeof_lapb_hdr_eq, Nat.cast_ofNat]
  by_cases h84 : st.fh.data.length - st.fh.pos < 84
  · have hne : (file_read 84 st.fh).1.length ≠ 84 := by
      have := file_read_short_length 84 st.fh h84
      simp only [Nat.cast_ofNat] at this
      rw [this]; omega
    have hra := read_short_after K 84 st.fh
      { st with phdr := { st.phdr with pkt_encap := WTAP_ENCAP_LAPB } } herr h84
    simp only [Nat.cast_ofNat] at hra
    rw [if_pos hne, hra.1, hra.2]
    have : ¬ (st.fh.data.length - st.fh.pos = 84) := by omega
    simp [this]
  · cases is_hpux_11
    · simp at h; omega
    · simp only [if_true] at h ⊢
      have hle : st.fh.pos + 84 ≤ st.fh.data.length := by omega
      have h84r : (file_read 84 st.fh).1.length = 84 :=
        file_read_full 84 st.fh (by norm_num) (by simp; omega)
      have e84 := file_read_snd_full 84 st.fh hle
      simp only [Nat.cast_ofNat] at e84
      have hlt : (⟨st.fh.data, st.fh.pos + 84, st.fh.error⟩ : FILE_T).data.length
          - (⟨st.fh.data, st.fh.pos + 84, st.fh.error⟩ : FILE_T).pos < 4 := by
        simp only; omega
      have hra := read_short_after K 4 ⟨st.fh.data, st.fh.pos + 84, st.fh.error⟩
        { st with phdr := { st.phdr with pkt_encap := WTAP_ENCAP_LAPB } } herr hlt
      have hsl := file_read_short_length 4 ⟨st.fh.data, st.fh.pos + 84, st.fh.error⟩ hlt
      simp only [Nat.cast_ofNat] at hra hsl
      have hne : (file_read 4 ⟨st.fh.data, st.fh.pos + 84, st.fh.error⟩).1.length ≠ 4 := by
        rw [hsl]; omega
      simp only [h84r, e84, ne_eq, not_true_eq_false, if_false]
      rw [if_pos hne, hra.1, hra.2]
      have e1 : (st.fh.data.length - (st.fh.pos + 84) = 0)
          ↔ (st.fh.data.length - st.fh.pos = 84) := by omega
      have e2 : ¬ (st.fh.data.length - st.fh.pos = 0) := by omega
      simp [e1, e2]

/-- C13 fails as stated: on a stream that holds the complete prefix of a
LAN100 record and ends there, the header is incomplete and
`nettl_read_rec_header` returns 0, the end of the stream, with no error set. -/
theorem C13_counterexample :
    octet (sample_start_only.data.drop sample_start_only.pos) 3 = hpux.NETTL_SUBSYS .LAN100
    ∧ sample_start_only.pos + 4 ≤ sample_start_only.data.length
    ∧ sample_start_only.data.length - sample_start_only.pos
        < spec_base_size false .LAN100
          + spec_quirk_size hpux false .LAN100
              (sample_start_only.data.drop sample_start_only.pos)
    ∧ (nettl_read_rec_header hpux false sample_start_only phdr_init (.other 0) 0 none
        false).ret = 0
    ∧ (nettl_read_rec_header hpux false sample_start_only phdr_init (.other 0) 0 none
        false).err = 0 := by
  decide

/-- C13 as amended: for every recognised subsystem code and either
generation, on a stream whose source reports no error, that holds the complete
4-octet prefix and ends before the whole header (family header, extra field of
the newer generation, driver sub-header or pad octets), `nettl_read_rec_header`
never succeeds: it returns 0 with no error when the stream ends right at the
start of one of these pieces (after the prefix, after the family header, after
the base header, or after the nine probe octets of an HPPB FDDI record), and
`-1` with `WTAP_ERR_SHORT_READ` for every other number of missing octets. -/
theorem C13_incomplete_header (K : Consts) (hK : K.Distinct) (s : Subsys)
    (is_hpux_11 : Bool) (fh : FILE_T) (phdr : wtap_pkthdr) (ph : wtap_pseudo_header)
    (err : Int) (err_info : Option String) (fddihack : Bool)
    (herr : fh.error = 0)
    (hcode : octet (fh.data.drop fh.pos) 3 = K.NETTL_SUBSYS s)
    (h4 : fh.pos + 4 ≤ fh.data.length)
    (hinc : fh.data.length - fh.pos
        < spec_base_size is_hpux_11 s
          + spec_quirk_size K is_hpux_11 s (fh.data.drop fh.pos)) :
    (nettl_read_rec_header K is_hpux_11 fh phdr ph err err_info fddihack).ret
        = (if spec_piece_start is_hpux_11 s (fh.data.length - fh.pos) then 0 else -1)
    ∧ (nettl_read_rec_header K is_hpux_11 fh phdr ph err err_info fddihack).err
        = (if spec_piece_start is_hpux_11 s (fh.data.length - fh.pos) then 0
           else K.WTAP_ERR_SHORT_READ) := by
  rw [header_dispatch K hK s is_hpux_11 fh phdr ph err err_info fddihack h4 hcode]
  by_cases hd : s = .NS_LS_DRIVER
  · subst hd
    rw [if_pos rfl]
    simp only [spec_base_size, spec_quirk_size, sizeof_ip_hdr_eq, sizeof_drv_eth_hdr_eq,
      reduceCtorEq, if_false] at hinc
    have hv := driver_case_short K is_hpux_11
      ⟨0, err, err_info, phdr, ph, fddihack, ⟨fh.data, fh.pos + 4, fh.error⟩, false⟩ herr
      (by simp only; omega)
    simp only at hv
    rw [hv.1, hv.2]
    have e : (fh.data.length - (fh.pos + 4) = 0 ∨ fh.data.length - (fh.pos + 4) = 60
          ∨ fh.data.length - (fh.pos + 4) = 60 + (if is_hpux_11 = true then 4 else 0))
        ↔ spec_piece_start is_hpux_11 .NS_LS_DRIVER (fh.data.length - fh.pos) := by
      simp only [spec_piece_start, spec_base_size, sizeof_ip_hdr_eq, reduceCtorEq, if_false,
        false_and, or_false]
      omega
    simp only [e]
    exact ⟨trivial, trivial⟩
  · by_cases hx : s = .SX25L2
    · subst hx
      rw [if_neg hd, if_pos rfl]
      simp only [spec_base_size, spec_quirk_size, sizeof_lapb_hdr_eq, if_true] at hinc
      have hv := lapb_case_short K is_hpux_11
        ⟨0, err, err_info, phdr, ph, fddihack, ⟨fh.data, fh.pos + 4, fh.error⟩, false⟩ herr
        (by simp only; omega)
      simp only at hv
      rw [hv.1, hv.2]
      have e : (fh.data.length - (fh.pos + 4) = 0 ∨ fh.data.length - (fh.pos + 4) = 84)
          ↔ spec_piece_start is_hpux_11 .SX25L2 (fh.data.length - fh.pos) := by
        simp only [spec_piece_start, spec_base_size, sizeof_lapb_hdr_eq, if_true,
          reduceCtorEq, false_and, or_false]
        omega
      simp only [e]
      exact ⟨trivial, trivial⟩
    · rw [if_neg hd, if_neg hx]
      have hs : s ≠ .NS_LS_DRIVER ∧ s ≠ .SX25L2 := ⟨hd, hx⟩
      rw [spec_quirk_size_lan K is_hpux_11 s hs] at hinc
      have hbase : spec_base_size is_hpux_11 s
          = 4 + 60 + (if is_hpux_11 = true then 4 else 0) := by
        simp [spec_base_size, sizeof_ip_hdr, hx]
      rw [hbase] at hinc
      by_cases hb : fh.data.length - (fh.pos + 4) < 60 + (if is_hpux_11 = true then 4 else 0)
      · have hv := lan_case_base_short K is_hpux_11 (K.NETTL_SUBSYS s)
          ⟨0, err, err_info, phdr, ph, fddihack, ⟨fh.data, fh.pos + 4, fh.error⟩, false⟩ herr hb
        simp only at hv
        rw [hv.1, hv.2]
        have e : (fh.data.length - (fh.pos + 4) = 0 ∨ fh.data.length - (fh.pos + 4) = 60)
            ↔ spec_piece_start is_hpux_11 s (fh.data.length - fh.pos) := by
          simp only [spec_piece_start, hbase, sizeof_ip_hdr_eq, hx, if_false]
          omega
        simp only [e]
        exact ⟨trivial, trivial⟩
      · have hpad := lan_pad_eq_spec_at K s hs is_hpux_11 fh
        rw [lan_case_unfold K is_hpux_11 (K.NETTL_SUBSYS s) _ (by simp only; omega)]
        have hv := lan_lengths_short K hK s hs
          (file_read 60 ⟨fh.data, fh.pos + 4, fh.error⟩).1
          (4 + 60 + (if is_hpux_11 = true then 4 else 0 : Nat))
          { lan_pkt_encap K (K.NETTL_SUBSYS s)
              ⟨0, err, err_info, phdr, ph, fddihack, ⟨fh.data, fh.pos + 4, fh.error⟩, false⟩ with
            fh := ⟨fh.data, fh.pos + 4 + 60 + (if is_hpux_11 = true then 4 else 0),
                    fh.error⟩ }
          herr (by simp only [hpad]; omega)
        simp only at hv
        rw [hv.1, hv.2]
        have e : (fh.data.length - (fh.pos + 4 + 60 + (if is_hpux_11 = true then 4 else 0)) = 0
              ∨ (s = .HPPB_FDDI ∧ fh.data.length
                  - (fh.pos + 4 + 60 + (if is_hpux_11 = true then 4 else 0)) = 9))
            ↔ spec_piece_start is_hpux_11 s (fh.data.length - fh.pos) := by
          simp only [spec_piece_start, hbase, sizeof_ip_hdr_eq, hx, if_false]
          by_cases hf : s = .HPPB_FDDI
          · simp only [hf, true_and]
            omega
          · simp only [hf, false_and, or_false]
            omega
        simp only [e]
        exact ⟨trivial, trivial⟩

theorem C13_incomplete_header_witness :
    (nettl_read_rec_header hpux false sample_cut_header phdr_init (.other 0) 0 none
        false).ret
        = (if spec_piece_start false .LAN100
              (sample_cut_header.data.length - sample_cut_header.pos) then 0 else -1)
    ∧ (nettl_read_rec_header hpux false sample_cut_header phdr_init (.other 0) 0 none
        false).err
        = (if spec_piece_start false .LAN100
              (sample_cut_header.data.length - sample_cut_header.pos) then 0
           else hpux.WTAP_ERR_SHORT_READ) :=
  C13_incomplete_header hpux hpux_distinct .LAN100 false sample_cut_header phdr_init
    (.other 0) 0 none false (by decide) (by decide) (by decide) (by decide)

theorem octet_file_read (n : Int) (fh : FILE_T) (i : Nat) (hi : i < n.toNat) :
    octet (file_read n fh).1 i = octet (fh.data.drop fh.pos) i := by
  rw [file_read_fst n fh (by omega)]
  exact octet_take _ _ _ hi

/-- The number of octets a successful `nettl_read_rec_data` has stored:
`length`, or `length - 3` when it reconstructed an FDDI frame whose octet 13 is
the SNAP marker. -/
theorem rec_data_pd_length (K : Consts) (fh : FILE_T) (length err : Int) (fddihack : Bool)
    (hl : fddihack = true → 0 ≤ length)
    (h : (nettl_read_rec_data K fh length err fddihack).ok = true) :
    ((nettl_read_rec_data K fh length err fddihack).pd.length : Int)
      = (if fddihack = true ∧ octet (fh.data.drop fh.pos) 13 = 0xAA then length - 3
         else length) := by
  have ho := octet_file_read 15 fh 13 (by decide)
  unfold nettl_read_rec_data rec_data_reads at h ⊢
  simp only [ho] at h ⊢
  split_ifs at h ⊢ <;>
    first
    | (exfalso; simp at h; done)
    | (simp_all; done)
    | (simp_all; omega)

/-- C15 fails as stated: an inbound HPPB FDDI record of 20 captured octets
whose octet 13 is the SNAP marker is read successfully, and 17 octets are
delivered into the frame buffer. -/
theorem C15_counterexample :
    (nettl_read hpux (handle_at sample_fddi_snap 0 false) 0 none).ok = true
    ∧ (nettl_read hpux (handle_at sample_fddi_snap 0 false) 0 none).wth.phdr.pkt_encap
        = WTAP_ENCAP_FDDI
    ∧ (nettl_read hpux (handle_at sample_fddi_snap 0 false) 0 none).wth.phdr.caplen = 20
    ∧ (nettl_read hpux (handle_at sample_fddi_snap 0 false) 0 none).wth.frame_buffer.length
        = 17 := by
  decide

/-- C15 as amended: for every frame a successful `nettl_read` returns, the
number of octets delivered into the frame buffer equals the captured length of
the record header, except for an FDDI-reconstruction record whose octet 13 is
the SNAP marker 0xAA, for which the captured length, consumed from the stream in
full, is at least 18 and the number of octets delivered is the captured length
minus the 3 octets discarded. -/
theorem C15_frame_octets (K : Consts) (wth : wtap) (err : Int) (err_info : Option String)
    (hok : (nettl_read K wth err err_info).ok = true) :
    (¬ ((nettl_read_header K wth err err_info).fddihack = true
          ∧ octet ((nettl_read_header K wth err err_info).fh.data.drop
                (nettl_read_header K wth err err_info).fh.pos) 13 = 0xAA) →
        (nettl_read K wth err err_info).wth.frame_buffer.length
          = (nettl_read K wth err err_info).wth.phdr.caplen)
    ∧ ((nettl_read_header K wth err err_info).fddihack = true
          ∧ octet ((nettl_read_header K wth err err_info).fh.data.drop
                (nettl_read_header K wth err err_info).fh.pos) 13 = 0xAA →
        (nettl_read K wth err err_info).wth.frame_buffer.length + 3
          = (nettl_read K wth err err_info).wth.phdr.caplen
        ∧ 18 ≤ (nettl_read K wth err err_info).wth.phdr.caplen)
    ∧ ((nettl_read K wth err err_info).wth.fh.pos : Int)
        = (nettl_read_header K wth err err_info).fh.pos
          + (nettl_read K wth err err_info).wth.phdr.caplen := by
  obtain ⟨hpos, hd, k1, _, k5, k6, _, _⟩ := nettl_read_ok K wth err err_info hok
  obtain ⟨hti, _, _, hp, _, hd3⟩ := nettl_read_ok_stream K wth err err_info hok
  have hs := header_success K wth.is_hpux_11 wth.fh wth.phdr wth.pseudo_header err
    err_info false hpos
  rw [show nettl_read_rec_header K wth.is_hpux_11 wth.fh wth.phdr wth.pseudo_header err
    err_info false = nettl_read_header K wth err err_info from rfl] at hs
  obtain ⟨_, _, _, hcap, _, hhack⟩ := hs
  have hnn : (nettl_read_header K wth err err_info).fddihack = true →
      0 ≤ toInt32 (nettl_read_header K wth err err_info).phdr.caplen := by
    intro _
    rw [hti]; positivity
  have hlen := rec_data_pd_length K (nettl_read_header K wth err err_info).fh
    (toInt32 (nettl_read_header K wth err err_info).phdr.caplen)
    (nettl_read_header K wth err err_info).err
    (nettl_read_header K wth err err_info).fddihack hnn hd
  rw [show nettl_read_rec_data K (nettl_read_header K wth err err_info).fh
    (toInt32 (nettl_read_header K wth err err_info).phdr.caplen)
    (nettl_read_header K wth err err_info).err
    (nettl_read_header K wth err err_info).fddihack = nettl_read_data K wth err err_info
    from rfl, hti] at hlen
  rw [k5, k1, k6]
  refine ⟨fun hn => ?_, fun hy => ?_, ?_⟩
  · rw [if_neg hn] at hlen
    exact_mod_cast hlen
  · rw [if_pos hy] at hlen
    have h18 : 18 ≤ (nettl_read_header K wth err err_info).phdr.caplen := by
      by_contra hlt
      have hd' := hd
      unfold nettl_read_data at hd'
      rw [hti] at hd'
      have ho := octet_file_read 15 (nettl_read_header K wth err err_info).fh 13 (by decide)
      unfold nettl_read_rec_data rec_data_reads at hd'
      simp only [hy.1, ho, hy.2, if_true] at hd'
      split_ifs at hd' <;>
        first
        | (exfalso; simp at hd'; done)
        | omega
    omega
  · rw [hd3, hp]

theorem C15_frame_octets_witness :
    (nettl_read hpux (handle_at sample_fddi_snap 0 false) 0 none).wth.frame_buffer.length + 3
        = (nettl_read hpux (handle_at sample_fddi_snap 0 false) 0 none).wth.phdr.caplen
    ∧ 18 ≤ (nettl_read hpux (handle_at sample_fddi_snap 0 false) 0 none).wth.phdr.caplen :=
  (C15_frame_octets hpux (handle_at sample_fddi_snap 0 false) 0 none (by decide)).2.1
    (by decide)

/-- C19: with FDDI reconstruction, a captured length `n ≥ 18` and at least `n`
octets `s` remaining in the stream, `nettl_read_rec_data` succeeds, consumes
exactly `n` octets and leaves `*err` alone; when octet 13 of `s` is the SNAP
marker 0xAA it delivers the first 15 octets followed by the octets 18 to `n`
(the 3 octets from 15 on are discarded), otherwise it delivers the first `n`
octets unchanged.  When fewer than `n` octets remain it fails, and on a stream
whose source reports no error the code is `WTAP_ERR_SHORT_READ`. -/
theorem C19_fddi_reconstruction (K : Consts) (fh : FILE_T) (n : Int) (err : Int)
    (hn : 18 ≤ n) :
    (n.toNat ≤ fh.data.length - fh.pos →
        (nettl_read_rec_data K fh n err true).ok = true
        ∧ (nettl_read_rec_data K fh n err true).fh.pos = fh.pos + n.toNat
        ∧ (nettl_read_rec_data K fh n err true).fh.data = fh.data
        ∧ (nettl_read_rec_data K fh n err true).err = err
        ∧ (octet (fh.data.drop fh.pos) 13 = 0xAA →
            (nettl_read_rec_data K fh n err true).pd
              = (fh.data.drop fh.pos).take 15
                  ++ ((fh.data.drop fh.pos).drop 18).take (n.toNat - 18))
        ∧ (octet (fh.data.drop fh.pos) 13 ≠ 0xAA →
            (nettl_read_rec_data K fh n err true).pd = (fh.data.drop fh.pos).take n.toNat))
    ∧ (fh.data.length - fh.pos < n.toNat →
        (nettl_read_rec_data K fh n err true).ok = false
        ∧ (fh.error = 0 →
            (nettl_read_rec_data K fh n err true).err = K.WTAP_ERR_SHORT_READ)) := by
  have ho := octet_file_read 15 fh 13 (by decide)
  constructor
  · intro h
    have h15 : (file_read 15 fh).1.length = 15 :=
      file_read_full 15 fh (by norm_num) (by simp; omega)
    have e15 := file_read_snd_full 15 fh (by omega)
    have f15 := file_read_fst 15 fh (by norm_num)
    simp only [Nat.cast_ofNat] at e15
    have h3 : (file_read 3 ⟨fh.data, fh.pos + 15, fh.error⟩).1.length = 3 :=
      file_read_full 3 _ (by norm_num) (by simp; omega)
    have e3 := file_read_snd_full 3 ⟨fh.data, fh.pos + 15, fh.error⟩
      (by simp only; omega)
    simp only [Nat.cast_ofNat] at e3
    have hb18 : (file_read (n - 18) ⟨fh.data, fh.pos + 15 + 3, fh.error⟩).1.length
        = (n - 18).toNat :=
      file_read_full (n - 18) _ (by omega) (by simp only; omega)
    have eb18 : (file_read (n - 18) ⟨fh.data, fh.pos + 15 + 3, fh.error⟩).2
        = ⟨fh.data, fh.pos + 15 + 3 + (n - 18).toNat, fh.error⟩ := by
      have := file_read_snd_full (n - 18).toNat ⟨fh.data, fh.pos + 15 + 3, fh.error⟩
        (by simp only; omega)
      rwa [Int.toNat_of_nonneg (by omega)] at this
    have fb18 := file_read_fst (n - 18) ⟨fh.data, fh.pos + 15 + 3, fh.error⟩ (by omega)
    have hb15 : (file_read (n - 15) ⟨fh.data, fh.pos + 15, fh.error⟩).1.length
        = (n - 15).toNat :=
      file_read_full (n - 15) _ (by omega) (by simp only; omega)
    have eb15 : (file_read (n - 15) ⟨fh.data, fh.pos + 15, fh.error⟩).2
        = ⟨fh.data, fh.pos + 15 + (n - 15).toNat, fh.error⟩ := by
      have := file_read_snd_full (n - 15).toNat ⟨fh.data, fh.pos + 15, fh.error⟩
        (by simp only; omega)
      rwa [Int.toNat_of_nonneg (by omega)] at this
    have fb15 := file_read_fst (n - 15) ⟨fh.data, fh.pos + 15, fh.error⟩ (by omega)
    have c18 : (((n - 18).toNat : Nat) : Int) + 18 = n := by omega
    have c15 : (((n - 15).toNat : Nat) : Int) + 15 = n := by omega
    unfold nettl_read_rec_data rec_data_reads
    simp only [if_true, h15, e15, ho]
    by_cases hs : octet (fh.data.drop fh.pos) 13 = 0xAA
    · simp only [hs, if_true, h3, e3, hb18, eb18, c18, ne_eq, not_true_eq_false, if_false]
      refine ⟨trivial, by omega, trivial, trivial, fun _ => ?_, fun hc => False.elim hc⟩
      simp only [f15, fb18, List.drop_drop]
      show List.take 15 _ ++ _ = _
      have e1 : (n - 18).toNat = n.toNat - 18 := by omega
      rw [e1, Nat.add_assoc, Nat.add_comm fh.pos]
    · simp only [hs, if_false, hb15, eb15, c15, ne_eq, not_true_eq_false]
      refine ⟨trivial, by omega, trivial, trivial, fun hc => False.elim hc, fun _ => ?_⟩
      simp only [f15, fb15]
      show List.take 15 _ ++ _ = _
      have e1 : (n - 15).toNat = n.toNat - 15 := by omega
      have e2 : n.toNat = 15 + (n.toNat - 15) := by omega
      rw [e1]
      conv_rhs => rw [e2, List.take_add]
      simp only [List.drop_drop]
  · intro h
    have hfail : (rec_data_reads fh n true).1 ≠ n
        ∧ (rec_data_reads fh n true).2.2.error = fh.error := by
      unfold rec_data_reads
      simp only [if_true]
      split_ifs with ha hb hc
      · have hle := file_read_length (n - 18) (file_read 3 (file_read 15 fh).2).2 (by omega)
        have l15 := file_read_length 15 fh (by norm_num)
        have l3 := file_read_length 3 (file_read 15 fh).2 (by norm_num)
        simp only [file_read_snd_pos, file_read_snd_data] at hle l3
        refine ⟨?_, rfl⟩
        simp only [ne_eq]
        rw [hle]
        simp only [ha, hc, l15, l3] at *
        omega
      · exact ⟨by omega, rfl⟩
      · have hle := file_read_length (n - 15) (file_read 15 fh).2 (by omega)
        have l15 := file_read_length 15 fh (by norm_num)
        simp only [file_read_snd_pos, file_read_snd_data] at hle
        refine ⟨?_, rfl⟩
        simp only [ne_eq]
        rw [hle]
        simp only [ha, l15] at *
        omega
      · exact ⟨by omega, rfl⟩
    unfold nettl_read_rec_data
    simp only [hfail.1, ne_eq, not_false_eq_true, if_true, file_error, hfail.2]
    refine ⟨trivial, fun h0 => ?_⟩
    simp [h0]

/-- C19 at a 20-octet frame with the SNAP marker: a read of 20 octets delivers
the first 15 octets and the last 2, and a read of 21 octets is a short read. -/
theorem C19_fddi_reconstruction_witness :
    ((18 : Int) ≤ 20 ∧ (18 : Int) ≤ 21)
    ∧ (nettl_read_rec_data hpux (stream_of sample_snap_frame) 20 0 true).ok = true
    ∧ (nettl_read_rec_data hpux (stream_of sample_snap_frame) 20 0 true).fh.pos = 20
    ∧ (nettl_read_rec_data hpux (stream_of sample_snap_frame) 20 0 true).pd
        = [0x50, 1, 2, 3, 4, 5, 6, 7, 8, 9, 10, 11, 12, 0xAA, 0xAA, 0x08, 0x00]
    ∧ (nettl_read_rec_data hpux (stream_of sample_snap_frame) 21 0 true).ok = false
    ∧ (nettl_read_rec_data hpux (stream_of sample_snap_frame) 21 0 true).err
        = hpux.WTAP_ERR_SHORT_READ :=
  ⟨⟨by decide, by decide⟩,
    ((C19_fddi_reconstruction hpux (stream_of sample_snap_frame) 20 0 (by decide)).1
      (by decide)).1,
    ((C19_fddi_reconstruction hpux (stream_of sample_snap_frame) 20 0 (by decide)).1
      (by decide)).2.1,
    ((C19_fddi_reconstruction hpux (stream_of sample_snap_frame) 20 0 (by decide)).1
      (by decide)).2.2.2.2.1 (by decide),
    ((C19_fddi_reconstruction hpux (stream_of sample_snap_frame) 21 0 (by decide)).2
      (by decide)).1,
    ((C19_fddi_reconstruction hpux (stream_of sample_snap_frame) 21 0 (by decide)).2
      (by decide)).2 rfl⟩

/-- C16 fails as stated: on a stream that holds 5 octets and whose source
reports no error, `nettl_open` returns 0 (not this format) with no error code,
not an error. -/
theorem C16_counterexample :
    (handle_at [0x54, 0x52, 0x00, 0x64, 0x00] 0 false).fh.error = 0
    ∧ (handle_at [0x54, 0x52, 0x00, 0x64, 0x00] 0 false).fh.data.length = 5
    ∧ (nettl_open hpux (handle_at [0x54, 0x52, 0x00, 0x64, 0x00] 0 false) 0).ret = 0
    ∧ (nettl_open hpux (handle_at [0x54, 0x52, 0x00, 0x64, 0x00] 0 false) 0).err = 0 := by
  decide

/-- C16 as amended: when fewer than 12 octets (none, or between 1 and 11) are
available for the magic read, `nettl_open` returns 0 (not this format) with
error code 0 on a stream whose source reports no error, and returns `-1` with
the error of the source when it reports one. -/
theorem C16_open_short_magic (K : Consts) (wth : wtap) (err : Int)
    (h : wth.fh.data.length - wth.fh.pos < 12) :
    (wth.fh.error = 0 →
        (nettl_open K wth err).ret = 0 ∧ (nettl_open K wth err).err = 0)
    ∧ (wth.fh.error ≠ 0 →
        (nettl_open K wth err).ret = -1 ∧ (nettl_open K wth err).err = wth.fh.error) := by
  have hl := file_read_short_length 12 wth.fh h
  simp only [Nat.cast_ofNat] at hl
  have hne : (file_read 12 wth.fh).1.length ≠ 12 := by rw [hl]; omega
  unfold nettl_open
  simp only [hne, ne_eq, not_false_eq_true, if_true, file_error, file_read_snd_error]
  constructor
  · intro h0
    simp [h0]
  · intro h0
    simp [h0]

theorem C16_open_short_magic_witness :
    (nettl_open hpux (handle_at [0x54, 0x52, 0x00, 0x64, 0x00] 0 false) 0).ret = 0
    ∧ (nettl_open hpux (handle_at [0x54, 0x52, 0x00, 0x64, 0x00] 0 false) 0).err = 0 :=
  (C16_open_short_magic hpux (handle_at [0x54, 0x52, 0x00, 0x64, 0x00] 0 false) 0
    (by decide)).1 (by decide)

/-- C17 at its failing input: an X.25 record whose captured-length field
(header octets 64..65) holds 60 and whose original-length field (octets 66..67)
holds 70 decodes successfully with captured length 70, the value of the
original-length field. -/
theorem C17_lapb_caplen_from_length :
    pntohs sample_lapb_short_cap.data (4 + lapb_caplen) = 60
    ∧ pntohs sample_lapb_short_cap.data (4 + lapb_length) = 70
    ∧ (nettl_read_rec_header hpux false sample_lapb_short_cap phdr_init (.other 0) 0 none
        false).ret = 88
    ∧ (nettl_read_rec_header hpux false sample_lapb_short_cap phdr_init (.other 0) 0 none
        false).phdr.caplen = 70
    ∧ (nettl_read_rec_header hpux false sample_lapb_short_cap phdr_init (.other 0) 0 none
        false).phdr.len = 70 := by
  decide

/-- What `nettl_read_rec_header` stores besides the lengths on a complete
header whose 16-bit original length is not zero: the link type of the
subsystem, the time stamp of the family header, the pseudo-header (Ethernet
without FCS, the X.25 direction flag, or what it held before), and the FDDI
flag, set for an inbound HPPB FDDI record and otherwise left as passed in. -/
theorem header_record (K : Consts) (hK : K.Distinct) (s : Subsys) (is_hpux_11 : Bool)
    (fh : FILE_T) (phdr : wtap_pkthdr) (ph : wtap_pseudo_header) (err : Int)
    (err_info : Option String) (fddihack : Bool)
    (hcode : octet (fh.data.drop fh.pos) 3 = K.NETTL_SUBSYS s)
    (hcomplete : fh.pos + (spec_base_size is_hpux_11 s
        + spec_quirk_size K is_hpux_11 s (fh.data.drop fh.pos)) ≤ fh.data.length)
    (hne : spec_original_length is_hpux_11 s (fh.data.drop fh.pos) % 65536 ≠ 0) :
    (nettl_read_rec_header K is_hpux_11 fh phdr ph err err_info fddihack).phdr.pkt_encap
        = spec_link_type s
    ∧ (nettl_read_rec_header K is_hpux_11 fh phdr ph err err_info fddihack).phdr.tv_sec
        = pntohl (fh.data.drop fh.pos) (4 + (if s = .SX25L2 then lapb_sec else ip_sec))
    ∧ (nettl_read_rec_header K is_hpux_11 fh phdr ph err err_info fddihack).phdr.tv_usec
        = pntohl (fh.data.drop fh.pos) (4 + (if s = .SX25L2 then lapb_usec else ip_usec))
    ∧ (nettl_read_rec_header K is_hpux_11 fh phdr ph err err_info fddihack).pseudo_header
        = (if s = .SX25L2 then
            .x25 (if octet (fh.data.drop fh.pos) (4 + lapb_from_dce) &&& 0x20 ≠ 0
                  then K.FROM_DCE else 0)
           else if spec_link_type s = WTAP_ENCAP_ETHERNET then .eth 0 else ph)
    ∧ (nettl_read_rec_header K is_hpux_11 fh phdr ph err err_info fddihack).fddihack
        = (fddihack
            || decide (s = .HPPB_FDDI
                ∧ octet (fh.data.drop fh.pos) (4 + ip_rectype) = K.NETTL_HDR_PDUIN)) := by
  have hb : 64 ≤ spec_base_size is_hpux_11 s := by
    unfold spec_base_size sizeof_ip_hdr sizeof_lapb_hdr
    split_ifs <;> omega
  have hpos : 0 < (nettl_read_rec_header K is_hpux_11 fh phdr ph err err_info fddihack).ret := by
    rw [(header_value K hK s is_hpux_11 fh phdr ph err err_info fddihack hcode hcomplete).1,
      if_neg hne]
    positivity
  rw [header_dispatch K hK s is_hpux_11 fh phdr ph err err_info fddihack (by omega) hcode]
    at hpos ⊢
  have hsec := pntohl_read_at fh.data fh.pos 4 fh.error 60 ip_sec (by simp [ip_sec])
  have husec := pntohl_read_at fh.data fh.pos 4 fh.error 60 ip_usec (by simp [ip_usec])
  have hrec := octet_read_at fh.data fh.pos 4 fh.error 60 ip_rectype (by simp [ip_rectype])
  simp only [Nat.cast_ofNat] at hsec husec hrec
  by_cases hd : s = .NS_LS_DRIVER
  · subst hd
    rw [if_pos rfl] at hpos ⊢
    simp only [spec_base_size, spec_quirk_size, spec_original_length, sizeof_ip_hdr_eq,
      sizeof_drv_eth_hdr_eq, reduceCtorEq, if_false] at hcomplete hne
    have hv := driver_case_value K is_hpux_11
      ⟨0, err, err_info, phdr, ph, fddihack, ⟨fh.data, fh.pos + 4, fh.error⟩, false⟩
      (by simp only; omega)
    simp only [hsec, husec] at hv
    have hne' : pntohs (fh.data.drop (fh.pos + 4 + 60 + (if is_hpux_11 = true then 4 else 0)))
        drv_length % 65536 ≠ 0 := by
      intro h0
      rw [hv.1, if_pos h0] at hpos
      exact absurd hpos (lt_irrefl _)
    have h1 := hv.2.1 hne'
    have h2 := driver_case_pseudo K is_hpux_11 _ hpos
    refine ⟨h2.1, h1.2.2.1, h1.2.2.2, ?_, ?_⟩
    · rw [h2.2]; simp [spec_link_type]
    · rw [hv.2.2]; simp
  · by_cases hx : s = .SX25L2
    · subst hx
      rw [if_neg hd, if_pos rfl] at hpos ⊢
      simp only [spec_base_size, spec_quirk_size, sizeof_lapb_hdr_eq, if_true] at hcomplete
      have hv := lapb_case_value K is_hpux_11
        ⟨0, err, err_info, phdr, ph, fddihack, ⟨fh.data, fh.pos + 4, fh.error⟩, false⟩
        (by simp only; omega)
      have hs1 := pntohl_read_at fh.data fh.pos 4 fh.error 84 lapb_sec (by simp [lapb_sec])
      have hs2 := pntohl_read_at fh.data fh.pos 4 fh.error 84 lapb_usec
        (by simp [lapb_usec])
      have hs3 := octet_read_at fh.data fh.pos 4 fh.error 84 lapb_from_dce
        (by simp [lapb_from_dce])
      simp only [Nat.cast_ofNat] at hs1 hs2 hs3
      simp only [hs1, hs2, hs3] at hv
      have hne' : pntohs (file_read 84 ⟨fh.data, fh.pos + 4, fh.error⟩).1 lapb_length
          % 65536 ≠ 0 := by
        intro h0
        rw [hv.1, if_pos h0] at hpos
        exact absurd hpos (lt_irrefl _)
      have h1 := hv.2.1 hne'
      refine ⟨lapb_case_encap K is_hpux_11 _ hpos, ?_, ?_, ?_, ?_⟩
      · rw [h1.2.2.1, if_pos rfl]
      · rw [h1.2.2.2.1, if_pos rfl]
      · rw [h1.2.2.2.2, if_pos rfl]
      · rw [hv.2.2]; simp
    · rw [if_neg hd, if_neg hx] at hpos ⊢
      have hs : s ≠ .NS_LS_DRIVER ∧ s ≠ .SX25L2 := ⟨hd, hx⟩
      rw [spec_quirk_size_lan K is_hpux_11 s hs] at hcomplete
      have hbase : spec_base_size is_hpux_11 s
          = 4 + 60 + (if is_hpux_11 = true then 4 else 0) := by
        simp [spec_base_size, sizeof_ip_hdr, hx]
      have hpad := lan_pad_eq_spec_at K s hs is_hpux_11 fh
      have hv := lan_case_value K hK s hs is_hpux_11
        ⟨0, err, err_info, phdr, ph, fddihack, ⟨fh.data, fh.pos + 4, fh.error⟩, false⟩
        (by simp only [hpad]; rw [hbase] at hcomplete; omega)
      simp only [hsec, husec, hrec] at hv
      have hne' : pntohl (file_read 60 ⟨fh.data, fh.pos + 4, fh.error⟩).1 ip_length
          % 65536 ≠ 0 := by
        intro h0
        rw [hv.1, if_pos h0] at hpos
        exact absurd hpos (lt_irrefl _)
      have h1 := hv.2.1 hne'
      have h2 := lan_case_pkt_encap K is_hpux_11 (K.NETTL_SUBSYS s)
        ⟨0, err, err_info, phdr, ph, fddihack, ⟨fh.data, fh.pos + 4, fh.error⟩, false⟩
      have h3 := lan_pkt_encap_spec K hK s hs
        ⟨0, err, err_info, phdr, ph, fddihack, ⟨fh.data, fh.pos + 4, fh.error⟩, false⟩
      refine ⟨h2.1.trans h3.1, ?_, ?_, ?_, hv.2.2⟩
      · rw [h1.2.2.1, if_neg hx]
      · rw [h1.2.2.2, if_neg hx]
      · rw [h2.2, h3.2, if_neg hx]

/-- C24: for every NS_LS_DRIVER record with a complete header and sub-header
and a non-zero original length in the sub-header, `nettl_read_rec_header`
reports Ethernet with an FCS length of 0, stores as captured and original
length the big-endian 16-bit values of the sub-header octets 4..5 and 6..7
without adjustment, takes the time stamp from the octets 36..43 of the generic
header that leads the record, and returns the number of octets it consumed: 88
in the older generation and 92 in the newer. -/
theorem C24_driver_record (K : Consts) (hK : K.Distinct) (is_hpux_11 : Bool)
    (fh : FILE_T) (phdr : wtap_pkthdr) (ph : wtap_pseudo_header) (err : Int)
    (err_info : Option String) (fddihack : Bool)
    (hcode : octet (fh.data.drop fh.pos) 3 = K.NETTL_SUBSYS .NS_LS_DRIVER)
    (hcomplete : fh.pos + (spec_base_size is_hpux_11 .NS_LS_DRIVER + 24) ≤ fh.data.length)
    (hne : pntohs (fh.data.drop fh.pos) (spec_base_size is_hpux_11 .NS_LS_DRIVER + 6) ≠ 0) :
    (nettl_read_rec_header K is_hpux_11 fh phdr ph err err_info fddihack).phdr.pkt_encap
        = WTAP_ENCAP_ETHERNET
    ∧ (nettl_read_rec_header K is_hpux_11 fh phdr ph err err_info fddihack).pseudo_header
        = .eth 0
    ∧ (nettl_read_rec_header K is_hpux_11 fh phdr ph err err_info fddihack).phdr.caplen
        = pntohs (fh.data.drop fh.pos) (spec_base_size is_hpux_11 .NS_LS_DRIVER + 4)
    ∧ (nettl_read_rec_header K is_hpux_11 fh phdr ph err err_info fddihack).phdr.len
        = pntohs (fh.data.drop fh.pos) (spec_base_size is_hpux_11 .NS_LS_DRIVER + 6)
    ∧ (nettl_read_rec_header K is_hpux_11 fh phdr ph err err_info fddihack).phdr.tv_sec
        = pntohl (fh.data.drop fh.pos) (4 + 36)
    ∧ (nettl_read_rec_header K is_hpux_11 fh phdr ph err err_info fddihack).phdr.tv_usec
        = pntohl (fh.data.drop fh.pos) (4 + 40)
    ∧ (nettl_read_rec_header K is_hpux_11 fh phdr ph err err_info fddihack).ret
        = (if is_hpux_11 = true then 92 else 88)
    ∧ (nettl_read_rec_header K is_hpux_11 fh phdr ph err err_info fddihack).fh.pos
        = fh.pos + (if is_hpux_11 = true then 92 else 88) := by
  have hq : spec_quirk_size K is_hpux_11 .NS_LS_DRIVER (fh.data.drop fh.pos) = 24 := rfl
  have hol : spec_original_length is_hpux_11 .NS_LS_DRIVER (fh.data.drop fh.pos)
      = pntohs (fh.data.drop fh.pos) (spec_base_size is_hpux_11 .NS_LS_DRIVER + 6) := rfl
  have hcl : spec_captured_length is_hpux_11 .NS_LS_DRIVER (fh.data.drop fh.pos)
      = pntohs (fh.data.drop fh.pos) (spec_base_size is_hpux_11 .NS_LS_DRIVER + 4) := rfl
  have hp : spec_pad K is_hpux_11 .NS_LS_DRIVER (fh.data.drop fh.pos) = 0 := rfl
  have hm1 := Nat.mod_eq_of_lt
    (pntohs_lt (fh.data.drop fh.pos) (spec_base_size is_hpux_11 .NS_LS_DRIVER + 6))
  have hm2 := Nat.mod_eq_of_lt
    (pntohs_lt (fh.data.drop fh.pos) (spec_base_size is_hpux_11 .NS_LS_DRIVER + 4))
  have hne' : spec_original_length is_hpux_11 .NS_LS_DRIVER (fh.data.drop fh.pos) % 65536
      ≠ 0 := by
    rw [hol, hm1]; exact hne
  have hv := header_value K hK .NS_LS_DRIVER is_hpux_11 fh phdr ph err err_info fddihack
    hcode (by rw [hq]; exact hcomplete)
  have hr := header_record K hK .NS_LS_DRIVER is_hpux_11 fh phdr ph err err_info fddihack
    hcode (by rw [hq]; exact hcomplete) hne'
  have hret := hv.1
  rw [if_neg hne', hq] at hret
  obtain ⟨h1, h2⟩ := hv.2 hne'
  rw [hp, hol, toUInt32_sub_zero_mod16, hm1] at h1
  rw [hp, if_neg (by decide), hcl, toUInt32_sub_zero_mod16, hm2] at h2
  have hbase : spec_base_size is_hpux_11 .NS_LS_DRIVER
      = 64 + (if is_hpux_11 = true then 4 else 0) := by
    simp [spec_base_size, sizeof_ip_hdr]
  have hret' : (nettl_read_rec_header K is_hpux_11 fh phdr ph err err_info fddihack).ret
      = (if is_hpux_11 = true then 92 else 88) := by
    rw [hret, hbase]
    cases is_hpux_11 <;> simp
  have hsucc := header_success K is_hpux_11 fh phdr ph err err_info fddihack
    (by rw [hret']; split_ifs <;> norm_num)
  refine ⟨hr.1, ?_, h2, h1, ?_, ?_, hret', ?_⟩
  · rw [hr.2.2.2.1]; simp [spec_link_type]
  · rw [hr.2.1]; simp [ip_sec]
  · rw [hr.2.2.1]; simp [ip_usec]
  · have := hsucc.2.2.1
    rw [hret'] at this
    cases is_hpux_11 <;> simp at this ⊢ <;> omega

/-- C24 at an older-generation driver record whose sub-header holds captured
length 60 and original length 70. -/
theorem C24_driver_record_witness :
    (nettl_read_rec_header hpux false sample_driver phdr_init (.other 0) 0 none
        false).phdr.pkt_encap = WTAP_ENCAP_ETHERNET
    ∧ (nettl_read_rec_header hpux false sample_driver phdr_init (.other 0) 0 none
        false).phdr.caplen = 60
    ∧ (nettl_read_rec_header hpux false sample_driver phdr_init (.other 0) 0 none
        false).phdr.len = 70
    ∧ (nettl_read_rec_header hpux false sample_driver phdr_init (.other 0) 0 none
        false).phdr.tv_sec = 7
    ∧ (nettl_read_rec_header hpux false sample_driver phdr_init (.other 0) 0 none
        false).ret = 88 :=
  have h := C24_driver_record hpux hpux_distinct false sample_driver phdr_init (.other 0) 0
    none false (by decide) (by decide) (by decide)
  ⟨h.1, h.2.2.1.trans (by decide), h.2.2.2.1.trans (by decide),
    h.2.2.2.2.1.trans (by decide), h.2.2.2.2.2.2.1.trans (by decide)⟩

/-- C26: when the header decode inside `nettl_read` fails or reports the end
of the stream (a return value of 0 or less, whatever the cause), `nettl_read`
returns FALSE and the cursor `data_offset` and the file-wide encapsulation of
the handle are what they were before the call; and `nettl_seek_read`, whatever
its outcome, leaves the cursor, the file-wide encapsulation and the sequential
stream of the handle as they were. -/
theorem C26_frame_of_failed_read (K : Consts) (wth : wtap) (err : Int)
    (err_info : Option String) (seek_off : Int) (ph : wtap_pseudo_header)
    (pd : List guint8) (length : Int) (phdr0 : wtap_pkthdr) :
    ((nettl_read_header K wth err err_info).ret ≤ 0 →
        (nettl_read K wth err err_info).ok = false
        ∧ (nettl_read K wth err err_info).wth.data_offset = wth.data_offset
        ∧ (nettl_read K wth err err_info).wth.file_encap = wth.file_encap)
    ∧ (nettl_seek_read K wth seek_off ph pd length err err_info phdr0).wth.data_offset
        = wth.data_offset
    ∧ (nettl_seek_read K wth seek_off ph pd length err err_info phdr0).wth.file_encap
        = wth.file_encap
    ∧ (nettl_seek_read K wth seek_off ph pd length err err_info phdr0).wth.fh = wth.fh := by
  refine ⟨fun h => ?_, ?_, ?_, ?_⟩
  · unfold nettl_read_header at h
    unfold nettl_read
    simp only [h, if_true]
    exact ⟨trivial, trivial, trivial⟩
  all_goals
    unfold nettl_seek_read
    simp only []
    split_ifs <;> rfl

/-- C26 on a handle that has read the three sample records and stands at the
end of the data with a mixed encapsulation: a further `nettl_read` fails and
leaves the cursor at 222 and the encapsulation mixed. -/
theorem C26_frame_of_failed_read_witness :
    (nettl_read_header hpux
        (nettl_read_seq hpux (handle_at sample_three_records 0 false)
          [(0, none), (0, none), (0, none)]) 0 none).ret ≤ 0
    ∧ (nettl_read hpux
        (nettl_read_seq hpux (handle_at sample_three_records 0 false)
          [(0, none), (0, none), (0, none)]) 0 none).ok = false
    ∧ (nettl_read hpux
        (nettl_read_seq hpux (handle_at sample_three_records 0 false)
          [(0, none), (0, none), (0, none)]) 0 none).wth.data_offset = 222
    ∧ (nettl_read hpux
        (nettl_read_seq hpux (handle_at sample_three_records 0 false)
          [(0, none), (0, none), (0, none)]) 0 none).wth.file_encap
        = WTAP_ENCAP_PER_PACKET :=
  have h := (C26_frame_of_failed_read hpux
    (nettl_read_seq hpux (handle_at sample_three_records 0 false)
      [(0, none), (0, none), (0, none)]) 0 none 0 (.other 0) [] 0 phdr_init).1 (by decide)
  ⟨by decide, h.1, h.2.1.trans (by decide), h.2.2.trans (by decide)⟩

theorem octet_append_left (a b : List guint8) (i : Nat) (h : i < a.length) :
    octet (a ++ b) i = octet a i := by
  simp [octet, List.getD_eq_getElem?_getD, List.getElem?_append_left h]

theorem octet_append_right (a b : List guint8) (i : Nat) :
    octet (a ++ b) (a.length + i) = octet b i := by
  simp [octet, List.getD_eq_getElem?_getD, List.getElem?_append_right]

/-- The octets of a list with `x` inserted after its first `k` octets: those
before the insertion are unchanged, those after it have moved up by the length
of `x`. -/
theorem octet_insert (l x : List guint8) (k : Nat) (hk : k ≤ l.length) :
    (∀ i, i < k → octet (l.take k ++ x ++ l.drop k) i = octet l i)
    ∧ (∀ j, octet (l.take k ++ x ++ l.drop k) (k + x.length + j) = octet l (k + j)) := by
  have hlen : (l.take k).length = k := by simp [hk]
  constructor
  · intro i hi
    rw [List.append_assoc, octet_append_left _ _ _ (by rw [hlen]; exact hi),
      octet_take _ _ _ hi]
  · intro j
    have e : k + x.length + j = (l.take k ++ x).length + j := by
      simp [hlen]
    rw [e, octet_append_right, octet_drop]

theorem pntohs_insert (l x : List guint8) (k : Nat) (hk : k ≤ l.length) :
    (∀ i, i + 1 < k → pntohs (l.take k ++ x ++ l.drop k) i = pntohs l i)
    ∧ (∀ j, pntohs (l.take k ++ x ++ l.drop k) (k + x.length + j) = pntohs l (k + j)) := by
  obtain ⟨h1, h2⟩ := octet_insert l x k hk
  constructor
  · intro i hi
    unfold pntohs
    rw [h1 i (by omega), h1 (i + 1) hi]
  · intro j
    unfold pntohs
    rw [h2 j, show k + x.length + j + 1 = k + x.length + (j + 1) from by omega, h2 (j + 1)]
    rfl

theorem pntohl_insert (l x : List guint8) (k : Nat) (hk : k ≤ l.length) :
    ∀ i, i + 3 < k → pntohl (l.take k ++ x ++ l.drop k) i = pntohl l i := by
  obtain ⟨h1, _⟩ := octet_insert l x k hk
  intro i hi
  unfold pntohl
  rw [h1 i (by omega), h1 (i + 1) (by omega), h1 (i + 2) (by omega), h1 (i + 3) hi]

/-- The octets from the position on of a stream with `x` inserted `k` octets
after the position. -/
theorem drop_insert (d x : List guint8) (p k : Nat) (hp : p ≤ d.length) :
    (d.take (p + k) ++ x ++ d.drop (p + k)).drop p
      = (d.drop p).take k ++ x ++ (d.drop p).drop k := by
  have h1 : p ≤ (d.take (p + k)).length := by simp; omega
  rw [List.append_assoc, List.drop_append_of_le_length h1, List.drop_take,
    List.drop_drop, List.append_assoc]
  simp [Nat.add_comm]

/-- The fields the decoder of the newer generation finds in a record with four
octets inserted after the family header are the fields the decoder of the
older generation finds in the record without them. -/
theorem spec_fields_insert (K : Consts) (s : Subsys) (l x : List guint8)
    (hx : x.length = 4) (hl : spec_base_size false s ≤ l.length) :
    (∀ i, i < spec_base_size false s →
        octet (l.take (spec_base_size false s) ++ x ++ l.drop (spec_base_size false s)) i
          = octet l i)
    ∧ (∀ i, i + 3 < spec_base_size false s →
        pntohl (l.take (spec_base_size false s) ++ x ++ l.drop (spec_base_size false s)) i
          = pntohl l i)
    ∧ spec_quirk_size K true s
          (l.take (spec_base_size false s) ++ x ++ l.drop (spec_base_size false s))
        = spec_quirk_size K false s l
    ∧ spec_pad K true s
          (l.take (spec_base_size false s) ++ x ++ l.drop (spec_base_size false s))
        = spec_pad K false s l
    ∧ spec_original_length true s
          (l.take (spec_base_size false s) ++ x ++ l.drop (spec_base_size false s))
        = spec_original_length false s l
    ∧ spec_captured_length true s
          (l.take (spec_base_size false s) ++ x ++ l.drop (spec_base_size false s))
        = spec_captured_length false s l := by
  obtain ⟨o1, o2⟩ := octet_insert l x (spec_base_size false s) hl
  obtain ⟨s1, s2⟩ := pntohs_insert l x (spec_base_size false s) hl
  have l1 := pntohl_insert l x (spec_base_size false s) hl
  refine ⟨o1, l1, ?_⟩
  rw [hx] at o2 s2
  by_cases hxs : s = .SX25L2
  · subst hxs
    have hb : spec_base_size false .SX25L2 = 88 := rfl
    rw [hb] at s1 ⊢
    refine ⟨rfl, rfl, ?_, ?_⟩
    · exact s1 (4 + lapb_length) (by simp [lapb_length])
    · exact s1 (4 + lapb_caplen) (by simp [lapb_caplen])
  · have hb : spec_base_size false s = 64 := by
      simp [spec_base_size, sizeof_ip_hdr, hxs]
    have hb' : spec_base_size true s = 68 := by
      simp [spec_base_size, sizeof_ip_hdr, hxs]
    rw [hb] at o1 o2 s2 l1 ⊢
    have a1 := o1 (4 + ip_rectype) (by simp [ip_rectype])
    have a2 := o2 8
    have a3 := s2 drv_length
    have a4 := s2 drv_caplen
    have a5 := l1 (4 + ip_length) (by simp [ip_length])
    have a6 := l1 (4 + ip_caplen) (by simp [ip_caplen])
    simp only [Nat.reduceAdd] at a2
    cases s <;>
      first
      | exact absurd rfl hxs
      | simp only [spec_quirk_size, spec_pad, spec_original_length, spec_captured_length,
          hb, hb', a1, a2, a3, a4, a5, a6, Nat.reduceAdd, and_self]

theorem wtap_pkthdr_eq (a b : wtap_pkthdr) (h1 : a.tv_sec = b.tv_sec)
    (h2 : a.tv_usec = b.tv_usec) (h3 : a.caplen = b.caplen) (h4 : a.len = b.len)
    (h5 : a.pkt_encap = b.pkt_encap) : a = b := by
  cases a; cases b; simp_all

/-- C22: for every record the decoder of the older generation decodes
successfully, consuming `h` header octets: with any four octets inserted right
after the family header (60 octets after the prefix, 84 for SX25L2), the decoder
of the newer generation succeeds, stores the same packet header (link type,
lengths, time stamp), the same pseudo-header and the same FDDI flag, returns
`h + 4`, and leaves the stream advanced by `h + 4` octets. -/
theorem C22_generation_extra_field (K : Consts) (hK : K.Distinct) (fh : FILE_T)
    (phdr : wtap_pkthdr) (ph : wtap_pseudo_header) (err : Int)
    (err_info : Option String) (fddihack : Bool) (x : List guint8)
    (hx : x.length = 4)
    (h : 0 < (nettl_read_rec_header K false fh phdr ph err err_info fddihack).ret) :
    (nettl_read_rec_header K true (spec_insert_extra K fh x) phdr ph err err_info
        fddihack).ret
      = (nettl_read_rec_header K false fh phdr ph err err_info fddihack).ret + 4
    ∧ (nettl_read_rec_header K true (spec_insert_extra K fh x) phdr ph err err_info
        fddihack).phdr
      = (nettl_read_rec_header K false fh phdr ph err err_info fddihack).phdr
    ∧ (nettl_read_rec_header K true (spec_insert_extra K fh x) phdr ph err err_info
        fddihack).pseudo_header
      = (nettl_read_rec_header K false fh phdr ph err err_info fddihack).pseudo_header
    ∧ (nettl_read_rec_header K true (spec_insert_extra K fh x) phdr ph err err_info
        fddihack).fddihack
      = (nettl_read_rec_header K false fh phdr ph err err_info fddihack).fddihack
    ∧ ((nettl_read_rec_header K true (spec_insert_extra K fh x) phdr ph err err_info
        fddihack).fh.pos : Int)
      = fh.pos + (nettl_read_rec_header K false fh phdr ph err err_info fddihack).ret
          + 4 := by
  obtain ⟨s, hcode, hcomplete⟩ := header_inv K hK false fh phdr ph err err_info fddihack h
  have hv := header_value K hK s false fh phdr ph err err_info fddihack hcode hcomplete
  have hne : spec_original_length false s (fh.data.drop fh.pos) % 65536 ≠ 0 := by
    intro h0
    rw [hv.1, if_pos h0] at h
    exact absurd h (lt_irrefl _)
  have hr := header_record K hK s false fh phdr ph err err_info fddihack hcode hcomplete hne
  -- the stream with the four octets inserted
  have hkey : (octet (fh.data.drop fh.pos) 3 = K.NETTL_SUBSYS .SX25L2) ↔ s = .SX25L2 := by
    rw [hcode]; exact hK.eq_iff
  have hbase : fh.pos + 4
      + (if octet (fh.data.drop fh.pos) 3 = K.NETTL_SUBSYS .SX25L2
         then sizeof_lapb_hdr else sizeof_ip_hdr)
      = fh.pos + spec_base_size false s := by
    simp only [hkey, spec_base_size, Bool.false_eq_true, if_false]
    omega
  have hl : spec_base_size false s ≤ (fh.data.drop fh.pos).length := by
    simp only [List.length_drop]; omega
  have hdata : (spec_insert_extra K fh x).data
      = fh.data.take (fh.pos + spec_base_size false s) ++ x
          ++ fh.data.drop (fh.pos + spec_base_size false s) := by
    unfold spec_insert_extra
    simp only [hbase]
  have hpos : (spec_insert_extra K fh x).pos = fh.pos := rfl
  have hdrop : (spec_insert_extra K fh x).data.drop (spec_insert_extra K fh x).pos
      = (fh.data.drop fh.pos).take (spec_base_size false s) ++ x
          ++ (fh.data.drop fh.pos).drop (spec_base_size false s) := by
    rw [hdata, hpos]
    exact drop_insert fh.data x fh.pos _ (by omega)
  have hlen : (spec_insert_extra K fh x).data.length = fh.data.length + 4 := by
    rw [hdata]
    simp only [List.length_append, List.length_take, List.length_drop, hx]
    omega
  obtain ⟨f1, f2, f3, f4, f5, f6⟩ :=
    spec_fields_insert K s (fh.data.drop fh.pos) x hx hl
  rw [← hdrop] at f1 f2 f3 f4 f5 f6
  have hb4 : 4 ≤ spec_base_size false s := by
    unfold spec_base_size; omega
  have hb64 : 64 ≤ spec_base_size false s := by
    unfold spec_base_size sizeof_ip_hdr sizeof_lapb_hdr
    split_ifs <;> omega
  have hbt : spec_base_size true s = spec_base_size false s + 4 := by
    simp [spec_base_size]
  have hcode' : octet ((spec_insert_extra K fh x).data.drop (spec_insert_extra K fh x).pos) 3
      = K.NETTL_SUBSYS s := by
    rw [f1 3 (by omega)]; exact hcode
  have hcomplete' : (spec_insert_extra K fh x).pos + (spec_base_size true s
      + spec_quirk_size K true s
          ((spec_insert_extra K fh x).data.drop (spec_insert_extra K fh x).pos))
      ≤ (spec_insert_extra K fh x).data.length := by
    rw [f3, hlen, hpos, hbt]; omega
  have hne' : spec_original_length true s
      ((spec_insert_extra K fh x).data.drop (spec_insert_extra K fh x).pos) % 65536 ≠ 0 := by
    rw [f5]; exact hne
  have hv' := header_value K hK s true (spec_insert_extra K fh x) phdr ph err err_info
    fddihack hcode' hcomplete'
  have hr' := header_record K hK s true (spec_insert_extra K fh x) phdr ph err err_info
    fddihack hcode' hcomplete' hne'
  rw [f3, f4, f5, f6] at hv'
  have hret := hv.1
  have hret' := hv'.1
  rw [if_neg hne] at hret hret'
  have hretn : (nettl_read_rec_header K true (spec_insert_extra K fh x) phdr ph err err_info
        fddihack).ret
      = (nettl_read_rec_header K false fh phdr ph err err_info fddihack).ret + 4 := by
    rw [hret, hret', hbt]
    push_cast
    ring
  have hsucc := header_success K true (spec_insert_extra K fh x) phdr ph err err_info
    fddihack (by rw [hretn]; omega)
  have hsec : ∀ i, i + 3 < 64 →
      pntohl ((spec_insert_extra K fh x).data.drop (spec_insert_extra K fh x).pos) i
        = pntohl (fh.data.drop fh.pos) i := fun i hi => f2 i (by omega)
  refine ⟨hretn, ?_, ?_, ?_, ?_⟩
  · obtain ⟨v1, v2⟩ := hv.2 hne
    obtain ⟨w1, w2⟩ := hv'.2 hne
    refine wtap_pkthdr_eq _ _ ?_ ?_ (w2.trans v2.symm) (w1.trans v1.symm)
      (hr'.1.trans hr.1.symm)
    · rw [hr'.2.1, hr.2.1]
      by_cases hxs : s = .SX25L2
      · subst hxs
        simp only [if_true]
        exact f2 _ (by simp [lapb_sec, spec_base_size, sizeof_lapb_hdr])
      · simp only [hxs, if_false]
        exact hsec _ (by simp [ip_sec])
    · rw [hr'.2.2.1, hr.2.2.1]
      by_cases hxs : s = .SX25L2
      · subst hxs
        simp only [if_true]
        exact f2 _ (by simp [lapb_usec, spec_base_size, sizeof_lapb_hdr])
      · simp only [hxs, if_false]
        exact hsec _ (by simp [ip_usec])
  · rw [hr'.2.2.2.1, hr.2.2.2.1, f1 (4 + lapb_from_dce) (by simp [lapb_from_dce]; omega)]
  · rw [hr'.2.2.2.2, hr.2.2.2.2, f1 (4 + ip_rectype) (by simp [ip_rectype]; omega)]
  · have := hsucc.2.2.1
    rw [hretn, hpos] at this
    rw [this]
    ring

/-- C22 at the older-generation outbound HPPB FDDI sample (75 header octets,
lengths 89): with four octets inserted after the generic header the decoder of
the newer generation returns 79 and stores the same packet header. -/
theorem C22_generation_extra_field_witness :
    (nettl_read_rec_header hpux true (spec_insert_extra hpux sample_hppb_out [1, 2, 3, 4])
        phdr_init (.other 0) 0 none false).ret = 79
    ∧ (nettl_read_rec_header hpux true (spec_insert_extra hpux sample_hppb_out [1, 2, 3, 4])
        phdr_init (.other 0) 0 none false).phdr
      = ⟨7, 8, 89, 89, WTAP_ENCAP_FDDI⟩
    ∧ (nettl_read_rec_header hpux true (spec_insert_extra hpux sample_hppb_out [1, 2, 3, 4])
        phdr_init (.other 0) 0 none false).fddihack = false :=
  have h := C22_generation_extra_field hpux hpux_distinct sample_hppb_out phdr_init
    (.other 0) 0 none false [1, 2, 3, 4] rfl (by decide)
  ⟨h.1.trans (by decide), h.2.1.trans (by decide), h.2.2.2.1.trans (by decide)⟩

set_option maxRecDepth 8000 in
/-- C1 does not hold of the code at an outbound HPPB FDDI record: the stream
holds the code of a recognised subsystem and the complete header of the record
(prefix, generic header, nine probe octets and the 80 pad octets they count)
with original length 300, and the decode stores the 80 pad octets into the
4-octet array `dummy` (nettl.c 276, 403-404), past its end, before it reads the
original length from `ip_hdr` and tests it (nettl.c 417-419).  C gives this
decode no defined result, so its success is not guaranteed. -/
theorem C1_pad_read_overrun :
    octet ((sample_hppb_pad 0).data.drop (sample_hppb_pad 0).pos) 3
        = hpux.NETTL_SUBSYS .HPPB_FDDI
    ∧ (sample_hppb_pad 0).pos + (spec_base_size false .HPPB_FDDI
          + spec_quirk_size hpux false .HPPB_FDDI
              ((sample_hppb_pad 0).data.drop (sample_hppb_pad 0).pos))
        = (sample_hppb_pad 0).data.length
    ∧ spec_original_length false .HPPB_FDDI
        ((sample_hppb_pad 0).data.drop (sample_hppb_pad 0).pos) = 300
    ∧ octet ((sample_hppb_pad 0).data.drop (sample_hppb_pad 0).pos) (4 + 60 + 8) = 80
    ∧ (nettl_read_rec_header hpux false (sample_hppb_pad 0) phdr_init (.other 0) 0 none
        false).overrun = true := by
  decide

set_option maxRecDepth 8000 in
/-- C18 does not hold of the code at an outbound HPPB FDDI record stamped 7 s
and 8 µs: octets 36..39 and 40..43 of the generic header hold 7 and 8, and the
decode stores the 80 pad octets into the 4-octet array `dummy` (nettl.c 276,
403-404), past its end, before it reads the time stamp from `ip_hdr` (nettl.c
475-476).  The time stamp it returns is then not determined by the header. -/
theorem C18_pad_read_before_stamp :
    pntohl ((sample_hppb_pad 1).data.drop (sample_hppb_pad 1).pos) (4 + 36) = 7
    ∧ pntohl ((sample_hppb_pad 1).data.drop (sample_hppb_pad 1).pos) (4 + 40) = 8
    ∧ (nettl_read_rec_header hpux false (sample_hppb_pad 1) phdr_init (.other 0) 0 none
        false).overrun = true := by
  decide

set_option maxRecDepth 8000 in
/-- C20 does not hold of the code at an outbound HPPB FDDI record with pad
count 80 and length fields 300, which lie between 9 + 80 and 65535: the read of
the pad stores 80 octets into the 4-octet array `dummy` (nettl.c 276, 403-404),
past its end, before the two lengths are read from `ip_hdr` (nettl.c 417-422).
The lengths it returns are then not determined by the header fields. -/
theorem C20_pad_count_past_array :
    octet ((sample_hppb_pad 1).data.drop (sample_hppb_pad 1).pos) 3
        = hpux.NETTL_SUBSYS .HPPB_FDDI
    ∧ octet ((sample_hppb_pad 1).data.drop (sample_hppb_pad 1).pos) (4 + ip_rectype)
        ≠ hpux.NETTL_HDR_PDUIN
    ∧ octet ((sample_hppb_pad 1).data.drop (sample_hppb_pad 1).pos) (4 + 60 + 8) = 80
    ∧ spec_captured_length false .HPPB_FDDI
        ((sample_hppb_pad 1).data.drop (sample_hppb_pad 1).pos) = 300
    ∧ spec_original_length false .HPPB_FDDI
        ((sample_hppb_pad 1).data.drop (sample_hppb_pad 1).pos) = 300
    ∧ (nettl_read_rec_header hpux false (sample_hppb_pad 1) phdr_init (.other 0) 0 none
        false).overrun = true := by
  decide

set_option maxRecDepth 8000 in
/-- C21 does not hold of the code at a loopback record with length fields 100:
the stream holds the complete header and its 26 pad octets, and the decode
reads these 26 octets into the 4-octet array `dummy` (nettl.c 276, 448),
storing 22 of them past its end.  C gives this decode no defined result. -/
theorem C21_loopback_pad_past_array :
    octet (sample_loopback.data.drop sample_loopback.pos) 3
        = hpux.NETTL_SUBSYS .NS_LS_LOOPBACK
    ∧ spec_captured_length false .NS_LS_LOOPBACK
        (sample_loopback.data.drop sample_loopback.pos) = 100
    ∧ spec_original_length false .NS_LS_LOOPBACK
        (sample_loopback.data.drop sample_loopback.pos) = 100
    ∧ sample_loopback.pos + (4 + 60 + 26) = sample_loopback.data.length
    ∧ (nettl_read_rec_header hpux false sample_loopback phdr_init (.other 0) 0 none
        false).overrun = true := by
  decide

set_option maxRecDepth 8000 in
/-- C23 does not hold of the code at an inbound HPPB FDDI record whose length
fields both hold 65541: the decode succeeds, consumes the 64 octets of the base
header and no pad, and sets the FDDI flag, but the two lengths pass through the
16-bit local `length` (nettl.c 272, 384-388) and come out as 5, not as the
values of the header fields. -/
theorem C23_inbound_lengths_truncated :
    octet (sample_hppb_in_wide.data.drop sample_hppb_in_wide.pos) 3
        = hpux.NETTL_SUBSYS .HPPB_FDDI
    ∧ octet (sample_hppb_in_wide.data.drop sample_hppb_in_wide.pos) (4 + ip_rectype)
        = hpux.NETTL_HDR_PDUIN
    ∧ spec_captured_length false .HPPB_FDDI
        (sample_hppb_in_wide.data.drop sample_hppb_in_wide.pos) = 65541
    ∧ spec_original_length false .HPPB_FDDI
        (sample_hppb_in_wide.data.drop sample_hppb_in_wide.pos) = 65541
    ∧ (nettl_read_rec_header hpux false sample_hppb_in_wide phdr_init (.other 0) 0 none
        false).ret = 64
    ∧ (nettl_read_rec_header hpux false sample_hppb_in_wide phdr_init (.other 0) 0 none
        false).overrun = false
    ∧ (nettl_read_rec_header hpux false sample_hppb_in_wide phdr_init (.other 0) 0 none
        false).fddihack = true
    ∧ (nettl_read_rec_header hpux false sample_hppb_in_wide phdr_init (.other 0) 0 none
        false).phdr.caplen = 5
    ∧ (nettl_read_rec_header hpux false sample_hppb_in_wide phdr_init (.other 0) 0 none
        false).phdr.len = 5 := by
  decide

set_option maxRecDepth 8000 in
/-- C7 fails as stated, in two ways.  On the handle a failed `nettl_read` leaves
(the stream 4 octets past the cursor, after a prefix with an unknown code) the
next `nettl_read` succeeds, reporting record offset 0, and `nettl_seek_read` at
that offset fails.  And at the inbound HPPB FDDI record with the SNAP marker,
whose captured length is 20, `nettl_seek_read` succeeds on a caller's buffer of
twenty octets 8 and on one of twenty octets 9 and leaves the two buffers
different: the octets behind the 17 stored ones are the caller's, so the buffer
is not in both calls the frame `nettl_read` returned. -/
theorem C7_counterexample :
    ((nettl_read hpux (handle_at sample_after_unknown 0 false) 0 none).ok = false
      ∧ (nettl_read hpux (nettl_read hpux (handle_at sample_after_unknown 0 false) 0
            none).wth 0 none).ok = true
      ∧ (nettl_read hpux (nettl_read hpux (handle_at sample_after_unknown 0 false) 0
            none).wth 0 none).data_offset = 0
      ∧ (seek_read_after hpux
            (nettl_read hpux (handle_at sample_after_unknown 0 false) 0 none).wth
            (nettl_read hpux (handle_at sample_after_unknown 0 false) 0 none).wth
            0 none (.other 0) [9, 9] 0 none phdr_init).ok = false)
    ∧ ((nettl_read hpux (handle_at sample_fddi_snap 0 false) 0 none).ok = true
      ∧ (nettl_read hpux (handle_at sample_fddi_snap 0 false) 0 none).wth.phdr.caplen = 20
      ∧ (seek_read_after hpux (handle_at sample_fddi_snap 0 false)
            (handle_at sample_fddi_snap 0 false) 0 none (.other 0)
            (List.replicate 20 8) 0 none phdr_init).ok = true
      ∧ (seek_read_after hpux (handle_at sample_fddi_snap 0 false)
            (handle_at sample_fddi_snap 0 false) 0 none (.other 0)
            (List.replicate 20 9) 0 none phdr_init).ok = true
      ∧ (seek_read_after hpux (handle_at sample_fddi_snap 0 false)
            (handle_at sample_fddi_snap 0 false) 0 none (.other 0)
            (List.replicate 20 8) 0 none phdr_init).pd
          ≠ (seek_read_after hpux (handle_at sample_fddi_snap 0 false)
              (handle_at sample_fddi_snap 0 false) 0 none (.other 0)
              (List.replicate 20 9) 0 none phdr_init).pd) := by
  decide

/-- C7 as amended: when `nettl_read` succeeds on a handle whose cursor equals
the position of its stream, `nettl_seek_read` on a handle over the same stream
and generation, called with the record offset and captured length that
`nettl_read` reported, succeeds and stores the octets `nettl_read` stored in the
frame buffer at the start of the caller's buffer, whose octets behind them stay
as they were; for Ethernet and LAPB records it yields the same pseudo-header
(`fcs_len`, direction flag), and for the other link types neither call writes
the pseudo-header. -/
theorem C7_seek_read_stores_same (K : Consts) (wth wth2 : wtap) (err : Int)
    (err_info : Option String) (p0 : wtap_pseudo_header) (pd0 : List guint8)
    (err2 : Int) (err_info2 : Option String) (phdr0 : wtap_pkthdr)
    (hok : (nettl_read K wth err err_info).ok = true)
    (hcur : (wth.fh.pos : Int) = wth.data_offset)
    (hdata : wth2.random_fh.data = wth.fh.data)
    (herror : wth2.random_fh.error = wth.fh.error)
    (hgen : wth2.is_hpux_11 = wth.is_hpux_11) :
    (seek_read_after K wth wth2 err err_info p0 pd0 err2 err_info2 phdr0).ok = true
    ∧ (seek_read_after K wth wth2 err err_info p0 pd0 err2 err_info2 phdr0).pd
        = (nettl_read K wth err err_info).wth.frame_buffer
            ++ pd0.drop (nettl_read K wth err err_info).wth.frame_buffer.length
    ∧ ((nettl_read K wth err err_info).wth.phdr.pkt_encap = WTAP_ENCAP_ETHERNET
          ∨ (nettl_read K wth err err_info).wth.phdr.pkt_encap = WTAP_ENCAP_LAPB →
        (seek_read_after K wth wth2 err err_info p0 pd0 err2 err_info2 phdr0).pseudo_header
          = (nettl_read K wth err err_info).wth.pseudo_header)
    ∧ (¬ ((nettl_read K wth err err_info).wth.phdr.pkt_encap = WTAP_ENCAP_ETHERNET
          ∨ (nettl_read K wth err err_info).wth.phdr.pkt_encap = WTAP_ENCAP_LAPB) →
        (seek_read_after K wth wth2 err err_info p0 pd0 err2 err_info2 phdr0).pseudo_header
            = p0
        ∧ (nettl_read K wth err err_info).wth.pseudo_header = wth.pseudo_header) := by
  obtain ⟨hpos, hd, k1, kps, kfb, _, _, k4⟩ := nettl_read_ok K wth err err_info hok
  obtain ⟨hti, -⟩ := nettl_read_ok_stream K wth err err_info hok
  have hseek : file_seek wth2.random_fh wth.data_offset = (wth.data_offset, wth.fh) := by
    unfold file_seek
    have : ¬ wth.data_offset < 0 := by omega
    rw [if_neg this]
    have hp : wth.data_offset.toNat = wth.fh.pos := by omega
    rw [hp, hdata, herror]
  have hne : ¬ (wth.data_offset = -1) := by omega
  have hdef : nettl_read_rec_header K wth.is_hpux_11 wth.fh wth.phdr wth.pseudo_header err
      err_info false = nettl_read_header K wth err err_info := rfl
  have hrel := header_rel K wth.is_hpux_11 wth.fh wth.phdr phdr0 wth.pseudo_header p0
    err err2 err_info err_info2 false
  have hps := header_pseudo_rel K wth.is_hpux_11 wth.fh wth.phdr phdr0 wth.pseudo_header
    p0 err err2 err_info err_info2 false hpos
  rw [hdef] at hrel hps
  obtain ⟨r1, r2, r3, r4⟩ := hrel
  have r4 := r4 hpos
  have hirr := rec_data_err_irrelevant K (nettl_read_header K wth err err_info).fh
    ((nettl_read_header K wth err err_info).phdr.caplen : Int)
    (nettl_read_rec_header K wth.is_hpux_11 wth.fh phdr0 p0 err2 err_info2 false).err
    (nettl_read_header K wth err err_info).err
    (nettl_read_header K wth err err_info).fddihack
  have hdd : nettl_read_rec_data K (nettl_read_header K wth err err_info).fh
      ((nettl_read_header K wth err err_info).phdr.caplen : Int)
      (nettl_read_header K wth err err_info).err
      (nettl_read_header K wth err err_info).fddihack
        = nettl_read_data K wth err err_info := by
    unfold nettl_read_data; rw [hti]
  rw [hdd] at hirr
  have hnr : ¬ (nettl_read_rec_header K wth.is_hpux_11 wth.fh phdr0 p0 err2 err_info2
      false).ret ≤ 0 := by rw [← r1]; omega
  have hsr : seek_read_after K wth wth2 err err_info p0 pd0 err2 err_info2 phdr0
      = ⟨(nettl_read_data K wth err err_info).ok,
          (nettl_read_rec_data K (nettl_read_header K wth err err_info).fh
            ((nettl_read_header K wth err err_info).phdr.caplen : Int)
            (nettl_read_rec_header K wth.is_hpux_11 wth.fh phdr0 p0 err2 err_info2
              false).err
            (nettl_read_header K wth err err_info).fddihack).err,
          (nettl_read_rec_header K wth.is_hpux_11 wth.fh phdr0 p0 err2 err_info2
            false).err_info,
          (nettl_read_rec_header K wth.is_hpux_11 wth.fh phdr0 p0 err2 err_info2
            false).pseudo_header,
          (nettl_read_data K wth err err_info).pd
            ++ pd0.drop (nettl_read_data K wth err err_info).pd.length,
          { wth2 with random_fh := (nettl_read_data K wth err err_info).fh }⟩ := by
    unfold seek_read_after nettl_seek_read
    simp only [k4, k1, hseek, hne, if_false, hgen, hnr]
    rw [← r2, ← r3, hirr.1, hirr.2.1, hirr.2.2]
  rw [hsr, k1, kps, kfb]
  refine ⟨hd, rfl, ?_, ?_⟩
  · intro he
    exact (hps.1 he).symm
  · intro hn
    exact ⟨(hps.2 hn).2, (hps.2 hn).1⟩

/-- C7 as amended, at the inbound HPPB FDDI record with the SNAP marker, re-read
from offset 0 into a caller's buffer of 20 octets and a pseudo-header of its
own: 17 octets are stored and the last 3 octets of the buffer stay. -/
theorem C7_seek_read_stores_same_witness :
    ((nettl_read hpux (handle_at sample_fddi_snap 0 false) 0 none).ok = true
      ∧ (((handle_at sample_fddi_snap 0 false).fh.pos : Nat) : Int)
          = (handle_at sample_fddi_snap 0 false).data_offset)
    ∧ (seek_read_after hpux (handle_at sample_fddi_snap 0 false)
          (handle_at sample_fddi_snap 0 false) 0 none (.other 7) (List.replicate 20 9) 0
          none phdr_init).ok = true
    ∧ (seek_read_after hpux (handle_at sample_fddi_snap 0 false)
          (handle_at sample_fddi_snap 0 false) 0 none (.other 7) (List.replicate 20 9) 0
          none phdr_init).pd
        = (nettl_read hpux (handle_at sample_fddi_snap 0 false) 0 none).wth.frame_buffer
            ++ (List.replicate 20 9).drop
                (nettl_read hpux (handle_at sample_fddi_snap 0 false) 0
                  none).wth.frame_buffer.length :=
  ⟨⟨by decide, by decide⟩,
    (C7_seek_read_stores_same hpux (handle_at sample_fddi_snap 0 false)
      (handle_at sample_fddi_snap 0 false) 0 none (.other 7) (List.replicate 20 9) 0 none
      phdr_init (by decide) (by decide) rfl rfl rfl).1,
    (C7_seek_read_stores_same hpux (handle_at sample_fddi_snap 0 false)
      (handle_at sample_fddi_snap 0 false) 0 none (.other 7) (List.replicate 20 9) 0 none
      phdr_init (by decide) (by decide) rfl rfl rfl).2.1⟩

/-- C10 as amended: for every record decoded successfully by a decode whose pad
reads fit the array `dummy`, the original-length field of the header is greater
than zero, and where that field exceeds the pad adjustment of the record and is
at most 65535 the original length is the field less the pad adjustment, hence
greater than zero; a complete record whose original-length field is zero,
decoded with pad reads that fit `dummy`, is reported as the end of the usable
data (return value 0).  The captured length is not tested. -/
theorem C10_original_length_field_checked (K : Consts) (hK : K.Distinct)
    (is_hpux_11 : Bool) (fh : FILE_T) (phdr : wtap_pkthdr) (ph : wtap_pseudo_header)
    (err : Int) (err_info : Option String) (fddihack : Bool) :
    (0 < (nettl_read_rec_header K is_hpux_11 fh phdr ph err err_info fddihack).ret →
      (nettl_read_rec_header K is_hpux_11 fh phdr ph err err_info fddihack).overrun
          = false →
      ∃ s : Subsys, octet (fh.data.drop fh.pos) 3 = K.NETTL_SUBSYS s
        ∧ 0 < spec_original_length is_hpux_11 s (fh.data.drop fh.pos)
        ∧ (spec_pad K is_hpux_11 s (fh.data.drop fh.pos)
              < spec_original_length is_hpux_11 s (fh.data.drop fh.pos) →
            spec_original_length is_hpux_11 s (fh.data.drop fh.pos) ≤ 65535 →
            (nettl_read_rec_header K is_hpux_11 fh phdr ph err err_info fddihack).phdr.len
                = spec_original_length is_hpux_11 s (fh.data.drop fh.pos)
                    - spec_pad K is_hpux_11 s (fh.data.drop fh.pos)
            ∧ 0 < (nettl_read_rec_header K is_hpux_11 fh phdr ph err err_info
                    fddihack).phdr.len))
    ∧ (∀ s : Subsys, octet (fh.data.drop fh.pos) 3 = K.NETTL_SUBSYS s →
        fh.pos + (spec_base_size is_hpux_11 s
          + spec_quirk_size K is_hpux_11 s (fh.data.drop fh.pos)) ≤ fh.data.length →
        spec_original_length is_hpux_11 s (fh.data.drop fh.pos) = 0 →
        (nettl_read_rec_header K is_hpux_11 fh phdr ph err err_info fddihack).overrun
            = false →
        (nettl_read_rec_header K is_hpux_11 fh phdr ph err err_info fddihack).ret = 0) := by
  constructor
  · intro h _
    obtain ⟨s, hcode, hcomplete⟩ :=
      header_inv K hK is_hpux_11 fh phdr ph err err_info fddihack h
    have hv := header_value K hK s is_hpux_11 fh phdr ph err err_info fddihack hcode
      hcomplete
    have hne : spec_original_length is_hpux_11 s (fh.data.drop fh.pos) % 65536 ≠ 0 := by
      intro h0
      rw [hv.1, if_pos h0] at h
      exact lt_irrefl _ h
    refine ⟨s, hcode, ?_, fun hp hle => ?_⟩
    · rcases Nat.eq_zero_or_pos
        (spec_original_length is_hpux_11 s (fh.data.drop fh.pos)) with h0 | h0
      · rw [h0] at hne
        exact absurd rfl hne
      · exact h0
    · have hl := (hv.2 hne).1
      rw [Nat.mod_eq_of_lt (by omega)] at hl
      rw [hl]
      unfold toUInt32
      omega
  · intro s hcode hcomplete h0 _
    have hv := header_value K hK s is_hpux_11 fh phdr ph err err_info fddihack hcode
      hcomplete
    rw [hv.1, h0]
    rfl

/-- C10 as amended, at a complete LAN100 record whose original-length field is
0, which the decoder reports as the end of the data, and at the LAN100 record
with captured length 0 and original length 1, which it returns. -/
theorem C10_original_length_field_checked_witness :
    ((octet (sample_zero_length.data.drop sample_zero_length.pos) 3
          = hpux.NETTL_SUBSYS .LAN100
        ∧ sample_zero_length.pos + (spec_base_size false .LAN100
            + spec_quirk_size hpux false .LAN100
                (sample_zero_length.data.drop sample_zero_length.pos))
            ≤ sample_zero_length.data.length
        ∧ spec_original_length false .LAN100
            (sample_zero_length.data.drop sample_zero_length.pos) = 0
        ∧ (nettl_read_rec_header hpux false sample_zero_length phdr_init (.other 0) 0 none
            false).overrun = false)
      ∧ (nettl_read_rec_header hpux false sample_zero_length phdr_init (.other 0) 0 none
          false).ret = 0)
    ∧ ((0 < (nettl_read_rec_header hpux false sample_zero_caplen phdr_init (.other 0) 0
            none false).ret
        ∧ (nettl_read_rec_header hpux false sample_zero_caplen phdr_init (.other 0) 0
            none false).overrun = false)
      ∧ ∃ s : Subsys, octet (sample_zero_caplen.data.drop sample_zero_caplen.pos) 3
            = hpux.NETTL_SUBSYS s
          ∧ 0 < spec_original_length false s
              (sample_zero_caplen.data.drop sample_zero_caplen.pos)
          ∧ (spec_pad hpux false s (sample_zero_caplen.data.drop sample_zero_caplen.pos)
                < spec_original_length false s
                    (sample_zero_caplen.data.drop sample_zero_caplen.pos) →
              spec_original_length false s
                  (sample_zero_caplen.data.drop sample_zero_caplen.pos) ≤ 65535 →
              (nettl_read_rec_header hpux false sample_zero_caplen phdr_init (.other 0) 0
                  none false).phdr.len
                  = spec_original_length false s
                        (sample_zero_caplen.data.drop sample_zero_caplen.pos)
                      - spec_pad hpux false s
                          (sample_zero_caplen.data.drop sample_zero_caplen.pos)
              ∧ 0 < (nettl_read_rec_header hpux false sample_zero_caplen phdr_init
                      (.other 0) 0 none false).phdr.len)) :=
  ⟨⟨⟨by decide, by decide, by decide, by decide⟩,
      (C10_original_length_field_checked hpux hpux_distinct false sample_zero_length
        phdr_init (.other 0) 0 none false).2 .LAN100 (by decide) (by decide) (by decide)
        (by decide)⟩,
    ⟨by decide, by decide⟩,
    (C10_original_length_field_checked hpux hpux_distinct false sample_zero_caplen
      phdr_init (.other 0) 0 none false).1 (by decide) (by decide)⟩

end Nettl

namespace IsisClv

open Nettl (guint8)

/-! ## Facts about the IS-IS CLV dissectors -/

/-- Every path of `isis_dissect_authentication_clv` that reaches the store of
the terminator stores it at index `SBUF_LEN`. -/
theorem auth_terminator_index (tvb : tvbuff_t) (offset length : Int) (meaning : String)
    (i : Nat)
    (h : (isis_dissect_authentication_clv tvb offset length meaning).terminator = some i) :
    i = SBUF_LEN := by
  unfold isis_dissect_authentication_clv at h
  simp only [] at h
  split at h <;> (try split at h) <;> (try split at h) <;> (try split at h)
    <;> (try split at h) <;> (try split at h) <;> (try split at h)
    <;> simp_all [auth_finish]

/-- Every call of `isis_dissect_authentication_clv` with a length above 0
whose reads do not throw reaches the store of the terminator. -/
theorem auth_terminator_reached (tvb : tvbuff_t) (offset length : Int) (meaning : String)
    (hl : 0 < length)
    (h : (isis_dissect_authentication_clv tvb offset length meaning).thrown = false) :
    (isis_dissect_authentication_clv tvb offset length meaning).terminator
      = some SBUF_LEN := by
  by_contra hc
  unfold isis_dissect_authentication_clv at h hc
  rw [if_neg (by omega)] at h hc
  simp only [] at h hc
  split at h <;> (try split at h) <;> (try split at h) <;> (try split at h)
    <;> (try split at h) <;> (try split at h)
    <;> simp_all [auth_finish]

/-- C25 at its failing input: for an authentication CLV of two octets with
type 5, `isis_dissect_authentication_clv` stores the terminator at index 300,
which is `SBUF_LEN`, the capacity of `sbuf`: one past its last valid index. -/
theorem C25_terminator_past_buffer :
    (isis_dissect_authentication_clv sample_auth 0 2 "Authentication").thrown = false
    ∧ (isis_dissect_authentication_clv sample_auth 0 2 "Authentication").terminator
        = some 300
    ∧ (isis_dissect_authentication_clv sample_auth 0 2 "Authentication").stores.getLast?
        = some (300, 0)
    ∧ SBUF_LEN = 300
    ∧ ¬ (300 < SBUF_LEN) := by
  decide

theorem tvb_get_guint8_nonneg (tvb : tvbuff_t) (offset : Int) (h : 0 ≤ offset) :
    tvb_get_guint8 tvb offset = tvb[offset.toNat]? := by
  unfold tvb_get_guint8 tvb_index
  rw [if_pos h]
  split_ifs with hlt
  · rfl
  · simp only
    exact (List.getElem?_eq_none (by omega)).symm

/-- An octet of an area that is inside the buffer is the octet of the buffer
at the same place. -/
theorem area_getElem (tvb : tvbuff_t) (n m : Nat) (a : List guint8)
    (h : (tvb.drop n).take m = a) (i : Nat) (hi : i < a.length) :
    tvb[n + i]? = a[i]? := by
  subst h
  have hm : i < m := by
    have := hi
    simp only [List.length_take] at this
    omega
  rw [List.getElem?_take_of_lt hm, List.getElem?_drop]

/-- The area that is left after the first octets `x` of an area. -/
theorem area_rest (tvb : tvbuff_t) (n m : Nat) (x y : List guint8)
    (h : (tvb.drop n).take m = x ++ y) :
    (tvb.drop (n + x.length)).take (m - x.length) = y := by
  have h1 : ((tvb.drop n).take m).drop x.length = y := by
    rw [h]; simp
  rw [← h1, List.drop_take, List.drop_drop]

/-- Where the search loop stops: at the first entry of the table proper that
carries the code, found with a handler, or else at an entry without handler
or past the end of the array. -/
theorem clv_search_spec (os : List isis_clv_handle_t) (code : Int) (q : Nat) :
    (∀ i o, spec_first_match (spec_clv_table os) code q = some (i, o) →
        clv_search os code q = i ∧ q ≤ i ∧ os[i - q]? = some o ∧ o.dissect.isSome = true)
    ∧ (spec_first_match (spec_clv_table os) code q = none →
        q ≤ clv_search os code q
        ∧ (os[clv_search os code q - q]?).bind (fun o => o.dissect) = none) := by
  induction os generalizing q with
  | nil =>
    simp [spec_clv_table, spec_first_match, clv_search]
  | cons o os ih =>
    cases hd : o.dissect with
    | none =>
      simp [spec_clv_table, spec_first_match, clv_search, hd]
    | some handler =>
      by_cases hc : o.optcode = code
      · simp [spec_clv_table, spec_first_match, clv_search, hd, hc]
      · have hih := ih (q + 1)
        have e1 : spec_first_match (spec_clv_table (o :: os)) code q
            = spec_first_match (spec_clv_table os) code (q + 1) := by
          simp [spec_clv_table, spec_first_match, hd, hc]
        have e2 : clv_search (o :: os) code q = clv_search os code (q + 1) := by
          simp [clv_search, hd, hc]
        rw [e1, e2]
        constructor
        · intro i o' hm
          obtain ⟨h1, h2, h3, h4⟩ := hih.1 i o' hm
          refine ⟨h1, by omega, ?_, h4⟩
          have : i - q = (i - (q + 1)) + 1 := by omega
          rw [this, List.getElem?_cons_succ]
          exact h3
        · intro hm
          obtain ⟨h1, h2⟩ := hih.2 hm
          refine ⟨by omega, ?_⟩
          have : clv_search os code (q + 1) - q = (clv_search os code (q + 1) - (q + 1)) + 1 := by
            omega
          rw [this, List.getElem?_cons_succ]
          exact h2

/-- The calls `isis_dissect_clvs` makes for a CLV that fits are those of the
dispatch to the first table entry that carries its code. -/
theorem clv_item_spec (tree : Bool) (opts : List isis_clv_handle_t)
    (id_length unknown_tree_id : Int) (code length : guint8) (offset : Int) :
    clv_item tree opts id_length unknown_tree_id (clv_search opts code.val 0) code length
        offset
      = spec_clv_dispatch tree opts id_length unknown_tree_id code length.val offset := by
  obtain ⟨h1, h2⟩ := clv_search_spec opts code.val 0
  unfold clv_item spec_clv_dispatch
  cases hm : spec_first_match (spec_clv_table opts) (code.val : Int) 0 with
  | none =>
    have := (h2 hm).2
    simp only [Nat.sub_zero] at this
    cases ho : opts[clv_search opts (code.val : Int) 0]? with
    | none => simp [clv_unknown_item]
    | some o =>
      rw [ho] at this
      simp only [Option.some_bind] at this
      simp [this, clv_unknown_item]
  | some p =>
    obtain ⟨i, o⟩ := p
    obtain ⟨e1, _, e3, e4⟩ := h1 i o hm
    simp only [Nat.sub_zero] at e3
    rw [e1, e3]
    cases hd : o.dissect with
    | none => simp [hd] at e4
    | some handler => simp [clv_known_item, hd]

/-- One round of the loop of `isis_dissect_clvs` on a code octet `c` and a
length octet `l`: the note on a short CLV when `2 + l` exceeds what is left of
the area, else the item of the CLV followed by the rounds on the rest. -/
theorem clvs_loop_step (tvb : tvbuff_t) (tree : Bool) (opts : List isis_clv_handle_t)
    (id_length unknown_tree_id : Int) (fuel : Nat) (offset len : Int) (c l : guint8)
    (hlen : 0 < len) (h1 : tvb_get_guint8 tvb offset = some c)
    (h2 : tvb_get_guint8 tvb (offset + 1) = some l) :
    clvs_loop tvb tree opts id_length unknown_tree_id (fuel + 1) offset len
      = (if len - (2 + (l.val : Int)) < 0 then
          ⟨[Event.unknown (offset + 2) (short_clv_text (2 + (l.val : Int)) len)],
            .short_clv⟩
         else
          ⟨clv_item tree opts id_length unknown_tree_id (clv_search opts c.val 0) c l
              (offset + 2)
            ++ (clvs_loop tvb tree opts id_length unknown_tree_id fuel
                  (offset + 2 + (l.val : Int)) (len - (2 + (l.val : Int)))).events,
            (clvs_loop tvb tree opts id_length unknown_tree_id fuel
                  (offset + 2 + (l.val : Int)) (len - (2 + (l.val : Int)))).stop⟩) := by
  have e1 : (1 : Int) + 1 + (l.val : Int) = 2 + (l.val : Int) := by ring
  have e2 : offset + 1 + 1 = offset + 2 := by ring
  have e3 : len - (2 + (l.val : Int)) + (2 + (l.val : Int)) = len := by ring
  rw [clvs_loop]
  simp only [gt_iff_lt, hlen, if_true, h1, h2, e1, e2, e3]

theorem clvs_loop_done (tvb : tvbuff_t) (tree : Bool) (opts : List isis_clv_handle_t)
    (id_length unknown_tree_id : Int) (fuel : Nat) (offset len : Int) (hlen : len ≤ 0) :
    clvs_loop tvb tree opts id_length unknown_tree_id fuel offset len = ⟨[], .finished⟩ := by
  cases fuel <;> simp [clvs_loop, not_lt.mpr hlen]

theorem ofNat_length_val (v : List guint8) (h : v.length ≤ 255) :
    ((Fin.ofNat v.length : guint8).val : Int) = v.length := by
  have : (Fin.ofNat v.length : guint8).val = v.length := by
    simp [Fin.ofNat]; omega
  rw [this]

/-- The walk of the loop over an area that holds the CLVs `es` followed by the
octets `t` of no complete CLV: every CLV of `es` is dispatched once, in order,
and `t` ends the walk. -/
theorem clvs_loop_walk (tvb : tvbuff_t) (tree : Bool) (opts : List isis_clv_handle_t)
    (id_length unknown_tree_id : Int) (es : List (guint8 × List guint8))
    (t : List guint8) (ht : spec_clv_incomplete t) :
    ∀ (fuel : Nat) (offset len : Int), 0 ≤ offset →
      (∀ e ∈ es, e.2.length ≤ 255) →
      (tvb.drop offset.toNat).take len.toNat = clv_encode es ++ t →
      ((clv_encode es ++ t).length : Int) = len →
      len.toNat ≤ fuel →
      clvs_loop tvb tree opts id_length unknown_tree_id fuel offset len
        = ⟨spec_clv_events tree opts id_length unknown_tree_id es offset
            ++ (spec_clv_tail tvb t (offset + (clv_encode es).length)).events,
           (spec_clv_tail tvb t (offset + (clv_encode es).length)).stop⟩ := by
  induction es with
  | nil =>
    intro fuel offset len hoff _ harea hlen hfuel
    simp only [clv_encode, List.nil_append, spec_clv_events, List.length_nil,
      Nat.cast_zero, add_zero] at harea hlen ⊢
    match t, ht, harea, hlen with
    | [], _, _, hlen =>
      simp only [List.length_nil, Nat.cast_zero] at hlen
      rw [clvs_loop_done _ _ _ _ _ _ _ _ (by omega)]
      rfl
    | [c], _, harea, hlen =>
      simp only [List.length_singleton, Nat.cast_one] at hlen
      obtain ⟨f, rfl⟩ : ∃ f, fuel = f + 1 := ⟨fuel - 1, by omega⟩
      have g1 : tvb_get_guint8 tvb offset = some c := by
        rw [tvb_get_guint8_nonneg _ _ hoff]
        have := area_getElem tvb offset.toNat len.toNat [c] harea 0 (by simp)
        simpa using this
      simp only [spec_clv_tail]
      cases g2 : tvb_get_guint8 tvb (offset + 1) with
      | none =>
        rw [clvs_loop]
        simp [g1, g2, ← hlen]
      | some l =>
        rw [clvs_loop_step _ _ _ _ _ _ _ _ c l (by omega) g1 g2, if_pos (by omega), ← hlen]
    | c :: l :: v, ht, harea, hlen =>
      simp only [List.length_cons, Nat.cast_add, Nat.cast_one] at hlen
      simp only [spec_clv_incomplete] at ht
      obtain ⟨f, rfl⟩ : ∃ f, fuel = f + 1 := ⟨fuel - 1, by omega⟩
      have g1 : tvb_get_guint8 tvb offset = some c := by
        rw [tvb_get_guint8_nonneg _ _ hoff]
        have := area_getElem tvb offset.toNat len.toNat _ harea 0 (by simp)
        simpa using this
      have g2 : tvb_get_guint8 tvb (offset + 1) = some l := by
        rw [tvb_get_guint8_nonneg _ _ (by omega)]
        have := area_getElem tvb offset.toNat len.toNat _ harea 1 (by simp)
        have e : (offset + 1).toNat = offset.toNat + 1 := by omega
        rw [e]
        simpa using this
      rw [clvs_loop_step _ _ _ _ _ _ _ _ c l (by omega) g1 g2, if_pos (by omega)]
      simp only [spec_clv_tail]
      have e : len = 2 + (v.length : Int) := by omega
      rw [e]
  | cons e es ih =>
    intro fuel offset len hoff hval harea hlen hfuel
    have hv : e.2.length ≤ 255 := hval e (List.mem_cons_self _ _)
    have hl := ofNat_length_val e.2 hv
    simp only [clv_encode, List.cons_append, List.append_assoc, List.length_cons,
      List.length_append, Nat.cast_add, Nat.cast_one] at harea hlen
    obtain ⟨f, rfl⟩ : ∃ f, fuel = f + 1 := ⟨fuel - 1, by omega⟩
    have g1 : tvb_get_guint8 tvb offset = some e.1 := by
      rw [tvb_get_guint8_nonneg _ _ hoff]
      have := area_getElem tvb offset.toNat len.toNat _ harea 0 (by simp)
      simpa using this
    have g2 : tvb_get_guint8 tvb (offset + 1) = some (Fin.ofNat e.2.length) := by
      rw [tvb_get_guint8_nonneg _ _ (by omega)]
      have := area_getElem tvb offset.toNat len.toNat _ harea 1 (by simp)
      have e' : (offset + 1).toNat = offset.toNat + 1 := by omega
      rw [e']
      simpa using this
    rw [clvs_loop_step _ _ _ _ _ _ _ _ e.1 (Fin.ofNat e.2.length) (by omega) g1 g2, hl,
      if_neg (by omega)]
    have harea' : (tvb.drop (offset + 2 + (e.2.length : Int)).toNat).take
        (len - (2 + (e.2.length : Int))).toNat = clv_encode es ++ t := by
      have hx : e.1 :: Fin.ofNat e.2.length :: (e.2 ++ (clv_encode es ++ t))
          = (e.1 :: Fin.ofNat e.2.length :: e.2) ++ (clv_encode es ++ t) := by simp
      rw [hx] at harea
      have := area_rest tvb offset.toNat len.toNat _ _ harea
      simp only [List.length_cons] at this
      have e1 : (offset + 2 + (e.2.length : Int)).toNat = offset.toNat + (e.2.length + 1 + 1) := by
        omega
      have e2 : (len - (2 + (e.2.length : Int))).toNat = len.toNat - (e.2.length + 1 + 1) := by
        omega
      rw [e1, e2]
      exact this
    have hih := ih f (offset + 2 + (e.2.length : Int)) (len - (2 + (e.2.length : Int)))
      (by omega) (fun e' he' => hval e' (List.mem_cons_of_mem _ he')) harea'
      (by simp only [List.length_append, Nat.cast_add]; omega) (by omega)
    rw [hih, clv_item_spec]
    have e3 : offset + ((e.2.length + (clv_encode es).length + 1 + 1 : Nat) : Int)
        = offset + 2 + (e.2.length : Int) + ((clv_encode es).length : Int) := by
      push_cast; ring
    have e4 : ((Fin.ofNat e.2.length : guint8).val) = e.2.length := by
      have := hl
      exact_mod_cast this
    simp only [spec_clv_events, clv_encode, List.length_cons, List.length_append,
      List.append_assoc, e3, e4]

/-- Every list of octets is a sequence of complete CLVs followed by octets
that hold no complete CLV. -/
theorem clv_decompose (a : List guint8) :
    ∃ (es : List (guint8 × List guint8)) (t : List guint8),
      a = clv_encode es ++ t ∧ (∀ e ∈ es, e.2.length ≤ 255) ∧ spec_clv_incomplete t := by
  suffices H : ∀ (n : Nat) (a : List guint8), a.length = n →
      ∃ (es : List (guint8 × List guint8)) (t : List guint8),
        a = clv_encode es ++ t ∧ (∀ e ∈ es, e.2.length ≤ 255) ∧ spec_clv_incomplete t from
    H _ a rfl
  intro n
  induction n using Nat.strong_induction_on with
  | _ n ih =>
    intro a hn
    match a, hn with
    | [], _ => exact ⟨[], [], rfl, by simp, trivial⟩
    | [c], _ => exact ⟨[], [c], rfl, by simp, trivial⟩
    | c :: l :: w, hn =>
      by_cases hfit : l.val ≤ w.length
      · obtain ⟨es, t, h1, h2, h3⟩ := ih (w.drop l.val).length
          (by simp only [List.length_cons, List.length_drop] at hn ⊢; omega)
          (w.drop l.val) rfl
        have hlen : (w.take l.val).length = l.val := by
          simp only [List.length_take]; omega
        refine ⟨(c, w.take l.val) :: es, t, ?_, ?_, h3⟩
        · have hl : (Fin.ofNat (w.take l.val).length : guint8) = l := by
            rw [hlen]
            apply Fin.ext
            simp [Fin.ofNat]
          simp only [clv_encode, hl, List.cons_append, List.append_assoc]
          rw [← h1, List.take_append_drop]
        · intro e he
          rcases List.mem_cons.mp he with rfl | he
          · simp only [hlen]
            have := l.isLt
            omega
          · exact h2 e he
      · exact ⟨[], c :: l :: w, rfl, by simp, by simpa [spec_clv_incomplete] using hfit⟩

theorem spec_clv_tail_stop (tvb : tvbuff_t) (t : List guint8) (offset : Int) :
    (spec_clv_tail tvb t offset).stop ≠ .out_of_fuel
    ∧ (t = [] → spec_clv_tail tvb t offset = ⟨[], .finished⟩)
    ∧ (2 ≤ t.length → (spec_clv_tail tvb t offset).stop = .short_clv) := by
  match t with
  | [] => simp [spec_clv_tail]
  | [c] =>
    simp only [spec_clv_tail]
    cases tvb_get_guint8 tvb (offset + 1) <;> simp
  | c :: l :: v => simp [spec_clv_tail]

/-- C27: for every CLV area of `len` octets that lies inside the buffer and
every handler table, `isis_dissect_clvs` terminates (the walk never runs out of
rounds).  The area is a sequence of complete CLVs (code octet, length octet,
value) followed by octets that hold no complete CLV, and for every such
reading of the area the calls made are, for each complete CLV in stream order,
one dispatch to the first entry of the table that carries its code (with the
offset of the first octet of its value and the length of its value) or the item
for an unknown code when no entry carries it, each CLV taking 2 octets more than
its value; then, when octets are left, the note on a short CLV, after which
nothing is dispatched (for a lone code octet at the very end of the buffer the
read of its length octet throws instead). -/
theorem C27_clv_walk (tvb : tvbuff_t) (tree : Bool) (offset : Int)
    (opts : List isis_clv_handle_t) (len id_length unknown_tree_id : Int)
    (hoff : 0 ≤ offset) (hin : offset + len ≤ tvb.length) :
    (∃ (es : List (guint8 × List guint8)) (t : List guint8),
        (tvb.drop offset.toNat).take len.toNat = clv_encode es ++ t
        ∧ (∀ e ∈ es, e.2.length ≤ 255) ∧ spec_clv_incomplete t)
    ∧ (∀ (es : List (guint8 × List guint8)) (t : List guint8),
        (tvb.drop offset.toNat).take len.toNat = clv_encode es ++ t →
        (∀ e ∈ es, e.2.length ≤ 255) → spec_clv_incomplete t →
        (isis_dissect_clvs tvb tree offset opts len id_length unknown_tree_id).events
            = spec_clv_events tree opts id_length unknown_tree_id es offset
              ++ (spec_clv_tail tvb t (offset + (clv_encode es).length)).events
        ∧ (isis_dissect_clvs tvb tree offset opts len id_length unknown_tree_id).stop
            = (spec_clv_tail tvb t (offset + (clv_encode es).length)).stop
        ∧ (t = [] →
            (isis_dissect_clvs tvb tree offset opts len id_length unknown_tree_id).stop
              = .finished)
        ∧ (2 ≤ t.length →
            (isis_dissect_clvs tvb tree offset opts len id_length unknown_tree_id).stop
              = .short_clv))
    ∧ (isis_dissect_clvs tvb tree offset opts len id_length unknown_tree_id).stop
        ≠ .out_of_fuel := by
  have hdec := clv_decompose ((tvb.drop offset.toNat).take len.toNat)
  have hall : ∀ (es : List (guint8 × List guint8)) (t : List guint8),
      (tvb.drop offset.toNat).take len.toNat = clv_encode es ++ t →
      (∀ e ∈ es, e.2.length ≤ 255) → spec_clv_incomplete t →
      isis_dissect_clvs tvb tree offset opts len id_length unknown_tree_id
        = ⟨spec_clv_events tree opts id_length unknown_tree_id es offset
            ++ (spec_clv_tail tvb t (offset + (clv_encode es).length)).events,
           (spec_clv_tail tvb t (offset + (clv_encode es).length)).stop⟩ := by
    intro es t harea hval ht
    unfold isis_dissect_clvs
    by_cases hl : len ≤ 0
    · have h0 : len.toNat = 0 := by omega
      rw [h0, List.take_zero] at harea
      have hnil : clv_encode es ++ t = [] := harea.symm
      obtain ⟨h1, h2⟩ := List.append_eq_nil.mp hnil
      have hes : es = [] := by
        cases es with
        | nil => rfl
        | cons e es => simp [clv_encode] at h1
      subst hes; subst h2
      rw [clvs_loop_done _ _ _ _ _ _ _ _ hl]
      rfl
    · have hlen : ((clv_encode es ++ t).length : Int) = len := by
        rw [← harea]
        simp only [List.length_take, List.length_drop]
        omega
      exact clvs_loop_walk tvb tree opts id_length unknown_tree_id es t ht _ offset len hoff
        hval harea hlen le_rfl
  refine ⟨hdec, fun es t harea hval ht => ?_, ?_⟩
  · have h := hall es t harea hval ht
    have hs := spec_clv_tail_stop tvb t (offset + (clv_encode es).length)
    rw [h]
    refine ⟨rfl, rfl, fun h0 => ?_, fun h2 => hs.2.2 h2⟩
    simp only [hs.2.1 h0]
  · obtain ⟨es, t, harea, hval, ht⟩ := hdec
    rw [hall es t harea hval ht]
    exact (spec_clv_tail_stop tvb t _).1

/-- C27 on a 10-octet area and a three-entry table: the CLV of code 2 goes to
entry 1, the CLV of code 7 is unknown, and the CLV of code 1 that announces 9
value octets where 2 are left is reported short and not dispatched. -/
theorem C27_clv_walk_witness :
    (isis_dissect_clvs sample_clvs true 0 sample_opts 10 6 99).events
        = [Event.add_text 0 4 "IS Neighbor(s) (2)", Event.add_subtree 102,
            Event.dissect 1 20 true 2 6 2,
            Event.add_text 4 2 "Unknown code 7 (0)", Event.add_subtree 99,
            Event.unknown 8 "Short CLV header (11 vs 4)"]
    ∧ (isis_dissect_clvs sample_clvs true 0 sample_opts 10 6 99).stop = .short_clv
    ∧ (isis_dissect_clvs sample_clvs true 0 sample_opts 10 6 99).stop ≠ .out_of_fuel :=
  have h := C27_clv_walk sample_clvs true 0 sample_opts 10 6 99 (by decide) (by decide)
  have hw := h.2.1 [(2, [0xAA, 0xBB]), (7, [])] [1, 9, 0xCC, 0xDD] (by decide)
    (by decide) (by decide)
  ⟨hw.1.trans (by decide), hw.2.2.2 (by decide), h.2.2⟩

end IsisClv
